import Mathlib

/-!
# ARM SMMU driver (`drivers/iommu/arm-smmu.c`): stream mapping table and context banks

A shallow embedding of the resource-management core of the ARM SMMU driver:
the stream-match / stream-to-context tables (`arm_smmu_find_sme`,
`arm_smmu_free_sme`, `arm_smmu_master_alloc_smes`, `arm_smmu_master_free_smes`),
the context-bank bitmap (`__arm_smmu_alloc_bitmap`, `__arm_smmu_free_bitmap`),
domain finalisation (`arm_smmu_init_domain_context`,
`arm_smmu_destroy_domain_context`), and the device entry points
(`arm_smmu_add_device`, `arm_smmu_attach_dev`, `arm_smmu_domain_add_master`,
`arm_smmu_device_group`).

Conventions.
* C `u16`/`u32` values are natural numbers; where the C code truncates, the
  truncation is written out (`% 2 ^ 16`, `s16_cast`).
* `int` results follow the kernel convention: a non-negative value or `-errno`.
* A C array is a `List`; a `NULL` array pointer is `none`.
* Results of collaborators outside this file (IOMMU group lookup, page-table
  allocation, IRQ registration, `kzalloc`, runtime PM) are explicit arguments.
-/

namespace ArmSmmu

/-! ## Constants -/

/-- Modelled from the spec: the error code `ENOMEM`, declared outside `arm-smmu.c` in
`errno-base.h`; the number is that of the kernel. -/
def ENOMEM : Int := 12
/-- Modelled from the spec: the error code `EEXIST`, declared outside `arm-smmu.c` in
`errno-base.h`; the number is that of the kernel. -/
def EEXIST : Int := 17
/-- Modelled from the spec: the error code `EINVAL` (`Conflict`, `InvalidStreamId`),
declared outside `arm-smmu.c` in `errno-base.h`; the number is that of the kernel. -/
def EINVAL : Int := 22
/-- Modelled from the spec: the error code `ENOSPC` (`ResourceExhausted`), declared
outside `arm-smmu.c` in `errno-base.h`; the number is that of the kernel. -/
def ENOSPC : Int := 28

/-- Modelled from the spec: `SMR_MASK_SHIFT`, declared outside `arm-smmu.c` in
`arm-smmu-regs.h`: the mask is the high 16 bits of a firmware ID word, the ID the low
16 bits. -/
def SMR_MASK_SHIFT : Nat := 16

/-- The sentinel `INVALID_SMENDX` of the source. -/
def INVALID_SMENDX : Int := -1

/-- Bit pattern of the C expression `~x` when `x` has been promoted to a 32-bit `int`. -/
def not32 (x : Nat) : Nat := (2 ^ 32 - 1) ^^^ x

/-- C conversion `(s16)v` of a non-negative `int` value: keep the low 16 bits, read as
two's complement. -/
def s16_cast (v : Int) : Int :=
  let r := v % 65536
  if r < 32768 then r else r - 65536

/-! ## Data model -/

/-- Mirror of `struct arm_smmu_smr`. -/
structure arm_smmu_smr where
  mask : Nat
  id : Nat
  valid : Bool
deriving DecidableEq, Repr, Inhabited

/-- Modelled from the spec: `enum arm_smmu_s2cr_type`, declared outside `arm-smmu.c` in
`arm-smmu-regs.h`: the three kinds of routing entry of section 3 (Translate, Bypass,
Fault). -/
inductive arm_smmu_s2cr_type where
  | S2CR_TYPE_TRANS
  | S2CR_TYPE_BYPASS
  | S2CR_TYPE_FAULT
deriving DecidableEq, Repr

/-- Modelled from the spec: `enum arm_smmu_s2cr_privcfg`, declared outside `arm-smmu.c`
in `arm-smmu-regs.h`: the privilege configuration of a routing entry (section 3). -/
inductive arm_smmu_s2cr_privcfg where
  | S2CR_PRIVCFG_DEFAULT
  | S2CR_PRIVCFG_DIPAN
  | S2CR_PRIVCFG_UNPRIV
  | S2CR_PRIVCFG_PRIV
deriving DecidableEq, Repr

/-- Mirror of `struct arm_smmu_s2cr`. `group` is the `struct iommu_group *` read as a
signed machine word, the way `ERR_PTR`/`PTR_ERR` read it: `0` is `NULL` and the values
`-MAX_ERRNO .. -1` are error pointers. -/
structure arm_smmu_s2cr where
  group : Int
  count : Int
  type : arm_smmu_s2cr_type
  privcfg : arm_smmu_s2cr_privcfg
  cbndx : Nat
deriving DecidableEq, Repr

/-- The compound literal `s2cr_init_val`: only `.type` is given, every other member is
zero. The module parameter `disable_bypass` is an argument. -/
def s2cr_init_val (disable_bypass : Bool) : arm_smmu_s2cr :=
  { group := 0
    count := 0
    type := if disable_bypass then arm_smmu_s2cr_type.S2CR_TYPE_FAULT
            else arm_smmu_s2cr_type.S2CR_TYPE_BYPASS
    privcfg := arm_smmu_s2cr_privcfg.S2CR_PRIVCFG_DEFAULT
    cbndx := 0 }

instance : Inhabited arm_smmu_s2cr := ⟨s2cr_init_val false⟩

/-- Mirror of `enum arm_smmu_arch_version`. -/
inductive arm_smmu_arch_version where
  | ARM_SMMU_V1
  | ARM_SMMU_V1_64K
  | ARM_SMMU_V2
deriving DecidableEq, Repr

/-- Mirror of the members of `struct arm_smmu_device` that the stream-mapping and
context-bank code reads or writes. `context_map` is the bitmap read as one number
(bit `n` of the bitmap is bit `n` of the number); `smrs` is `none` when the pointer is
`NULL` (stream indexing). -/
structure arm_smmu_device where
  features : Nat
  version : arm_smmu_arch_version
  num_context_banks : Nat
  num_s2_context_banks : Nat
  context_map : Nat
  irptndx : Int
  num_mapping_groups : Nat
  streamid_mask : Nat
  smr_mask_mask : Nat
  smrs : Option (List arm_smmu_smr)
  s2crs : List arm_smmu_s2cr
  va_size : Nat
  ipa_size : Nat
  pa_size : Nat
  pgsize_bitmap : Nat
  num_global_irqs : Nat
  num_context_irqs : Nat
  cavium_id_base : Nat
deriving DecidableEq, Repr

/-- Mirror of `struct arm_smmu_master_cfg` (the `smmu` back pointer is left out: the
controller is passed along explicitly). -/
structure arm_smmu_master_cfg where
  smendx : List Int
deriving DecidableEq, Repr

/-- Mirror of the members of `struct iommu_fwspec` used here: the firmware ID words
(`num_ids` is the length of `ids`) and the driver-private master configuration. -/
structure iommu_fwspec where
  ids : List Nat
  iommu_priv : arm_smmu_master_cfg
deriving DecidableEq, Repr

/-- Member `num_ids` of `struct iommu_fwspec`. -/
def iommu_fwspec.num_ids (fw : iommu_fwspec) : Nat := fw.ids.length

/-! ## C arrays

An access outside the array is undefined behaviour in C. The embedding reads the
default element there and drops the write, so such an access never changes the
array itself. -/

/-- Read `xs[idx]` for an `int` index. -/
def arr_get {α : Type} [Inhabited α] (xs : List α) (idx : Int) : α :=
  if idx < 0 then default else xs.getD idx.toNat default

/-- Write `xs[idx] = v` for an `int` index. -/
def arr_set {α : Type} (xs : List α) (idx : Int) (v : α) : List α :=
  if idx < 0 then xs else xs.set idx.toNat v

/-- Write `smmu->s2crs[idx] = v`. -/
def set_s2cr (smmu : arm_smmu_device) (idx : Int) (v : arm_smmu_s2cr) : arm_smmu_device :=
  { smmu with s2crs := arr_set smmu.s2crs idx v }

/-- The macro `fwspec_smendx(fw, i)`. -/
def fwspec_smendx (fw : iommu_fwspec) (i : Nat) : Int :=
  if i ≥ fw.num_ids then INVALID_SMENDX else fw.iommu_priv.smendx.getD i 0

/-- Write `cfg->smendx[i] = v`. -/
def set_smendx (fw : iommu_fwspec) (i : Nat) (v : Int) : iommu_fwspec :=
  { fw with iommu_priv := { smendx := fw.iommu_priv.smendx.set i v } }

/-! ## Stream matching: `arm_smmu_find_sme` -/

/-- Outcome of one iteration of the scan in `arm_smmu_find_sme`: either the function
returns, or the loop goes on with the given `free_idx`. -/
inductive sme_scan where
  | done (ret : Int)
  | next (free_idx : Int)
deriving DecidableEq, Repr

/-- Body of the `for` loop of `arm_smmu_find_sme` at index `i`, where `e = smrs[i]`. -/
def find_sme_entry (id mask : Nat) (e : arm_smmu_smr) (i : Nat) (free_idx : Int) : sme_scan :=
  if !e.valid then
    sme_scan.next (if free_idx < 0 then (i : Int) else free_idx)
  else if (mask &&& e.mask) == mask && ((id ^^^ e.id) &&& not32 e.mask) == 0 then
    sme_scan.done (i : Int)
  else if ((id ^^^ e.id) &&& not32 (e.mask ||| mask)) == 0 then
    sme_scan.done (-EINVAL)
  else
    sme_scan.next free_idx

/-- The `for` loop of `arm_smmu_find_sme` over the entries from index `i` on. -/
def find_sme_loop (id mask : Nat) : List arm_smmu_smr → Nat → Int → Int
  | [], _, free_idx => free_idx
  | e :: rest, i, free_idx =>
    match find_sme_entry id mask e i free_idx with
    | sme_scan.done r => r
    | sme_scan.next f => find_sme_loop id mask rest (i + 1) f

/-- A stream ID `s` is matched by the pattern `(id, mask)`: it agrees with `id` on every
bit outside `mask`. This is the match set of the specification, written as in the
hardware definition `(s ^ id) & ~mask == 0`. -/
def sid_matches (s id mask : Nat) : Prop := (s ^^^ id) &&& not32 mask = 0

instance (s id mask : Nat) : Decidable (sid_matches s id mask) := by
  unfold sid_matches; infer_instance

/-- The first test of the scan in `arm_smmu_find_sme` ("entirely matched"). -/
def sme_reuse (id mask : Nat) (e : arm_smmu_smr) : Prop :=
  mask &&& e.mask = mask ∧ (id ^^^ e.id) &&& not32 e.mask = 0

/-- The second test of the scan in `arm_smmu_find_sme` ("any other overlap"). -/
def sme_conflict (id mask : Nat) (e : arm_smmu_smr) : Prop :=
  (id ^^^ e.id) &&& not32 (e.mask ||| mask) = 0

instance (id mask : Nat) (e : arm_smmu_smr) : Decidable (sme_reuse id mask e) := by
  unfold sme_reuse; infer_instance

instance (id mask : Nat) (e : arm_smmu_smr) : Decidable (sme_conflict id mask e) := by
  unfold sme_conflict; infer_instance

/-- Two patterns have disjoint match sets: no 16-bit stream ID is matched by both. -/
def sme_disjoint (a b : arm_smmu_smr) : Prop :=
  ∀ s, s < 2 ^ 16 → ¬ (sid_matches s a.id a.mask ∧ sid_matches s b.id b.mask)

/-- Invariant of a stream-match table with `n` groups: valid entries sit below `n`
and carry 16-bit IDs, and two distinct valid entries have disjoint match sets. -/
def smr_table_ok (n : Nat) (l : List arm_smmu_smr) : Prop :=
  (∀ (i : Nat) (e : arm_smmu_smr), l[i]? = some e → e.valid = true → i < n ∧ e.id < 2 ^ 16) ∧
  (∀ (i j : Nat) (ei ej : arm_smmu_smr), i ≠ j → l[i]? = some ei → l[j]? = some ej →
    ei.valid = true → ej.valid = true → sme_disjoint ei ej)

/-- The valid entries of a stream-match table have pairwise disjoint match sets. -/
def smr_disjoint_valid (l : List arm_smmu_smr) : Prop :=
  l.Pairwise fun a b => a.valid = true → b.valid = true → sme_disjoint a b

/-- The controller does stream matching and its stream-match table satisfies
`smr_table_ok`. -/
def sme_ok (smmu : arm_smmu_device) : Prop :=
  ∃ l, smmu.smrs = some l ∧ smr_table_ok smmu.num_mapping_groups l

/-- Per-slot reference-count invariant of a stream-matching controller, for a given
number `c k` of references to each slot `k`: both tables have `num_mapping_groups`
entries (fewer than `2 ^ 15`, so that a slot index fits `s16`), the count of slot `k`
is `c k`, and the match entry of slot `k` is valid exactly when `c k` is positive. -/
def refcount_ok (smmu : arm_smmu_device) (c : Nat → Nat) : Prop :=
  smmu.num_mapping_groups < 2 ^ 15 ∧ smmu.s2crs.length = smmu.num_mapping_groups ∧
  ∃ l, smmu.smrs = some l ∧ l.length = smmu.num_mapping_groups ∧
    ∀ k : Nat, k < smmu.num_mapping_groups →
      (arr_get smmu.s2crs (k : Int)).count = (c k : Int) ∧
      ((arr_get l (k : Int)).valid = true ↔ 0 < c k)

/-- Every recorded `smendx` of a master is `INVALID_SMENDX` or a slot below `n`. -/
def smendx_wf (n : Nat) (fw : iommu_fwspec) : Prop :=
  fw.iommu_priv.smendx.length = fw.ids.length ∧
  ∀ x ∈ fw.iommu_priv.smendx, x = INVALID_SMENDX ∨ (0 ≤ x ∧ x < (n : Int))

/-- Number of references to slot `k` recorded by a list of masters. -/
def smendx_refs (masters : List iommu_fwspec) (k : Nat) : Nat :=
  (masters.map fun fw => fw.iommu_priv.smendx.count (k : Int)).sum

/-- Embedding of `arm_smmu_find_sme`. -/
def arm_smmu_find_sme (smmu : arm_smmu_device) (id mask : Nat) : Int :=
  match smmu.smrs with
  | none => (id : Int)
  | some smrs => find_sme_loop id mask (smrs.take smmu.num_mapping_groups) 0 (-ENOSPC)

/-! ## Slot release and allocation -/

/-- Embedding of `arm_smmu_free_sme`: the result is the returned `bool` and the
controller after the call. -/
def arm_smmu_free_sme (disable_bypass : Bool) (smmu : arm_smmu_device) (idx : Int) :
    Bool × arm_smmu_device :=
  let s2cr := arr_get smmu.s2crs idx
  let count := s2cr.count - 1
  if count != 0 then
    (false, { smmu with s2crs := arr_set smmu.s2crs idx { s2cr with count := count } })
  else
    (true, { smmu with
      s2crs := arr_set smmu.s2crs idx (s2cr_init_val disable_bypass)
      smrs := smmu.smrs.map fun smrs =>
        arr_set smrs idx { (arr_get smrs idx) with valid := false } })

/-- One iteration of the first `for_each_cfg_sme` loop of `arm_smmu_master_alloc_smes`
for identifier index `i`. `Except.error ret` is the `goto out_err` with that `ret`. -/
def alloc_smes_entry (smmu : arm_smmu_device) (fw : iommu_fwspec) (i : Nat) :
    Except Int (arm_smmu_device × iommu_fwspec) :=
  let idx := fwspec_smendx fw i
  let sid := fw.ids.getD i 0 % 2 ^ 16
  let mask := (fw.ids.getD i 0 >>> SMR_MASK_SHIFT) % 2 ^ 16
  if idx != INVALID_SMENDX then
    Except.error (-EEXIST)
  else
    let ret := arm_smmu_find_sme smmu sid mask
    if ret < 0 then
      Except.error ret
    else
      let idx := ret
      let smrs1 : Option (List arm_smmu_smr) :=
        match smmu.smrs with
        | some smrs =>
          if (arr_get smmu.s2crs idx).count = 0 then
            some (arr_set smrs idx { id := sid, mask := mask, valid := true })
          else some smrs
        | none => none
      let s2cr := arr_get smmu.s2crs idx
      let smmu1 : arm_smmu_device :=
        { smmu with
          smrs := smrs1
          s2crs := arr_set smmu.s2crs idx { s2cr with count := s2cr.count + 1 } }
      Except.ok (smmu1, set_smendx fw i (s16_cast idx))

/-- The first `for_each_cfg_sme` loop of `arm_smmu_master_alloc_smes`, from index `i`
with `n` identifiers left. The result is `(ret, i, smmu, fw)`: `ret = none` when the
loop ran to its end, `some r` when it left through `goto out_err`; `i` is the value of
the loop variable at that point. -/
def alloc_smes_loop : Nat → Nat → arm_smmu_device → iommu_fwspec →
    Option Int × Nat × arm_smmu_device × iommu_fwspec
  | 0, i, smmu, fw => (none, i, smmu, fw)
  | n + 1, i, smmu, fw =>
    match alloc_smes_entry smmu fw i with
    | Except.error ret => (some ret, i, smmu, fw)
    | Except.ok (smmu1, fw1) => alloc_smes_loop n (i + 1) smmu1 fw1

/-- The unwinding loop `while (i--)` under the label `out_err` of
`arm_smmu_master_alloc_smes`. -/
def alloc_smes_unwind (disable_bypass : Bool) : Nat → arm_smmu_device → iommu_fwspec →
    arm_smmu_device × iommu_fwspec
  | 0, smmu, fw => (smmu, fw)
  | i + 1, smmu, fw =>
    let smmu1 := (arm_smmu_free_sme disable_bypass smmu (fw.iommu_priv.smendx.getD i 0)).2
    alloc_smes_unwind disable_bypass i smmu1 (set_smendx fw i INVALID_SMENDX)

/-- The second `for_each_cfg_sme` loop of `arm_smmu_master_alloc_smes`: every slot of
the master records the group (the register writes of `arm_smmu_write_sme` do not
change the driver state). -/
def alloc_smes_set_group (group : Int) : Nat → Nat → arm_smmu_device → iommu_fwspec →
    arm_smmu_device
  | 0, _, smmu, _ => smmu
  | n + 1, i, smmu, fw =>
    let idx := fwspec_smendx fw i
    let smmu1 := set_s2cr smmu idx { (arr_get smmu.s2crs idx) with group := group }
    alloc_smes_set_group group n (i + 1) smmu1 fw

/-- Modelled from the spec: `MAX_ERRNO`, declared outside `arm-smmu.c` in `linux/err.h`:
the largest errno that an error pointer encodes. -/
def MAX_ERRNO : Int := 4095

/-- Modelled from the spec: the test `IS_ERR(ptr)` of `linux/err.h` on a pointer read as
a signed machine word: the pointer encodes `-errno` for an errno up to `MAX_ERRNO`
(a failed group lookup). -/
def IS_ERR (ptr : Int) : Bool := decide (-MAX_ERRNO ≤ ptr) && decide (ptr < 0)

/-- Embedding of `arm_smmu_master_alloc_smes`. `group_ptr` is what
`iommu_group_get_for_dev(dev)` returns (`0` for `NULL`, `-errno` for an error pointer).
The result is the return value, the controller and the master afterwards. -/
def arm_smmu_master_alloc_smes (disable_bypass : Bool) (smmu : arm_smmu_device)
    (fw : iommu_fwspec) (group_ptr : Int) : Int × arm_smmu_device × iommu_fwspec :=
  match alloc_smes_loop fw.num_ids 0 smmu fw with
  | (some ret, i, smmu1, fw1) =>
    let r := alloc_smes_unwind disable_bypass i smmu1 fw1
    (ret, r.1, r.2)
  | (none, i, smmu1, fw1) =>
    let group := if group_ptr == 0 then -ENOMEM else group_ptr
    if IS_ERR group then
      let r := alloc_smes_unwind disable_bypass i smmu1 fw1
      (group, r.1, r.2)
    else
      (0, alloc_smes_set_group group fw1.num_ids 0 smmu1 fw1, fw1)

/-- The loop of `arm_smmu_master_free_smes`, from index `i` with `n` identifiers left. -/
def master_free_smes_loop (disable_bypass : Bool) : Nat → Nat → arm_smmu_device →
    iommu_fwspec → arm_smmu_device × iommu_fwspec
  | 0, _, smmu, fw => (smmu, fw)
  | n + 1, i, smmu, fw =>
    let idx := fwspec_smendx fw i
    let smmu1 := (arm_smmu_free_sme disable_bypass smmu idx).2
    master_free_smes_loop disable_bypass n (i + 1) smmu1 (set_smendx fw i INVALID_SMENDX)

/-- Embedding of `arm_smmu_master_free_smes`. -/
def arm_smmu_master_free_smes (disable_bypass : Bool) (smmu : arm_smmu_device)
    (fw : iommu_fwspec) : arm_smmu_device × iommu_fwspec :=
  master_free_smes_loop disable_bypass fw.num_ids 0 smmu fw

/-- The loop of `arm_smmu_domain_add_master`, from index `i` with `n` identifiers left.
The second component lists, in order, the slots whose S2CR register was written. -/
def domain_add_master_loop (cbndx : Nat) (fw : iommu_fwspec) : Nat → Nat →
    arm_smmu_device → List Int → arm_smmu_device × List Int
  | 0, _, smmu, written => (smmu, written)
  | n + 1, i, smmu, written =>
    let idx := fwspec_smendx fw i
    let s2cr := arr_get smmu.s2crs idx
    if s2cr.type = arm_smmu_s2cr_type.S2CR_TYPE_TRANS ∧ cbndx = s2cr.cbndx then
      domain_add_master_loop cbndx fw n (i + 1) smmu written
    else
      let s2cr1 : arm_smmu_s2cr :=
        { s2cr with
          type := arm_smmu_s2cr_type.S2CR_TYPE_TRANS
          privcfg := arm_smmu_s2cr_privcfg.S2CR_PRIVCFG_DEFAULT
          cbndx := cbndx }
      domain_add_master_loop cbndx fw n (i + 1) (set_s2cr smmu idx s2cr1) (written ++ [idx])

/-- Embedding of `arm_smmu_domain_add_master` for a domain whose context bank is
`cbndx` (`smmu_domain->cfg.cbndx`). -/
def arm_smmu_domain_add_master (cbndx : Nat) (smmu : arm_smmu_device) (fw : iommu_fwspec) :
    arm_smmu_device × List Int :=
  domain_add_master_loop cbndx fw fw.num_ids 0 smmu []

/-! ## The stream table as a state machine -/

/-- The controller together with the masters that currently hold a configuration
(`fwspec->iommu_priv`), in the order in which they were added. -/
structure sme_state where
  smmu : arm_smmu_device
  masters : List iommu_fwspec
deriving DecidableEq, Repr

/-- Calls that change the stream table. `add_device` runs
`arm_smmu_master_alloc_smes` on a master configuration freshly set up by
`arm_smmu_add_device` (every `smendx` is `INVALID_SMENDX`); `remove_device` runs
`arm_smmu_master_free_smes` on the `k`-th live master and drops it; `attach_dev` runs
`arm_smmu_domain_add_master` for the `k`-th live master and a domain with context bank
`cbndx`. -/
inductive sme_op where
  | add_device (ids : List Nat) (group_ptr : Int)
  | remove_device (k : Nat)
  | attach_dev (k : Nat) (cbndx : Nat)
deriving DecidableEq, Repr

/-- The master configuration that `arm_smmu_add_device` allocates: one `smendx` per
identifier, each set to `INVALID_SMENDX`. -/
def fresh_fwspec (ids : List Nat) : iommu_fwspec :=
  { ids := ids, iommu_priv := { smendx := List.replicate ids.length INVALID_SMENDX } }

/-- Effect of one call on the stream table. A master whose allocation fails is freed
again by `arm_smmu_add_device` and does not become live. -/
def sme_step (disable_bypass : Bool) (st : sme_state) : sme_op → sme_state
  | sme_op.add_device ids group_ptr =>
    let r := arm_smmu_master_alloc_smes disable_bypass st.smmu (fresh_fwspec ids) group_ptr
    if r.1 = 0 then { smmu := r.2.1, masters := st.masters ++ [r.2.2] }
    else { smmu := r.2.1, masters := st.masters }
  | sme_op.remove_device k =>
    match st.masters.get? k with
    | none => st
    | some fw =>
      { smmu := (arm_smmu_master_free_smes disable_bypass st.smmu fw).1
        masters := st.masters.eraseIdx k }
  | sme_op.attach_dev k cbndx =>
    match st.masters.get? k with
    | none => st
    | some fw => { st with smmu := (arm_smmu_domain_add_master cbndx st.smmu fw).1 }

/-- Run a sequence of calls. -/
def sme_run (disable_bypass : Bool) (st : sme_state) (ops : List sme_op) : sme_state :=
  ops.foldl (sme_step disable_bypass) st

/-- Invariant of the stream table of a stream-matching controller together with its
live masters: the reference counts are the numbers of recorded references, and every
master records only `INVALID_SMENDX` or slots of the table. -/
def refs_inv (st : sme_state) : Prop :=
  refcount_ok st.smmu (smendx_refs st.masters) ∧
  ∀ fw ∈ st.masters, smendx_wf st.smmu.num_mapping_groups fw

/-- The routing entries agree with the references held by live masters: below
`num_mapping_groups` every count is non-negative, an entry whose count is 0 equals
`s2cr_init_val`, and an entry referenced by a live master (`live k > 0`) has a group. -/
def routing_ok (disable_bypass : Bool) (smmu : arm_smmu_device) (live : Nat → Nat) : Prop :=
  ∀ k : Nat, k < smmu.num_mapping_groups →
    0 ≤ (arr_get smmu.s2crs (k : Int)).count ∧
    ((arr_get smmu.s2crs (k : Int)).count = 0 →
      arr_get smmu.s2crs (k : Int) = s2cr_init_val disable_bypass) ∧
    (0 < live k → (arr_get smmu.s2crs (k : Int)).group ≠ 0)

/-- The stream tables of a stream-matching controller as `arm_smmu_device_cfg_probe`
leaves them: `num_mapping_groups` zeroed match entries (`devm_kcalloc`) and as many
routing entries equal to `s2cr_init_val`. The number of groups comes from an 8-bit
register field; all that is used of it is that a slot index fits `s16`. -/
def probed_stream_matching (disable_bypass : Bool) (smmu : arm_smmu_device) : Prop :=
  smmu.num_mapping_groups < 2 ^ 15 ∧
  smmu.smrs = some (List.replicate smmu.num_mapping_groups { mask := 0, id := 0, valid := false }) ∧
  smmu.s2crs = List.replicate smmu.num_mapping_groups (s2cr_init_val disable_bypass)

/-- Number of `(master, identifier index)` pairs of the live masters whose recorded
`smendx` is not `INVALID_SMENDX`. -/
def live_sme_refs (masters : List iommu_fwspec) : Nat :=
  (masters.map fun fw => (fw.iommu_priv.smendx.filter fun x => x != INVALID_SMENDX).length).sum

/-- Sum of the reference counts of all slots. -/
def s2cr_count_sum (smmu : arm_smmu_device) : Int :=
  (smmu.s2crs.map fun s => s.count).sum

/-! ## Context-bank bitmap -/

/-- Modelled from the spec: the scan of the kernel bitmap helper
`find_next_zero_bit(map, size, offset)`, which lives outside `arm-smmu.c`. Section 4.1
has the allocator scan the range for the lowest clear bit; the helper returns the index
of the first clear bit at or after `offset` and below `size`, and `size` when there is
none. The scan looks at `n` further bits from `offset`. -/
def find_zero_from (map : Nat) : Nat → Nat → Nat
  | 0, offset => offset
  | n + 1, offset => if map.testBit offset then find_zero_from map n (offset + 1) else offset

/-- Modelled from the spec: `find_next_zero_bit(map, size, offset)`, see
`find_zero_from`; an offset at or beyond `size` gives `size`. -/
def find_next_zero_bit (map size offset : Nat) : Nat :=
  if offset ≥ size then size else find_zero_from map (size - offset) offset

/-- Modelled from the spec: the kernel helper `test_and_set_bit(nr, map)`, which lives
outside `arm-smmu.c`: sets bit `nr` and returns its old value (the "claim" of section
4.1, here without concurrent callers). -/
def test_and_set_bit (nr map : Nat) : Bool × Nat :=
  (map.testBit nr, map ||| 2 ^ nr)

/-- Modelled from the spec: the kernel helper `clear_bit(nr, map)`, which lives outside
`arm-smmu.c`: clears bit `nr` (the "release" of section 4.1). -/
def clear_bit (nr map : Nat) : Nat :=
  map ^^^ (map &&& 2 ^ nr)

/-- Embedding of `__arm_smmu_alloc_bitmap`: the result is the returned `int` and the
bitmap afterwards. `fuel` bounds the number of rounds of the `do ... while` loop;
`none` means the bound was reached. -/
def __arm_smmu_alloc_bitmap : Nat → Nat → Nat → Nat → Option (Int × Nat)
  | 0, _, _, _ => none
  | fuel + 1, map, start, end_ =>
    let idx := find_next_zero_bit map end_ start
    if idx = end_ then
      some (-ENOSPC, map)
    else
      let r := test_and_set_bit idx map
      if r.1 then __arm_smmu_alloc_bitmap fuel r.2 start end_
      else some ((idx : Int), r.2)

/-- Embedding of `__arm_smmu_free_bitmap`. -/
def __arm_smmu_free_bitmap (map : Nat) (idx : Nat) : Nat :=
  clear_bit idx map

/-! ## Domains and context banks -/

/-- Feature bit `ARM_SMMU_FEAT_COHERENT_WALK`. -/
def ARM_SMMU_FEAT_COHERENT_WALK : Nat := 1 <<< 0
/-- Feature bit `ARM_SMMU_FEAT_STREAM_MATCH`. -/
def ARM_SMMU_FEAT_STREAM_MATCH : Nat := 1 <<< 1
/-- Feature bit `ARM_SMMU_FEAT_TRANS_OPS`. -/
def ARM_SMMU_FEAT_TRANS_OPS : Nat := 1 <<< 5
/-- Feature bit `ARM_SMMU_FEAT_VMID16`. -/
def ARM_SMMU_FEAT_VMID16 : Nat := 1 <<< 6
/-- Feature bit `ARM_SMMU_FEAT_EXIDS`. -/
def ARM_SMMU_FEAT_EXIDS : Nat := 1 <<< 12
/-- Feature bit `ARM_SMMU_FEAT_TRANS_S1`. -/
def ARM_SMMU_FEAT_TRANS_S1 : Nat := 1 <<< 2
/-- Feature bit `ARM_SMMU_FEAT_TRANS_S2`. -/
def ARM_SMMU_FEAT_TRANS_S2 : Nat := 1 <<< 3
/-- Feature bit `ARM_SMMU_FEAT_TRANS_NESTED`. -/
def ARM_SMMU_FEAT_TRANS_NESTED : Nat := 1 <<< 4
/-- Feature bit `ARM_SMMU_FEAT_FMT_AARCH64_4K`. -/
def ARM_SMMU_FEAT_FMT_AARCH64_4K : Nat := 1 <<< 7
/-- Feature bit `ARM_SMMU_FEAT_FMT_AARCH64_16K`. -/
def ARM_SMMU_FEAT_FMT_AARCH64_16K : Nat := 1 <<< 8
/-- Feature bit `ARM_SMMU_FEAT_FMT_AARCH64_64K`. -/
def ARM_SMMU_FEAT_FMT_AARCH64_64K : Nat := 1 <<< 9
/-- Feature bit `ARM_SMMU_FEAT_FMT_AARCH32_L`. -/
def ARM_SMMU_FEAT_FMT_AARCH32_L : Nat := 1 <<< 10
/-- Feature bit `ARM_SMMU_FEAT_FMT_AARCH32_S`. -/
def ARM_SMMU_FEAT_FMT_AARCH32_S : Nat := 1 <<< 11

/-- The constant `INVALID_IRPTNDX`. -/
def INVALID_IRPTNDX : Nat := 0xff

/-- Modelled from the spec: the context-bank type `CBAR_TYPE_S2_TRANS`, declared
outside `arm-smmu.c` in `arm-smmu-regs.h` (stage-2 translation). -/
def CBAR_TYPE_S2_TRANS : Nat := 0 <<< 16
/-- Modelled from the spec: the context-bank type `CBAR_TYPE_S1_TRANS_S2_BYPASS`,
declared outside `arm-smmu.c` in `arm-smmu-regs.h` (stage-1 translation). -/
def CBAR_TYPE_S1_TRANS_S2_BYPASS : Nat := 1 <<< 16

/-- Mirror of `enum arm_smmu_context_fmt`. -/
inductive arm_smmu_context_fmt where
  | ARM_SMMU_CTX_FMT_NONE
  | ARM_SMMU_CTX_FMT_AARCH64
  | ARM_SMMU_CTX_FMT_AARCH32_L
  | ARM_SMMU_CTX_FMT_AARCH32_S
deriving DecidableEq, Repr

/-- Mirror of `struct arm_smmu_cfg`. -/
structure arm_smmu_cfg where
  cbndx : Nat
  irptndx : Nat
  cbar : Nat
  fmt : arm_smmu_context_fmt
deriving DecidableEq, Repr

/-- Mirror of `enum arm_smmu_domain_stage`. -/
inductive arm_smmu_domain_stage where
  | ARM_SMMU_DOMAIN_S1
  | ARM_SMMU_DOMAIN_S2
  | ARM_SMMU_DOMAIN_NESTED
deriving DecidableEq, Repr

/-- Modelled from the spec: `enum io_pgtable_fmt`, declared outside `arm-smmu.c` in
`io-pgtable.h`: the page-table formats the backend factory of section 6 is asked for. -/
inductive io_pgtable_fmt where
  | ARM_32_LPAE_S1
  | ARM_32_LPAE_S2
  | ARM_64_LPAE_S1
  | ARM_64_LPAE_S2
  | ARM_V7S
deriving DecidableEq, Repr

/-- Modelled from the spec: the members of `struct io_pgtable_cfg` (declared outside
`arm-smmu.c` in `io-pgtable.h`) that `arm_smmu_init_domain_context` fills with numbers:
the granule bitmap and the input and output address widths of section 6. -/
structure io_pgtable_cfg where
  pgsize_bitmap : Nat
  ias : Nat
  oas : Nat
deriving DecidableEq, Repr

/-- Mirror of `struct arm_smmu_domain`. `smmu` is the pointer to the controller
(`none` for `NULL`), `pgtbl_ops` the published page-table handle; `pgsize_bitmap`,
`aperture_end` and `force_aperture` are the members of the embedded
`struct iommu_domain` that the driver writes. -/
structure arm_smmu_domain where
  smmu : Option Nat
  pgtbl_ops : Option Nat
  cfg : arm_smmu_cfg
  stage : arm_smmu_domain_stage
  pgsize_bitmap : Nat
  aperture_end : Nat
  force_aperture : Bool
deriving DecidableEq, Repr

/-- The build options tested with `IS_ENABLED` in `arm_smmu_init_domain_context`. -/
structure kconfig where
  CONFIG_64BIT : Bool
  CONFIG_ARM_LPAE : Bool
  CONFIG_IOMMU_IO_PGTABLE_ARMV7S : Bool
deriving DecidableEq, Repr

/-- Modelled from the spec: `atomic_inc_return` on a 32-bit `atomic_t` (kernel atomics,
outside `arm-smmu.c`), the "atomically incremented, wrapped counter" of section 4.3:
the sum wraps. -/
def atomic_inc_return (v : Int) : Int :=
  (v + 1 + 2 ^ 31) % 2 ^ 32 - 2 ^ 31

/-- The stage-resolution step of `arm_smmu_init_domain_context`. -/
def resolve_stage (features : Nat) (stage : arm_smmu_domain_stage) : arm_smmu_domain_stage :=
  let stage1 :=
    if features &&& ARM_SMMU_FEAT_TRANS_S1 = 0 then arm_smmu_domain_stage.ARM_SMMU_DOMAIN_S2
    else stage
  if features &&& ARM_SMMU_FEAT_TRANS_S2 = 0 then arm_smmu_domain_stage.ARM_SMMU_DOMAIN_S1
  else stage1

/-- The format-resolution step of `arm_smmu_init_domain_context`; `fmt` is the value
of `cfg->fmt` on entry and `stage` the resolved stage. -/
def resolve_fmt (kc : kconfig) (features : Nat) (stage : arm_smmu_domain_stage)
    (fmt : arm_smmu_context_fmt) : arm_smmu_context_fmt :=
  let fmt1 :=
    if features &&& ARM_SMMU_FEAT_FMT_AARCH32_L ≠ 0 then
      arm_smmu_context_fmt.ARM_SMMU_CTX_FMT_AARCH32_L
    else fmt
  let fmt2 :=
    if kc.CONFIG_IOMMU_IO_PGTABLE_ARMV7S ∧ ¬ kc.CONFIG_64BIT ∧ ¬ kc.CONFIG_ARM_LPAE ∧
        features &&& ARM_SMMU_FEAT_FMT_AARCH32_S ≠ 0 ∧
        stage = arm_smmu_domain_stage.ARM_SMMU_DOMAIN_S1 then
      arm_smmu_context_fmt.ARM_SMMU_CTX_FMT_AARCH32_S
    else fmt1
  if (kc.CONFIG_64BIT ∨ fmt2 = arm_smmu_context_fmt.ARM_SMMU_CTX_FMT_NONE) ∧
      features &&& (ARM_SMMU_FEAT_FMT_AARCH64_64K ||| ARM_SMMU_FEAT_FMT_AARCH64_16K |||
        ARM_SMMU_FEAT_FMT_AARCH64_4K) ≠ 0 then
    arm_smmu_context_fmt.ARM_SMMU_CTX_FMT_AARCH64
  else fmt2

/-- What the `switch (smmu_domain->stage)` of `arm_smmu_init_domain_context` computes:
the context-bank type, the start of the allocation range, the page-table format and
the two address widths. -/
structure stage_setup where
  cbar : Nat
  start : Nat
  fmt : io_pgtable_fmt
  ias : Nat
  oas : Nat
deriving DecidableEq, Repr

/-- The `switch (smmu_domain->stage)` of `arm_smmu_init_domain_context`. -/
def setup_stage (smmu : arm_smmu_device) (stage : arm_smmu_domain_stage)
    (cfmt : arm_smmu_context_fmt) : stage_setup :=
  match stage with
  | arm_smmu_domain_stage.ARM_SMMU_DOMAIN_S1 =>
    if cfmt = arm_smmu_context_fmt.ARM_SMMU_CTX_FMT_AARCH64 then
      { cbar := CBAR_TYPE_S1_TRANS_S2_BYPASS, start := smmu.num_s2_context_banks,
        fmt := io_pgtable_fmt.ARM_64_LPAE_S1, ias := smmu.va_size, oas := smmu.ipa_size }
    else if cfmt = arm_smmu_context_fmt.ARM_SMMU_CTX_FMT_AARCH32_L then
      { cbar := CBAR_TYPE_S1_TRANS_S2_BYPASS, start := smmu.num_s2_context_banks,
        fmt := io_pgtable_fmt.ARM_32_LPAE_S1,
        ias := min smmu.va_size 32, oas := min smmu.ipa_size 40 }
    else
      { cbar := CBAR_TYPE_S1_TRANS_S2_BYPASS, start := smmu.num_s2_context_banks,
        fmt := io_pgtable_fmt.ARM_V7S,
        ias := min smmu.va_size 32, oas := min smmu.ipa_size 32 }
  | _ =>
    if cfmt = arm_smmu_context_fmt.ARM_SMMU_CTX_FMT_AARCH64 then
      { cbar := CBAR_TYPE_S2_TRANS, start := 0,
        fmt := io_pgtable_fmt.ARM_64_LPAE_S2, ias := smmu.ipa_size, oas := smmu.pa_size }
    else
      { cbar := CBAR_TYPE_S2_TRANS, start := 0,
        fmt := io_pgtable_fmt.ARM_32_LPAE_S2,
        ias := min smmu.ipa_size 40, oas := min smmu.pa_size 40 }

/-- Modelled from the spec: the width of `unsigned long` and `size_t`, types declared
outside `arm-smmu.c`: 64 bits on a 64-bit build, else 32. -/
def BITS_PER_LONG (kc : kconfig) : Nat := if kc.CONFIG_64BIT then 64 else 32

/-- Outcome of one call of `arm_smmu_init_domain_context`: the return value, the
domain and the controller afterwards, and the format and configuration handed to
`alloc_io_pgtable_ops` when the call got that far. -/
structure init_result where
  ret : Int
  smmu_domain : arm_smmu_domain
  smmu : arm_smmu_device
  pgtbl_request : Option (io_pgtable_fmt × io_pgtable_cfg)
deriving DecidableEq, Repr

/-- Embedding of `arm_smmu_init_domain_context`. `smmu_ptr` is the address of the
controller and `smmu` its content. `pgtbl` is what `alloc_io_pgtable_ops` gives back:
`none` for `NULL`, else the handle and the `pgsize_bitmap` it leaves in the
configuration. `irq_ret` is the result of `devm_request_irq`. `fuel` is passed to
`__arm_smmu_alloc_bitmap`; the result is `none` only when that runs out of fuel.
`aperture_end` is `(1UL << ias) - 1` in `unsigned long` arithmetic; for a shift count of
`BITS_PER_LONG` or more, which C leaves undefined, the bit is taken to be shifted out. -/
def arm_smmu_init_domain_context (kc : kconfig) (fuel : Nat) (smmu_domain : arm_smmu_domain)
    (smmu_ptr : Nat) (smmu : arm_smmu_device) (pgtbl : Option (Nat × Nat)) (irq_ret : Int) :
    Option init_result :=
  if smmu_domain.smmu.isSome then
    some { ret := 0, smmu_domain := smmu_domain, smmu := smmu, pgtbl_request := none }
  else
    let stage := resolve_stage smmu.features smmu_domain.stage
    let cfmt := resolve_fmt kc smmu.features stage smmu_domain.cfg.fmt
    let d1 : arm_smmu_domain :=
      { smmu_domain with stage := stage, cfg := { smmu_domain.cfg with fmt := cfmt } }
    if cfmt = arm_smmu_context_fmt.ARM_SMMU_CTX_FMT_NONE then
      some { ret := -EINVAL, smmu_domain := d1, smmu := smmu, pgtbl_request := none }
    else
      let su := setup_stage smmu stage cfmt
      let d2 : arm_smmu_domain := { d1 with cfg := { d1.cfg with cbar := su.cbar } }
      match __arm_smmu_alloc_bitmap fuel smmu.context_map su.start smmu.num_context_banks with
      | none => none
      | some (ret, map) =>
        let smmu1 : arm_smmu_device := { smmu with context_map := map }
        if ret < 0 then
          some { ret := ret, smmu_domain := d2, smmu := smmu1, pgtbl_request := none }
        else
          let cbndx := (ret % 256).toNat
          let smmu2 : arm_smmu_device :=
            if smmu.version ≠ arm_smmu_arch_version.ARM_SMMU_V2 then
              { smmu1 with irptndx := atomic_inc_return smmu1.irptndx }
            else smmu1
          let irptndx : Nat :=
            if smmu.version ≠ arm_smmu_arch_version.ARM_SMMU_V2 then
              (smmu2.irptndx % 256).toNat % smmu.num_context_irqs % 256
            else cbndx
          let d3 : arm_smmu_domain :=
            { d2 with cfg := { d2.cfg with cbndx := cbndx, irptndx := irptndx } }
          let pgtbl_cfg : io_pgtable_cfg :=
            { pgsize_bitmap := smmu.pgsize_bitmap, ias := su.ias, oas := su.oas }
          match pgtbl with
          | none =>
            some { ret := -ENOMEM, smmu_domain := { d3 with smmu := none }, smmu := smmu2,
                   pgtbl_request := some (su.fmt, pgtbl_cfg) }
          | some (ops, pgsize_bitmap) =>
            let d4 : arm_smmu_domain :=
              { d3 with
                smmu := some smmu_ptr
                pgsize_bitmap := pgsize_bitmap
                aperture_end := ((1 <<< su.ias) % 2 ^ BITS_PER_LONG kc +
                  (2 ^ BITS_PER_LONG kc - 1)) % 2 ^ BITS_PER_LONG kc
                force_aperture := true }
            let d5 : arm_smmu_domain :=
              if irq_ret < 0 then { d4 with cfg := { d4.cfg with irptndx := INVALID_IRPTNDX } }
              else d4
            some { ret := 0, smmu_domain := { d5 with pgtbl_ops := some ops }, smmu := smmu2,
                   pgtbl_request := some (su.fmt, pgtbl_cfg) }

/-- Embedding of `arm_smmu_destroy_domain_context`: the controller afterwards (the
domain object itself is freed by the caller, `arm_smmu_domain_free`). -/
def arm_smmu_destroy_domain_context (smmu_domain : arm_smmu_domain) (smmu : arm_smmu_device) :
    arm_smmu_device :=
  match smmu_domain.smmu with
  | none => smmu
  | some _ =>
    { smmu with context_map := __arm_smmu_free_bitmap smmu.context_map smmu_domain.cfg.cbndx }

/-! ## Binding and unbinding as a state machine -/

/-- One controller (at address `smmu_ptr`) and the domains currently bound to it. -/
structure ctx_state where
  smmu : arm_smmu_device
  bound : List arm_smmu_domain
deriving DecidableEq, Repr

/-- The domain object that `arm_smmu_domain_alloc` returns (`kzalloc`: every member is
zero), with the stage that `arm_smmu_domain_set_attr` may have set before the first
attach. -/
def fresh_domain (stage : arm_smmu_domain_stage) : arm_smmu_domain :=
  { smmu := none
    pgtbl_ops := none
    cfg := { cbndx := 0, irptndx := 0, cbar := 0,
             fmt := arm_smmu_context_fmt.ARM_SMMU_CTX_FMT_NONE }
    stage := stage
    pgsize_bitmap := 0
    aperture_end := 0
    force_aperture := false }

/-- Calls that change the context-bank bitmap: `bind` runs
`arm_smmu_init_domain_context` on a fresh domain, `unbind` runs
`arm_smmu_destroy_domain_context` on the `k`-th bound domain, which is then freed. -/
inductive ctx_op where
  | bind (stage : arm_smmu_domain_stage) (pgtbl : Option (Nat × Nat)) (irq_ret : Int)
  | unbind (k : Nat)
deriving DecidableEq, Repr

/-- Effect of one call; `none` only when the bitmap allocator runs out of fuel. -/
def ctx_step (kc : kconfig) (fuel : Nat) (smmu_ptr : Nat) (st : ctx_state) :
    ctx_op → Option ctx_state
  | ctx_op.bind stage pgtbl irq_ret =>
    match arm_smmu_init_domain_context kc fuel (fresh_domain stage) smmu_ptr st.smmu pgtbl
        irq_ret with
    | none => none
    | some r =>
      if r.smmu_domain.smmu.isSome then
        some { smmu := r.smmu, bound := st.bound ++ [r.smmu_domain] }
      else some { smmu := r.smmu, bound := st.bound }
  | ctx_op.unbind k =>
    match st.bound.get? k with
    | none => some st
    | some d =>
      some { smmu := arm_smmu_destroy_domain_context d st.smmu, bound := st.bound.eraseIdx k }

/-- Run a sequence of bind and unbind calls. -/
def ctx_run (kc : kconfig) (fuel : Nat) (smmu_ptr : Nat) :
    ctx_state → List ctx_op → Option ctx_state
  | st, [] => some st
  | st, op :: ops =>
    match ctx_step kc fuel smmu_ptr st op with
    | none => none
    | some st1 => ctx_run kc fuel smmu_ptr st1 ops

/-! ## Device registration, attach and group lookup -/

/-- Modelled from the spec: the error code `ENXIO`, declared outside `arm-smmu.c` in
`errno-base.h`; the number is that of the kernel. -/
def ENXIO : Int := 6
/-- Modelled from the spec: the error code `ENODEV`, declared outside `arm-smmu.c` in
`errno-base.h`; the number is that of the kernel. -/
def ENODEV : Int := 19

/-- How `arm_smmu_add_device` finds the controller of a device: through
`arm_smmu_register_legacy_master` (its return value and the identifiers of the
firmware description it leaves), through a firmware description owned by this driver,
or not at all. -/
inductive add_device_lookup where
  | legacy (ret : Int) (ids : List Nat)
  | generic (ids : List Nat)
  | not_found
deriving DecidableEq, Repr

/-- The test of one firmware ID word in the validation loop of `arm_smmu_add_device`:
`sid & ~smmu->streamid_mask` or `mask & ~smmu->smr_mask_mask` is non-zero. -/
def sid_out_of_range (smmu : arm_smmu_device) (fwid : Nat) : Prop :=
  (fwid % 2 ^ 16) &&& not32 smmu.streamid_mask ≠ 0 ∨
  ((fwid >>> SMR_MASK_SHIFT) % 2 ^ 16) &&& not32 smmu.smr_mask_mask ≠ 0

instance (smmu : arm_smmu_device) (fwid : Nat) : Decidable (sid_out_of_range smmu fwid) := by
  unfold sid_out_of_range; infer_instance

/-- The validation loop of `arm_smmu_add_device`: `true` when it runs to its end,
`false` when it leaves through `goto out_free`. -/
def add_device_check_ids (smmu : arm_smmu_device) : List Nat → Bool
  | [] => true
  | fwid :: rest =>
    if (fwid % 2 ^ 16) &&& not32 smmu.streamid_mask ≠ 0 then false
    else if ((fwid >>> SMR_MASK_SHIFT) % 2 ^ 16) &&& not32 smmu.smr_mask_mask ≠ 0 then false
    else add_device_check_ids smmu rest

/-- What the kernel services called by `arm_smmu_add_device` give back: whether
`kzalloc` returned a configuration, whether `pm_runtime_get_sync` and
`pm_runtime_put_sync` returned an error value, and the group pointer of
`iommu_group_get_for_dev`. -/
structure add_device_env where
  cfg_alloc_ok : Bool
  pm_get_err : Bool
  group_ptr : Int
  pm_put_err : Bool
deriving DecidableEq, Repr

/-- The part of `arm_smmu_add_device` after the controller has been found. The result
is the return value, the controller, and the master configuration that stays attached
to the device (`none` after `out_free`). -/
def add_device_found (disable_bypass : Bool) (smmu : arm_smmu_device) (ids : List Nat)
    (env : add_device_env) : Int × arm_smmu_device × Option iommu_fwspec :=
  if add_device_check_ids smmu ids = false then (-EINVAL, smmu, none)
  else if env.cfg_alloc_ok = false then (-ENOMEM, smmu, none)
  else if env.pm_get_err then (-ENOMEM, smmu, none)
  else
    let r := arm_smmu_master_alloc_smes disable_bypass smmu (fresh_fwspec ids) env.group_ptr
    if r.1 ≠ 0 then (r.1, r.2.1, none)
    else if env.pm_put_err then (0, r.2.1, none)
    else (0, r.2.1, some r.2.2)

/-- Embedding of `arm_smmu_add_device`. -/
def arm_smmu_add_device (disable_bypass : Bool) (smmu : arm_smmu_device)
    (lookup : add_device_lookup) (env : add_device_env) :
    Int × arm_smmu_device × Option iommu_fwspec :=
  match lookup with
  | add_device_lookup.legacy ret ids =>
    if ret ≠ 0 then (ret, smmu, none) else add_device_found disable_bypass smmu ids env
  | add_device_lookup.generic ids => add_device_found disable_bypass smmu ids env
  | add_device_lookup.not_found => (-ENODEV, smmu, none)

/-- Result of `arm_smmu_attach_dev`: return value, domain and controller afterwards,
and the slots whose S2CR register was written. -/
structure attach_result where
  ret : Int
  smmu_domain : arm_smmu_domain
  smmu : arm_smmu_device
  written : List Int
deriving DecidableEq, Repr

/-- Embedding of `arm_smmu_attach_dev`. `fwspec` is `none` when the device has no
firmware description owned by this driver; `has_priv` is `fwspec->iommu_priv != NULL`;
`smmu_ptr` and `smmu` are the address and the content of the controller of the device
(`fwspec_smmu`). The other arguments are those of `arm_smmu_init_domain_context`. -/
def arm_smmu_attach_dev (kc : kconfig) (fuel : Nat) (smmu_domain : arm_smmu_domain)
    (fwspec : Option iommu_fwspec) (has_priv : Bool) (smmu_ptr : Nat)
    (smmu : arm_smmu_device) (pgtbl : Option (Nat × Nat)) (irq_ret : Int) :
    Option attach_result :=
  match fwspec with
  | none => some { ret := - ENXIO, smmu_domain := smmu_domain, smmu := smmu, written := [] }
  | some fw =>
    if has_priv = false then
      some { ret := -ENODEV, smmu_domain := smmu_domain, smmu := smmu, written := [] }
    else
      match arm_smmu_init_domain_context kc fuel smmu_domain smmu_ptr smmu pgtbl irq_ret with
      | none => none
      | some r =>
        if r.ret < 0 then
          some { ret := r.ret, smmu_domain := r.smmu_domain, smmu := r.smmu, written := [] }
        else if r.smmu_domain.smmu ≠ some smmu_ptr then
          some { ret := -EINVAL, smmu_domain := r.smmu_domain, smmu := r.smmu, written := [] }
        else
          let a := arm_smmu_domain_add_master r.smmu_domain.cfg.cbndx r.smmu fw
          some { ret := 0, smmu_domain := r.smmu_domain, smmu := a.1, written := a.2 }

/-- The loop of `arm_smmu_device_group`, from index `i` with `n` identifiers left and the
local variable `group`: `Except.error` is the early `return ERR_PTR(-EINVAL)`,
`Except.ok` the value of `group` after the loop. -/
def device_group_loop (smmu : arm_smmu_device) (fw : iommu_fwspec) :
    Nat → Nat → Int → Except Int Int
  | 0, _, group => Except.ok group
  | n + 1, i, group =>
    let idx := fwspec_smendx fw i
    if group ≠ 0 ∧ (arr_get smmu.s2crs idx).group ≠ 0 ∧
        group ≠ (arr_get smmu.s2crs idx).group then
      Except.error (-EINVAL)
    else
      device_group_loop smmu fw n (i + 1) (arr_get smmu.s2crs idx).group

/-- Embedding of `arm_smmu_device_group`. `fresh` is the pointer that
`pci_device_group` or `generic_device_group` gives back when it is called. -/
def arm_smmu_device_group (smmu : arm_smmu_device) (fw : iommu_fwspec) (fresh : Int) : Int :=
  match device_group_loop smmu fw fw.num_ids 0 0 with
  | Except.error e => e
  | Except.ok group => if group ≠ 0 then group else fresh

/-- The format priority in words: AArch64 when the build is 64-bit and an AArch64 page
size is supported; otherwise AArch32-Short when the v7s backend is built, the build is
neither 64-bit nor LPAE, the controller supports the format and the stage is S1;
otherwise AArch32-Long whenever the controller supports it; otherwise AArch64 whenever
an AArch64 page size is supported; otherwise none. -/
def fmt_by_priority (kc : kconfig) (features : Nat) (stage : arm_smmu_domain_stage) :
    arm_smmu_context_fmt :=
  if kc.CONFIG_64BIT = true ∧ features &&& (ARM_SMMU_FEAT_FMT_AARCH64_64K |||
      ARM_SMMU_FEAT_FMT_AARCH64_16K ||| ARM_SMMU_FEAT_FMT_AARCH64_4K) ≠ 0 then
    arm_smmu_context_fmt.ARM_SMMU_CTX_FMT_AARCH64
  else if kc.CONFIG_IOMMU_IO_PGTABLE_ARMV7S = true ∧ kc.CONFIG_64BIT = false ∧
      kc.CONFIG_ARM_LPAE = false ∧ features &&& ARM_SMMU_FEAT_FMT_AARCH32_S ≠ 0 ∧
      stage = arm_smmu_domain_stage.ARM_SMMU_DOMAIN_S1 then
    arm_smmu_context_fmt.ARM_SMMU_CTX_FMT_AARCH32_S
  else if features &&& ARM_SMMU_FEAT_FMT_AARCH32_L ≠ 0 then
    arm_smmu_context_fmt.ARM_SMMU_CTX_FMT_AARCH32_L
  else if features &&& (ARM_SMMU_FEAT_FMT_AARCH64_64K |||
      ARM_SMMU_FEAT_FMT_AARCH64_16K ||| ARM_SMMU_FEAT_FMT_AARCH64_4K) ≠ 0 then
    arm_smmu_context_fmt.ARM_SMMU_CTX_FMT_AARCH64
  else arm_smmu_context_fmt.ARM_SMMU_CTX_FMT_NONE

/-- The format priority as the specification words it: AArch32-Long when it is the only
32-bit format of the controller and the build is not 64-bit; otherwise AArch32-Short
when the controller supports it, the v7s backend is built, the build is neither 64-bit
nor LPAE and the stage is S1; otherwise AArch64 whenever an AArch64 page size is
supported; otherwise none (`NoCompatibleFormat`). -/
def fmt_as_specified (kc : kconfig) (features : Nat) (stage : arm_smmu_domain_stage) :
    arm_smmu_context_fmt :=
  if features &&& ARM_SMMU_FEAT_FMT_AARCH32_L ≠ 0 ∧
      features &&& ARM_SMMU_FEAT_FMT_AARCH32_S = 0 ∧ kc.CONFIG_64BIT = false then
    arm_smmu_context_fmt.ARM_SMMU_CTX_FMT_AARCH32_L
  else if features &&& ARM_SMMU_FEAT_FMT_AARCH32_S ≠ 0 ∧
      kc.CONFIG_IOMMU_IO_PGTABLE_ARMV7S = true ∧ kc.CONFIG_64BIT = false ∧
      kc.CONFIG_ARM_LPAE = false ∧ stage = arm_smmu_domain_stage.ARM_SMMU_DOMAIN_S1 then
    arm_smmu_context_fmt.ARM_SMMU_CTX_FMT_AARCH32_S
  else if features &&& (ARM_SMMU_FEAT_FMT_AARCH64_64K |||
      ARM_SMMU_FEAT_FMT_AARCH64_16K ||| ARM_SMMU_FEAT_FMT_AARCH64_4K) ≠ 0 then
    arm_smmu_context_fmt.ARM_SMMU_CTX_FMT_AARCH64
  else arm_smmu_context_fmt.ARM_SMMU_CTX_FMT_NONE

/-! ## TLB maintenance -/

/-- Modelled from the spec: `sTLBGSTATUS_GSACTIVE`, declared outside `arm-smmu.c` in
`arm-smmu-regs.h`: the bit of the status register that says a sync is still active. -/
def sTLBGSTATUS_GSACTIVE : Nat := 1 <<< 0

/-- What `__arm_smmu_tlb_sync` did: the values written to `sTLBGSYNC`, the number of
reads of `sTLBGSTATUS`, and whether it left through the timeout branch (the function
itself returns `void`). -/
structure tlb_sync_result where
  sync_writes : List Nat
  reads : Nat
  timed_out : Bool
deriving DecidableEq, Repr

/-- The `while` loop of `__arm_smmu_tlb_sync`. `timeout` is `TLB_LOOP_TIMEOUT` (declared
outside `arm-smmu.c`), `status k` the value that the `k`-th read of `sTLBGSTATUS`
returns, `count` the local counter and `reads` the number of reads so far. The result
is the number of reads and whether the loop timed out; `none` when `fuel` runs out. -/
def tlb_sync_loop (timeout : Nat) (status : Nat → Nat) : Nat → Nat → Nat → Option (Nat × Bool)
  | 0, _, _ => none
  | fuel + 1, count, reads =>
    if status reads &&& sTLBGSTATUS_GSACTIVE ≠ 0 then
      if count + 1 = timeout then some (reads + 1, true)
      else tlb_sync_loop timeout status fuel (count + 1) (reads + 1)
    else some (reads + 1, false)

/-- Embedding of `__arm_smmu_tlb_sync`. -/
def __arm_smmu_tlb_sync (timeout : Nat) (status : Nat → Nat) (fuel : Nat) :
    Option tlb_sync_result :=
  (tlb_sync_loop timeout status fuel 0 0).map fun r =>
    { sync_writes := [0], reads := r.1, timed_out := r.2 }

/-- The registers that take invalidation commands. -/
inductive tlb_reg where
  | ARM_SMMU_CB_S1_TLBIVA
  | ARM_SMMU_CB_S1_TLBIVAL
  | ARM_SMMU_CB_S2_TLBIIPAS2
  | ARM_SMMU_CB_S2_TLBIIPAS2L
  | ARM_SMMU_GR0_TLBIVMID
deriving DecidableEq, Repr

/-- One register write: the register, the width of the access (32 for
`writel_relaxed`, 64 for `writeq_relaxed`) and the value that reaches the register. -/
structure reg_write where
  reg : tlb_reg
  bits : Nat
  val : Nat
deriving DecidableEq, Repr

/-- The macro `ARM_SMMU_CB_ASID`: `(u16)smmu->cavium_id_base + cfg->cbndx`. -/
def ARM_SMMU_CB_ASID (smmu : arm_smmu_device) (cfg : arm_smmu_cfg) : Nat :=
  smmu.cavium_id_base % 2 ^ 16 + cfg.cbndx

/-- The macro `ARM_SMMU_CB_VMID`: `(u16)smmu->cavium_id_base + cfg->cbndx + 1`. -/
def ARM_SMMU_CB_VMID (smmu : arm_smmu_device) (cfg : arm_smmu_cfg) : Nat :=
  smmu.cavium_id_base % 2 ^ 16 + cfg.cbndx + 1

/-- The three `do ... while (size -= granule)` loops of
`arm_smmu_tlb_inv_range_nosync` have one shape: write the low `wbits` bits of the
`unsigned long` variable `iova`, add `step` to it, subtract `granule` from `size`, go on
while `size` is not zero. `bpl` is the width of `unsigned long`; `none` when `fuel` runs
out. -/
def tlb_inv_range_loop (bpl wbits step : Nat) (reg : tlb_reg) :
    Nat → Nat → Nat → Nat → Option (List reg_write)
  | 0, _, _, _ => none
  | fuel + 1, iova, size, granule =>
    let w : reg_write := { reg := reg, bits := wbits, val := iova % 2 ^ wbits }
    let iova1 := (iova + step) % 2 ^ bpl
    let size1 := (size + (2 ^ bpl - granule % 2 ^ bpl)) % 2 ^ bpl
    if size1 ≠ 0 then
      (tlb_inv_range_loop bpl wbits step reg fuel iova1 size1 granule).map fun ws => w :: ws
    else some [w]

/-- Embedding of `arm_smmu_tlb_inv_range_nosync`: the register writes in order.
`iova`, `size` and `granule` are `unsigned long` / `size_t` values. -/
def arm_smmu_tlb_inv_range_nosync (kc : kconfig) (fuel : Nat) (smmu : arm_smmu_device)
    (cfg : arm_smmu_cfg) (iova size granule : Nat) (leaf : Bool) : Option (List reg_write) :=
  let bpl := BITS_PER_LONG kc
  if cfg.cbar ≠ CBAR_TYPE_S2_TRANS then
    let reg := if leaf then tlb_reg.ARM_SMMU_CB_S1_TLBIVAL else tlb_reg.ARM_SMMU_CB_S1_TLBIVA
    if cfg.fmt ≠ arm_smmu_context_fmt.ARM_SMMU_CTX_FMT_AARCH64 then
      let iova1 := iova &&& ((2 ^ bpl - 1) ^^^ 12)
      let iova2 := (iova1 ||| ARM_SMMU_CB_ASID smmu cfg) % 2 ^ bpl
      tlb_inv_range_loop bpl 32 granule reg fuel iova2 size granule
    else
      let iova1 := iova >>> 12
      let iova2 := (iova1 ||| (ARM_SMMU_CB_ASID smmu cfg <<< 48) % 2 ^ 64) % 2 ^ bpl
      tlb_inv_range_loop bpl 64 (granule >>> 12) reg fuel iova2 size granule
  else if smmu.version = arm_smmu_arch_version.ARM_SMMU_V2 then
    let reg := if leaf then tlb_reg.ARM_SMMU_CB_S2_TLBIIPAS2L
      else tlb_reg.ARM_SMMU_CB_S2_TLBIIPAS2
    tlb_inv_range_loop bpl bpl (granule >>> 12) reg fuel (iova >>> 12) size granule
  else
    some [{ reg := tlb_reg.ARM_SMMU_GR0_TLBIVMID, bits := 32,
            val := ARM_SMMU_CB_VMID smmu cfg % 2 ^ 32 }]

/-! ## Map and translate -/

/-- Modelled from the spec: the error code `ERANGE`, declared outside `arm-smmu.c` in
`errno-base.h`; the number is that of the kernel. -/
def ERANGE : Int := 34

/-- Modelled from the spec: `CB_PAR_F`, declared outside `arm-smmu.c` in
`arm-smmu-regs.h`: the fault bit of the result register `PAR`. -/
def CB_PAR_F : Nat := 1 <<< 0

/-- Modelled from the spec: the macro `GENMASK_ULL(h, l)`, declared outside
`arm-smmu.c` in `bits.h`: the bits `l` to `h`. -/
def GENMASK_ULL (h l : Nat) : Nat := (2 ^ (h + 1) - 1) ^^^ (2 ^ l - 1)

/-- Modelled from the spec: the page-table backend (`io-pgtable`), an opaque
collaborator declared outside `arm-smmu.c`, reduced to what section 6 says of it: it is
created with an input and an output address width, `map` records a range, and
`iova_to_phys` walks what was recorded. -/
structure io_pgtable where
  cfg : io_pgtable_cfg
  maps : List (Nat × Nat × Nat)
deriving DecidableEq, Repr

/-- Modelled from the spec: `map` of the page-table backend: a range that fits the
input and output address widths and overlaps no recorded range is recorded as
`(iova, paddr, size)`. -/
def io_pgtable.map (pt : io_pgtable) (iova paddr size : Nat) : Int × io_pgtable :=
  if 2 ^ pt.cfg.ias < iova + size ∨ 2 ^ pt.cfg.oas < paddr + size then (-ERANGE, pt)
  else if pt.maps.any fun m => decide (m.1 < iova + size ∧ iova < m.1 + m.2.2) then
    (-EEXIST, pt)
  else (0, { pt with maps := (iova, paddr, size) :: pt.maps })

/-- Modelled from the spec: `iova_to_phys` of the page-table backend, the software walk:
the physical address recorded for `iova`, or 0 when nothing is mapped there. -/
def io_pgtable.iova_to_phys (pt : io_pgtable) (iova : Nat) : Nat :=
  match pt.maps.find? fun m => decide (m.1 ≤ iova ∧ iova < m.1 + m.2.2) with
  | some m => m.2.1 + (iova - m.1)
  | none => 0

/-- Embedding of `arm_smmu_map`: the call is handed to the backend `pt` that the
handle `pgtbl_ops` of the domain stands for. -/
def arm_smmu_map (smmu_domain : arm_smmu_domain) (pt : io_pgtable) (iova paddr size : Nat) :
    Int × io_pgtable :=
  match smmu_domain.pgtbl_ops with
  | none => (-ENODEV, pt)
  | some _ => pt.map iova paddr size

/-- Result of `arm_smmu_iova_to_phys_hard`: the value written to `ATS1PR`, the width
of that write, and the returned address. -/
structure iova_to_phys_result where
  ats1pr : Nat
  ats1pr_bits : Nat
  ret : Nat
deriving DecidableEq, Repr

/-- Embedding of `arm_smmu_iova_to_phys_hard`. `phys_addr_bits` is the width of
`phys_addr_t` (a type declared outside `arm-smmu.c`), `sw_walk` is
`ops->iova_to_phys`, `poll_timed_out` says whether `readl_poll_timeout_atomic` gave up,
and `par` is the 64-bit value read from `PAR`. -/
def arm_smmu_iova_to_phys_hard (kc : kconfig) (phys_addr_bits : Nat) (smmu : arm_smmu_device)
    (sw_walk : Nat → Nat) (iova : Nat) (poll_timed_out : Bool) (par : Nat) :
    iova_to_phys_result :=
  let bpl := BITS_PER_LONG kc
  let va := (iova % 2 ^ bpl) &&& ((2 ^ bpl - 1) ^^^ 0xfff)
  let wbits := if smmu.version = arm_smmu_arch_version.ARM_SMMU_V2 then bpl else 32
  let ret :=
    if poll_timed_out then sw_walk iova
    else if par &&& CB_PAR_F ≠ 0 then 0
    else ((par &&& GENMASK_ULL 39 12) ||| (iova &&& 0xfff)) % 2 ^ phys_addr_bits
  { ats1pr := va % 2 ^ wbits, ats1pr_bits := wbits, ret := ret }

/-- Embedding of `arm_smmu_iova_to_phys`; `smmu` is the controller the domain is bound
to. -/
def arm_smmu_iova_to_phys (kc : kconfig) (phys_addr_bits : Nat) (smmu_domain : arm_smmu_domain)
    (smmu : arm_smmu_device) (sw_walk : Nat → Nat) (iova : Nat) (poll_timed_out : Bool)
    (par : Nat) : Nat :=
  match smmu_domain.pgtbl_ops with
  | none => 0
  | some _ =>
    if smmu.features &&& ARM_SMMU_FEAT_TRANS_OPS ≠ 0 ∧
        smmu_domain.stage = arm_smmu_domain_stage.ARM_SMMU_DOMAIN_S1 then
      (arm_smmu_iova_to_phys_hard kc phys_addr_bits smmu sw_walk iova poll_timed_out par).ret
    else sw_walk iova

/-! ## Sample configurations -/

/-- A stream-matching SMMUv2 with `n` stream-mapping groups as the probe leaves it
(every SMR zeroed, every S2CR equal to `s2cr_init_val`), two context banks of which
bank 0 is stage-2 only, both translation stages and the AArch64 4K format. -/
def sample_smmu (n : Nat) : arm_smmu_device :=
  { features := ARM_SMMU_FEAT_STREAM_MATCH ||| ARM_SMMU_FEAT_TRANS_S1 |||
      ARM_SMMU_FEAT_TRANS_S2 ||| ARM_SMMU_FEAT_FMT_AARCH64_4K
    version := arm_smmu_arch_version.ARM_SMMU_V2
    num_context_banks := 2
    num_s2_context_banks := 1
    context_map := 0
    irptndx := 0
    num_mapping_groups := n
    streamid_mask := 0x7fff
    smr_mask_mask := 0x7fff
    smrs := some (List.replicate n { mask := 0, id := 0, valid := false })
    s2crs := List.replicate n (s2cr_init_val false)
    va_size := 48
    ipa_size := 48
    pa_size := 48
    pgsize_bitmap := 0x1000
    num_global_irqs := 1
    num_context_irqs := 2
    cavium_id_base := 0 }

/-- A stream-indexing SMMUv2 with extended stream IDs as the probe leaves it
(`ID0.EXIDS` set, `ID0.SMS` clear): no SMRs, 65536 routing entries,
`streamid_mask = 0xffff`. -/
def sample_exids_smmu : arm_smmu_device :=
  { features := ARM_SMMU_FEAT_TRANS_S1 ||| ARM_SMMU_FEAT_TRANS_S2 |||
      ARM_SMMU_FEAT_FMT_AARCH64_4K ||| ARM_SMMU_FEAT_EXIDS
    version := arm_smmu_arch_version.ARM_SMMU_V2
    num_context_banks := 2
    num_s2_context_banks := 1
    context_map := 0
    irptndx := 0
    num_mapping_groups := 65536
    streamid_mask := 0xffff
    smr_mask_mask := 0
    smrs := none
    s2crs := List.replicate 65536 (s2cr_init_val false)
    va_size := 48
    ipa_size := 48
    pa_size := 48
    pgsize_bitmap := 0x1000
    num_global_irqs := 1
    num_context_irqs := 2
    cavium_id_base := 0 }

/-- The build options of a 64-bit kernel. -/
def sample_kconfig : kconfig :=
  { CONFIG_64BIT := true, CONFIG_ARM_LPAE := false, CONFIG_IOMMU_IO_PGTABLE_ARMV7S := false }

/-- The build options of a 32-bit kernel with LPAE and without the v7s backend. -/
def sample_kconfig_lpae : kconfig :=
  { CONFIG_64BIT := false, CONFIG_ARM_LPAE := true, CONFIG_IOMMU_IO_PGTABLE_ARMV7S := false }

/-- A controller like `sample_smmu 4` whose only table format is AArch32-Long. -/
def sample_aarch32_smmu : arm_smmu_device :=
  { sample_smmu 4 with
    features := ARM_SMMU_FEAT_STREAM_MATCH ||| ARM_SMMU_FEAT_TRANS_S1 |||
      ARM_SMMU_FEAT_TRANS_S2 ||| ARM_SMMU_FEAT_FMT_AARCH32_L }

/-- The controller `sample_aarch32_smmu` with both of its context banks in use. -/
def sample_full_aarch32_smmu : arm_smmu_device :=
  { sample_aarch32_smmu with context_map := 3 }

/-- The build options of a 32-bit kernel without LPAE and with the v7s backend. -/
def sample_kconfig_v7s : kconfig :=
  { CONFIG_64BIT := false, CONFIG_ARM_LPAE := false, CONFIG_IOMMU_IO_PGTABLE_ARMV7S := true }

/-- A controller like `sample_smmu 4` whose table formats are AArch32-Long and
AArch32-Short. -/
def sample_v7s_smmu : arm_smmu_device :=
  { sample_smmu 4 with
    features := ARM_SMMU_FEAT_STREAM_MATCH ||| ARM_SMMU_FEAT_TRANS_S1 |||
      ARM_SMMU_FEAT_TRANS_S2 ||| ARM_SMMU_FEAT_FMT_AARCH32_L ||| ARM_SMMU_FEAT_FMT_AARCH32_S }

/-- A controller like `sample_smmu 4` that supports stage 2 only and whose only table
format is AArch32-Long. -/
def sample_s2_aarch32_smmu : arm_smmu_device :=
  { sample_smmu 4 with
    features := ARM_SMMU_FEAT_STREAM_MATCH ||| ARM_SMMU_FEAT_TRANS_S2 |||
      ARM_SMMU_FEAT_FMT_AARCH32_L }

/-- A controller like `sample_smmu 4` that supports the translation stages given by the
feature bits `stages` (and the AArch64 4K format). -/
def sample_staged_smmu (stages : Nat) : arm_smmu_device :=
  { sample_smmu 4 with
    features := ARM_SMMU_FEAT_STREAM_MATCH ||| ARM_SMMU_FEAT_FMT_AARCH64_4K ||| stages }

/-- A bind of a fresh domain that requests the stage `req` on `sample_staged_smmu sup`
(64-bit build, page-table allocation and interrupt registration succeeding): the
return value, the stage member and the `cbar` member afterwards. -/
def sample_bind_stage (req : arm_smmu_domain_stage) (sup : Nat) :
    Option (Int × arm_smmu_domain_stage × Nat) :=
  (arm_smmu_init_domain_context sample_kconfig 1 (fresh_domain req) 0x1000
    (sample_staged_smmu sup) (some (7, 0x1000)) 0).map fun r =>
      (r.ret, r.smmu_domain.stage, r.smmu_domain.cfg.cbar)

/-- An SMMUv1 like `sample_smmu 4` with three context interrupts whose interrupt
counter `irptndx` stands at `counter`. -/
def sample_v1_smmu (counter : Int) : arm_smmu_device :=
  { sample_smmu 4 with
    version := arm_smmu_arch_version.ARM_SMMU_V1
    num_context_irqs := 3
    irptndx := counter }

/-- The controller `sample_smmu 4` with hardware-assisted translation
(`ARM_SMMU_FEAT_TRANS_OPS`). -/
def sample_ats_smmu : arm_smmu_device :=
  { sample_smmu 4 with
    features := ARM_SMMU_FEAT_STREAM_MATCH ||| ARM_SMMU_FEAT_TRANS_S1 |||
      ARM_SMMU_FEAT_TRANS_S2 ||| ARM_SMMU_FEAT_FMT_AARCH64_4K ||| ARM_SMMU_FEAT_TRANS_OPS }

/-- A stage-1 configuration in the AArch32-Long format on context bank 1. -/
def sample_cfg_aarch32 : arm_smmu_cfg :=
  { cbndx := 1, irptndx := 1, cbar := CBAR_TYPE_S1_TRANS_S2_BYPASS,
    fmt := arm_smmu_context_fmt.ARM_SMMU_CTX_FMT_AARCH32_L }

/-- A stage-1 configuration in the AArch64 format on context bank 1. -/
def sample_cfg_aarch64 : arm_smmu_cfg :=
  { cbndx := 1, irptndx := 1, cbar := CBAR_TYPE_S1_TRANS_S2_BYPASS,
    fmt := arm_smmu_context_fmt.ARM_SMMU_CTX_FMT_AARCH64 }

/-- What the kernel services give `arm_smmu_add_device` when none of them fails; the
group pointer is `5`. -/
def sample_env : add_device_env :=
  { cfg_alloc_ok := true, pm_get_err := false, group_ptr := 5, pm_put_err := false }

/-! # Properties -/

/-! ## Bit-level facts -/

theorem testBit_not32 (x i : Nat) : (not32 x).testBit i = (decide (i < 32) ^^ x.testBit i) := by
  show ((2 ^ 32 - 1) ^^^ x).testBit i = _
  rw [Nat.testBit_xor, Nat.testBit_two_pow_sub_one]

theorem lt_16_of_testBit {a i : Nat} (ha : a < 2 ^ 16) (hi : a.testBit i = true) : i < 16 := by
  by_contra hc
  have h16 : 2 ^ 16 ≤ 2 ^ i := Nat.pow_le_pow_right (by decide) (by omega)
  have := Nat.testBit_lt_two_pow (Nat.lt_of_lt_of_le ha h16)
  simp [this] at hi

theorem and_not32_eq_zero_iff (a m : Nat) (ha : a < 2 ^ 16) :
    a &&& not32 m = 0 ↔ ∀ i, a.testBit i = true → m.testBit i = true := by
  constructor
  · intro h i hi
    have hlt : i < 16 := lt_16_of_testBit ha hi
    have hb : (a &&& not32 m).testBit i = false := by rw [h]; simp
    rw [Nat.testBit_and, testBit_not32, hi] at hb
    have h32 : decide (i < 32) = true := by simp; omega
    rw [h32] at hb
    cases hm : m.testBit i <;> simp [hm] at hb ⊢
  · intro h
    apply Nat.eq_of_testBit_eq
    intro i
    rw [Nat.testBit_and, testBit_not32]
    cases hai : a.testBit i
    · simp
    · have := h i hai
      have hlt : i < 16 := lt_16_of_testBit ha hai
      have h32 : decide (i < 32) = true := by simp; omega
      simp [this, h32]

theorem sid_matches_iff (s id mask : Nat) (hs : s < 2 ^ 16) (hid : id < 2 ^ 16) :
    sid_matches s id mask ↔ ∀ i, s.testBit i ≠ id.testBit i → mask.testBit i = true := by
  unfold sid_matches
  rw [and_not32_eq_zero_iff _ _ (Nat.xor_lt_two_pow hs hid)]
  constructor
  · intro h i hne
    apply h i
    rw [Nat.testBit_xor]
    cases h1 : s.testBit i <;> cases h2 : id.testBit i <;> simp_all
  · intro h i hx
    apply h i
    rw [Nat.testBit_xor] at hx
    cases h1 : s.testBit i <;> cases h2 : id.testBit i <;> simp_all

theorem mask_subset_iff (mask emask : Nat) :
    mask &&& emask = mask ↔ ∀ i, mask.testBit i = true → emask.testBit i = true := by
  constructor
  · intro h i hi
    have : (mask &&& emask).testBit i = true := by rw [h]; exact hi
    rw [Nat.testBit_and] at this
    simp_all
  · intro h
    apply Nat.eq_of_testBit_eq
    intro i
    rw [Nat.testBit_and]
    cases hm : mask.testBit i
    · simp
    · simp [h i hm]

theorem testBit_flip (x i j : Nat) :
    (x ^^^ 2 ^ i).testBit j = (x.testBit j ^^ decide (i = j)) := by
  rw [Nat.testBit_xor, Nat.testBit_two_pow]

/-- The reuse test of `arm_smmu_find_sme` is containment of match sets. -/
theorem reuse_cond_iff (id mask eid emask : Nat)
    (hid : id < 2 ^ 16) (hmask : mask < 2 ^ 16) (heid : eid < 2 ^ 16) :
    (mask &&& emask = mask ∧ (id ^^^ eid) &&& not32 emask = 0) ↔
      ∀ s, s < 2 ^ 16 → sid_matches s id mask → sid_matches s eid emask := by
  rw [mask_subset_iff, and_not32_eq_zero_iff _ _ (Nat.xor_lt_two_pow hid heid)]
  constructor
  · rintro ⟨hsub, hagree⟩ s hs hm
    rw [sid_matches_iff s id mask hs hid] at hm
    rw [sid_matches_iff s eid emask hs heid]
    intro i hne
    by_cases h1 : s.testBit i = id.testBit i
    · apply hagree i
      rw [Nat.testBit_xor]
      rw [h1] at hne
      cases h2 : id.testBit i <;> cases h3 : eid.testBit i <;> simp_all
    · exact hsub i (hm i h1)
  · intro h
    have hself : sid_matches id eid emask := by
      apply h id hid
      rw [sid_matches_iff id id mask hid hid]
      intro i hne
      exact absurd rfl hne
    rw [sid_matches_iff id eid emask hid heid] at hself
    have hagree : ∀ i, (id ^^^ eid).testBit i = true → emask.testBit i = true := by
      intro i hx
      apply hself i
      rw [Nat.testBit_xor] at hx
      cases h2 : id.testBit i <;> cases h3 : eid.testBit i <;> simp_all
    refine ⟨?_, hagree⟩
    intro i hi
    have hi16 : i < 16 := lt_16_of_testBit hmask hi
    have hpow : 2 ^ i < 2 ^ 16 := Nat.pow_lt_pow_right (by decide) hi16
    have hs : id ^^^ 2 ^ i < 2 ^ 16 := Nat.xor_lt_two_pow hid hpow
    have hm : sid_matches (id ^^^ 2 ^ i) id mask := by
      rw [sid_matches_iff _ id mask hs hid]
      intro j hne
      rw [testBit_flip] at hne
      by_cases hij : i = j
      · subst hij; exact hi
      · simp [hij] at hne
    have hm2 := h _ hs hm
    rw [sid_matches_iff _ eid emask hs heid] at hm2
    by_cases hx : id.testBit i = eid.testBit i
    · apply hm2 i
      rw [testBit_flip, hx]
      cases eid.testBit i <;> simp
    · exact hself i hx

/-- The conflict test of `arm_smmu_find_sme` is non-empty intersection of match sets. -/
theorem conflict_cond_iff (id mask eid emask : Nat)
    (hid : id < 2 ^ 16) (heid : eid < 2 ^ 16) :
    (id ^^^ eid) &&& not32 (emask ||| mask) = 0 ↔
      ∃ s, s < 2 ^ 16 ∧ sid_matches s id mask ∧ sid_matches s eid emask := by
  rw [and_not32_eq_zero_iff _ _ (Nat.xor_lt_two_pow hid heid)]
  constructor
  · intro h
    have hs : (id &&& not32 mask) ||| (eid &&& mask) < 2 ^ 16 := by
      apply Nat.or_lt_two_pow
      · exact Nat.lt_of_le_of_lt Nat.and_le_left hid
      · exact Nat.lt_of_le_of_lt Nat.and_le_left heid
    refine ⟨_, hs, ?_, ?_⟩
    · rw [sid_matches_iff _ id mask hs hid]
      intro i hne
      by_contra hm
      apply hne
      rw [Nat.testBit_or, Nat.testBit_and, Nat.testBit_and, testBit_not32]
      have hm' : mask.testBit i = false := by simpa using hm
      rw [hm']
      cases hb : id.testBit i
      · simp
      · have hi16 : i < 16 := lt_16_of_testBit hid hb
        have h32 : decide (i < 32) = true := by simp; omega
        simp [h32]
    · rw [sid_matches_iff _ eid emask hs heid]
      intro i hne
      by_contra hm
      apply hne
      have hem : emask.testBit i = false := by simpa using hm
      rw [Nat.testBit_or, Nat.testBit_and, Nat.testBit_and, testBit_not32]
      cases hmk : mask.testBit i
      · have hag : id.testBit i = eid.testBit i := by
          by_contra hx
          have hxor : (id ^^^ eid).testBit i = true := by
            rw [Nat.testBit_xor]
            cases h2 : id.testBit i <;> cases h3 : eid.testBit i <;> simp_all
          have := h i hxor
          rw [Nat.testBit_or, hem, hmk] at this
          simp at this
        rw [← hag]
        cases hb : id.testBit i
        · simp
        · have hi16 : i < 16 := lt_16_of_testBit hid hb
          have h32 : decide (i < 32) = true := by simp; omega
          simp [h32]
      · cases hb : id.testBit i
        · simp
        · have hi16 : i < 16 := lt_16_of_testBit hid hb
          have h32 : decide (i < 32) = true := by simp; omega
          simp [h32]
  · rintro ⟨s, hs, h1, h2⟩ i hx
    rw [sid_matches_iff s id mask hs hid] at h1
    rw [sid_matches_iff s eid emask hs heid] at h2
    rw [Nat.testBit_or]
    rw [Nat.testBit_xor] at hx
    by_cases ha : s.testBit i = id.testBit i
    · have hb : s.testBit i ≠ eid.testBit i := by
        rw [ha]
        intro hc
        rw [hc] at hx
        simp at hx
      simp [h2 i hb]
    · simp [h1 i ha]

/-! ## The two tests of `arm_smmu_find_sme` -/

theorem find_sme_entry_valid (id mask : Nat) (e : arm_smmu_smr) (i : Nat) (free_idx : Int)
    (hv : e.valid = true) :
    find_sme_entry id mask e i free_idx =
      if mask &&& e.mask = mask ∧ (id ^^^ e.id) &&& not32 e.mask = 0 then sme_scan.done (i : Int)
      else if (id ^^^ e.id) &&& not32 (e.mask ||| mask) = 0 then sme_scan.done (-EINVAL)
      else sme_scan.next free_idx := by
  unfold find_sme_entry
  simp only [hv, Bool.not_true, Bool.false_eq_true, if_false, Bool.and_eq_true, beq_iff_eq]

theorem int_index_ne_neg_EINVAL (i : Nat) : (i : Int) ≠ -EINVAL := by
  unfold EINVAL
  omega

/-- C1. For 16-bit patterns and a valid entry, the scan of `arm_smmu_find_sme` returns
the index of the entry (the reuse test
`(mask & emask) == mask && !((id ^ eid) & ~emask)` holds) if and only if every 16-bit
stream ID matched by the new pattern is matched by the entry. -/
theorem find_sme_reuse_iff_contained (id mask : Nat) (e : arm_smmu_smr) (i : Nat)
    (free_idx : Int) (hid : id < 2 ^ 16) (hmask : mask < 2 ^ 16) (heid : e.id < 2 ^ 16)
    (hemask : e.mask < 2 ^ 16) (hv : e.valid = true) :
    (find_sme_entry id mask e i free_idx = sme_scan.done (i : Int) ↔
      ∀ s, s < 2 ^ 16 → sid_matches s id mask → sid_matches s e.id e.mask) ∧
    (((mask &&& e.mask) == mask && ((id ^^^ e.id) &&& not32 e.mask) == 0) = true ↔
      ∀ s, s < 2 ^ 16 → sid_matches s id mask → sid_matches s e.id e.mask) := by
  have _ := hemask
  have key := reuse_cond_iff id mask e.id e.mask hid hmask heid
  constructor
  · rw [find_sme_entry_valid id mask e i free_idx hv, ← key]
    by_cases hc : mask &&& e.mask = mask ∧ (id ^^^ e.id) &&& not32 e.mask = 0
    · simp [hc]
    · simp only [hc, if_false, iff_false]
      by_cases hd : (id ^^^ e.id) &&& not32 (e.mask ||| mask) = 0
      · simp only [hd, if_true]
        intro h
        injection h with h
        exact int_index_ne_neg_EINVAL i h.symm
      · simp [hd]
  · rw [← key]
    simp only [Bool.and_eq_true, beq_iff_eq]

theorem find_sme_reuse_iff_contained_witness :
    (find_sme_entry 0x12 0x1 { mask := 0x3, id := 0x10, valid := true } 4 (-ENOSPC)
        = sme_scan.done ((4 : Nat) : Int) ↔
      ∀ s, s < 2 ^ 16 → sid_matches s 0x12 0x1 → sid_matches s 0x10 0x3) ∧
    (((0x1 &&& 0x3) == 0x1 && ((0x12 ^^^ 0x10) &&& not32 0x3) == 0) = true ↔
      ∀ s, s < 2 ^ 16 → sid_matches s 0x12 0x1 → sid_matches s 0x10 0x3) :=
  find_sme_reuse_iff_contained 0x12 0x1 { mask := 0x3, id := 0x10, valid := true } 4 (-ENOSPC)
    (by decide) (by decide) (by decide) (by decide) rfl

/-- C2. For 16-bit patterns and a valid entry that fails the reuse test, the scan of
`arm_smmu_find_sme` returns `-EINVAL` at that entry (the test
`!((id ^ eid) & ~(emask | mask))` holds) if and only if some 16-bit stream ID is
matched by both patterns. -/
theorem find_sme_conflict_iff_intersect (id mask : Nat) (e : arm_smmu_smr) (i : Nat)
    (free_idx : Int) (hid : id < 2 ^ 16) (hmask : mask < 2 ^ 16) (heid : e.id < 2 ^ 16)
    (hemask : e.mask < 2 ^ 16) (hv : e.valid = true)
    (hreuse : ¬ (mask &&& e.mask = mask ∧ (id ^^^ e.id) &&& not32 e.mask = 0)) :
    (find_sme_entry id mask e i free_idx = sme_scan.done (-EINVAL) ↔
      ∃ s, s < 2 ^ 16 ∧ sid_matches s id mask ∧ sid_matches s e.id e.mask) ∧
    ((id ^^^ e.id) &&& not32 (e.mask ||| mask) = 0 ↔
      ∃ s, s < 2 ^ 16 ∧ sid_matches s id mask ∧ sid_matches s e.id e.mask) := by
  have _ := hemask
  have _ := hmask
  have key := conflict_cond_iff id mask e.id e.mask hid heid
  refine ⟨?_, key⟩
  rw [find_sme_entry_valid id mask e i free_idx hv, ← key]
  simp only [hreuse, if_false]
  by_cases hd : (id ^^^ e.id) &&& not32 (e.mask ||| mask) = 0
  · simp [hd]
  · simp [hd]

theorem find_sme_conflict_iff_intersect_witness :
    (find_sme_entry 0x10 0x1 { mask := 0x2, id := 0x10, valid := true } 0 (-ENOSPC)
        = sme_scan.done (-EINVAL) ↔
      ∃ s, s < 2 ^ 16 ∧ sid_matches s 0x10 0x1 ∧ sid_matches s 0x10 0x2) ∧
    ((0x10 ^^^ 0x10) &&& not32 (0x2 ||| 0x1) = 0 ↔
      ∃ s, s < 2 ^ 16 ∧ sid_matches s 0x10 0x1 ∧ sid_matches s 0x10 0x2) :=
  find_sme_conflict_iff_intersect 0x10 0x1 { mask := 0x2, id := 0x10, valid := true } 0
    (-ENOSPC) (by decide) (by decide) (by decide) (by decide) rfl (by decide)

/-! ## The context-bank bitmap -/

theorem find_zero_from_spec (map : Nat) : ∀ (n offset : Nat),
    offset ≤ find_zero_from map n offset ∧ find_zero_from map n offset ≤ offset + n ∧
    (∀ j, offset ≤ j → j < find_zero_from map n offset → map.testBit j = true) ∧
    (find_zero_from map n offset < offset + n →
      map.testBit (find_zero_from map n offset) = false) := by
  intro n
  induction n with
  | zero =>
    intro offset
    simp only [find_zero_from]
    refine ⟨Nat.le_refl _, Nat.le_refl _, ?_, ?_⟩
    · intro j h1 h2; omega
    · intro h; omega
  | succ n ih =>
    intro offset
    cases hb : map.testBit offset with
    | true =>
      have heq : find_zero_from map (n + 1) offset = find_zero_from map n (offset + 1) := by
        simp only [find_zero_from, hb, if_true]
      rw [heq]
      obtain ⟨h1, h2, h3, h4⟩ := ih (offset + 1)
      refine ⟨by omega, by omega, ?_, ?_⟩
      · intro j hj1 hj2
        by_cases hj : j = offset
        · rw [hj]; exact hb
        · exact h3 j (by omega) hj2
      · intro h
        exact h4 (by omega)
    | false =>
      have heq : find_zero_from map (n + 1) offset = offset := by
        simp [find_zero_from, hb]
      rw [heq]
      refine ⟨Nat.le_refl _, by omega, ?_, ?_⟩
      · intro j h1 h2; omega
      · intro _; exact hb

theorem find_next_zero_bit_spec (map size offset : Nat) :
    find_next_zero_bit map size offset ≤ size ∧
    (offset < size → offset ≤ find_next_zero_bit map size offset) ∧
    (∀ j, offset ≤ j → j < find_next_zero_bit map size offset → map.testBit j = true) ∧
    (find_next_zero_bit map size offset < size →
      map.testBit (find_next_zero_bit map size offset) = false) ∧
    (size ≤ offset → find_next_zero_bit map size offset = size) := by
  by_cases h : offset ≥ size
  · have heq : find_next_zero_bit map size offset = size := by
      simp [find_next_zero_bit, h]
    rw [heq]
    refine ⟨Nat.le_refl _, by omega, ?_, by omega, fun _ => rfl⟩
    intro j h1 h2; omega
  · have heq : find_next_zero_bit map size offset = find_zero_from map (size - offset) offset := by
      simp [find_next_zero_bit, h]
    rw [heq]
    obtain ⟨h1, h2, h3, h4⟩ := find_zero_from_spec map (size - offset) offset
    refine ⟨by omega, fun _ => h1, h3, ?_, by omega⟩
    intro hlt
    exact h4 (by omega)

theorem testBit_set_bit (map i j : Nat) :
    (map ||| 2 ^ i).testBit j = (map.testBit j || decide (i = j)) := by
  rw [Nat.testBit_or, Nat.testBit_two_pow]

theorem alloc_bitmap_eq (fuel map start end_ : Nat) :
    __arm_smmu_alloc_bitmap (fuel + 1) map start end_ =
      if find_next_zero_bit map end_ start = end_ then some (-ENOSPC, map)
      else some ((find_next_zero_bit map end_ start : Int),
        map ||| 2 ^ find_next_zero_bit map end_ start) := by
  obtain ⟨h1, _, _, h4, _⟩ := find_next_zero_bit_spec map end_ start
  simp only [__arm_smmu_alloc_bitmap, test_and_set_bit]
  by_cases h : find_next_zero_bit map end_ start = end_
  · simp only [h, if_true]
  · simp only [h, if_false]
    have hb := h4 (by omega)
    simp [hb]

/-- C8. When `start < end` and some bit of `[start, end)` is clear,
`__arm_smmu_alloc_bitmap` returns the smallest index of the range whose bit is clear;
in the bitmap afterwards that bit is set and every other bit is as before. -/
theorem alloc_bitmap_lowest_free (fuel map start end_ : Nat) (hse : start < end_)
    (hfree : ∃ j, start ≤ j ∧ j < end_ ∧ map.testBit j = false) :
    ∃ (i : Nat) (map1 : Nat),
      __arm_smmu_alloc_bitmap (fuel + 1) map start end_ = some ((i : Int), map1) ∧
      start ≤ i ∧ i < end_ ∧ map.testBit i = false ∧
      (∀ j, start ≤ j → j < i → map.testBit j = true) ∧
      map1.testBit i = true ∧ ∀ j, j ≠ i → map1.testBit j = map.testBit j := by
  obtain ⟨h1, h2, h3, h4, _⟩ := find_next_zero_bit_spec map end_ start
  obtain ⟨j, hj1, hj2, hj3⟩ := hfree
  have hne : find_next_zero_bit map end_ start ≠ end_ := by
    intro heq
    rw [heq] at h3
    have := h3 j hj1 hj2
    rw [hj3] at this
    exact absurd this (by decide)
  refine ⟨find_next_zero_bit map end_ start, map ||| 2 ^ find_next_zero_bit map end_ start,
    ?_, h2 hse, by omega, h4 (by omega), h3, ?_, ?_⟩
  · rw [alloc_bitmap_eq]
    simp only [hne, if_false]
  · rw [testBit_set_bit]; simp
  · intro k hk
    rw [testBit_set_bit]
    have : ¬ find_next_zero_bit map end_ start = k := fun h => hk h.symm
    simp [this]

theorem alloc_bitmap_lowest_free_witness :
    ∃ (i : Nat) (map1 : Nat),
      __arm_smmu_alloc_bitmap (0 + 1) 0b1011 1 8 = some ((i : Int), map1) ∧
      1 ≤ i ∧ i < 8 ∧ (0b1011 : Nat).testBit i = false ∧
      (∀ j, 1 ≤ j → j < i → (0b1011 : Nat).testBit j = true) ∧
      map1.testBit i = true ∧ ∀ j, j ≠ i → map1.testBit j = (0b1011 : Nat).testBit j :=
  alloc_bitmap_lowest_free 0 0b1011 1 8 (by decide) ⟨2, by decide, by decide, by decide⟩

/-- C9. `__arm_smmu_alloc_bitmap` returns `-ENOSPC` if and only if no bit of
`[start, end)` is clear (in particular when `start >= end`), and then the bitmap is
unchanged. -/
theorem alloc_bitmap_enospc_iff (fuel map start end_ : Nat) :
    ((∃ map1, __arm_smmu_alloc_bitmap (fuel + 1) map start end_ = some (-ENOSPC, map1)) ↔
      ∀ j, start ≤ j → j < end_ → map.testBit j = true) ∧
    (∀ map1, __arm_smmu_alloc_bitmap (fuel + 1) map start end_ = some (-ENOSPC, map1) →
      map1 = map) := by
  obtain ⟨h1, h2, h3, h4, h5⟩ := find_next_zero_bit_spec map end_ start
  rw [alloc_bitmap_eq]
  by_cases h : find_next_zero_bit map end_ start = end_
  · simp only [h, if_true]
    constructor
    · constructor
      · intro _ j hj1 hj2
        rw [h] at h3
        exact h3 j hj1 hj2
      · intro _
        exact ⟨map, rfl⟩
    · intro map1 heq
      injection heq with heq
      injection heq with _ heq
      exact heq.symm
  · simp only [h, if_false]
    have hlt : find_next_zero_bit map end_ start < end_ := by omega
    have hne : ∀ map1 : Nat, (some ((find_next_zero_bit map end_ start : Int),
        map ||| 2 ^ find_next_zero_bit map end_ start) : Option (Int × Nat)) ≠
        some (-ENOSPC, map1) := by
      intro map1 heq
      injection heq with heq
      injection heq with heq _
      unfold ENOSPC at heq
      omega
    constructor
    · constructor
      · rintro ⟨map1, heq⟩
        exact absurd heq (hne map1)
      · intro hall
        have hstart : start ≤ find_next_zero_bit map end_ start := by
          apply h2
          by_contra hc
          exact h (h5 (by omega))
        have := hall _ hstart hlt
        rw [h4 hlt] at this
        exact absurd this (by decide)
    · intro map1 heq
      exact absurd heq (hne map1)

/-! ## The scan of `arm_smmu_find_sme` -/

theorem find_sme_entry_valid_eq (id mask : Nat) (e : arm_smmu_smr) (i : Nat) (free_idx : Int)
    (hv : e.valid = true) :
    find_sme_entry id mask e i free_idx =
      if sme_reuse id mask e then sme_scan.done (i : Int)
      else if sme_conflict id mask e then sme_scan.done (-EINVAL)
      else sme_scan.next free_idx :=
  find_sme_entry_valid id mask e i free_idx hv

theorem find_sme_entry_invalid_eq (id mask : Nat) (e : arm_smmu_smr) (i : Nat) (free_idx : Int)
    (hv : e.valid = false) :
    find_sme_entry id mask e i free_idx =
      sme_scan.next (if free_idx < 0 then (i : Int) else free_idx) := by
  unfold find_sme_entry
  simp [hv]

theorem find_sme_loop_cons_valid (id mask : Nat) (e : arm_smmu_smr) (rest : List arm_smmu_smr)
    (i : Nat) (free_idx : Int) (hv : e.valid = true) :
    find_sme_loop id mask (e :: rest) i free_idx =
      if sme_reuse id mask e then (i : Int)
      else if sme_conflict id mask e then -EINVAL
      else find_sme_loop id mask rest (i + 1) free_idx := by
  simp only [find_sme_loop, find_sme_entry_valid_eq id mask e i free_idx hv]
  by_cases h1 : sme_reuse id mask e
  · simp [h1]
  · by_cases h2 : sme_conflict id mask e
    · simp [h1, h2]
    · simp [h1, h2]

theorem find_sme_loop_cons_invalid (id mask : Nat) (e : arm_smmu_smr)
    (rest : List arm_smmu_smr) (i : Nat) (free_idx : Int) (hv : e.valid = false) :
    find_sme_loop id mask (e :: rest) i free_idx =
      find_sme_loop id mask rest (i + 1) (if free_idx < 0 then (i : Int) else free_idx) := by
  simp only [find_sme_loop, find_sme_entry_invalid_eq id mask e i free_idx hv]

/-- With a free slot already noted, a non-negative result of the scan is either the
index of a valid entry passing the reuse test, or the noted slot after every valid
entry failed both tests. -/
theorem find_sme_loop_noted (id mask : Nat) : ∀ (l : List arm_smmu_smr) (i0 : Nat)
    (free_idx : Int), 0 ≤ free_idx → 0 ≤ find_sme_loop id mask l i0 free_idx →
    (∃ k e, l[k]? = some e ∧ e.valid = true ∧ sme_reuse id mask e ∧
      find_sme_loop id mask l i0 free_idx = ((i0 + k : Nat) : Int)) ∨
    (find_sme_loop id mask l i0 free_idx = free_idx ∧
      ∀ e ∈ l, e.valid = true → ¬ sme_reuse id mask e ∧ ¬ sme_conflict id mask e) := by
  intro l
  induction l with
  | nil =>
    intro i0 free_idx _ _
    right
    exact ⟨rfl, by intro e he; cases he⟩
  | cons e rest ih =>
    intro i0 free_idx hf hr
    cases hv : e.valid with
    | false =>
      rw [find_sme_loop_cons_invalid id mask e rest i0 free_idx hv] at hr ⊢
      have hnot : ¬ free_idx < 0 := by omega
      simp only [hnot, if_false] at hr ⊢
      rcases ih (i0 + 1) free_idx hf hr with ⟨k, e1, hk, hv1, hre, heq⟩ | ⟨heq, hall⟩
      · left
        refine ⟨k + 1, e1, by simpa using hk, hv1, hre, ?_⟩
        rw [heq]; congr 1; omega
      · right
        refine ⟨heq, ?_⟩
        intro e1 he1 hv1
        rcases List.mem_cons.mp he1 with h | h
        · rw [h, hv] at hv1; cases hv1
        · exact hall e1 h hv1
    | true =>
      rw [find_sme_loop_cons_valid id mask e rest i0 free_idx hv] at hr ⊢
      by_cases h1 : sme_reuse id mask e
      · left
        refine ⟨0, e, by simp, hv, h1, ?_⟩
        simp [h1]
      · by_cases h2 : sme_conflict id mask e
        · simp only [h1, h2, if_false, if_true] at hr
          unfold EINVAL at hr
          omega
        · simp only [h1, h2, if_false] at hr ⊢
          rcases ih (i0 + 1) free_idx hf hr with ⟨k, e1, hk, hv1, hre, heq⟩ | ⟨heq, hall⟩
          · left
            refine ⟨k + 1, e1, by simpa using hk, hv1, hre, ?_⟩
            rw [heq]; congr 1; omega
          · right
            refine ⟨heq, ?_⟩
            intro e1 he1 hv1
            rcases List.mem_cons.mp he1 with h | h
            · rw [h]; exact ⟨h1, h2⟩
            · exact hall e1 h hv1

/-- With no free slot noted yet, a non-negative result of the scan is the index of an
entry of the table: either a valid entry passing the reuse test, or the first invalid
entry after every valid entry failed both tests. -/
theorem find_sme_loop_fresh (id mask : Nat) : ∀ (l : List arm_smmu_smr) (i0 : Nat)
    (free_idx : Int), free_idx < 0 → 0 ≤ find_sme_loop id mask l i0 free_idx →
    ∃ k e, l[k]? = some e ∧ find_sme_loop id mask l i0 free_idx = ((i0 + k : Nat) : Int) ∧
      ((e.valid = true ∧ sme_reuse id mask e) ∨
       (e.valid = false ∧ (∀ k1 e1, k1 < k → l[k1]? = some e1 → e1.valid = true) ∧
         ∀ e1 ∈ l, e1.valid = true → ¬ sme_reuse id mask e1 ∧ ¬ sme_conflict id mask e1)) := by
  intro l
  induction l with
  | nil =>
    intro i0 free_idx hf hr
    simp only [find_sme_loop] at hr
    omega
  | cons e rest ih =>
    intro i0 free_idx hf hr
    cases hv : e.valid with
    | false =>
      rw [find_sme_loop_cons_invalid id mask e rest i0 free_idx hv] at hr ⊢
      simp only [hf, if_true] at hr ⊢
      rcases find_sme_loop_noted id mask rest (i0 + 1) (i0 : Int) (by omega) hr with
        ⟨k, e1, hk, hv1, hre, heq⟩ | ⟨heq, hall⟩
      · refine ⟨k + 1, e1, by simpa using hk, ?_, Or.inl ⟨hv1, hre⟩⟩
        rw [heq]; congr 1; omega
      · refine ⟨0, e, by simp, by simpa using heq, Or.inr ⟨hv, ?_, ?_⟩⟩
        · intro k1 e1 hk1 _; omega
        · intro e1 he1 hv1
          rcases List.mem_cons.mp he1 with h | h
          · rw [h, hv] at hv1; cases hv1
          · exact hall e1 h hv1
    | true =>
      rw [find_sme_loop_cons_valid id mask e rest i0 free_idx hv] at hr ⊢
      by_cases h1 : sme_reuse id mask e
      · refine ⟨0, e, by simp, by simp [h1], Or.inl ⟨hv, h1⟩⟩
      · by_cases h2 : sme_conflict id mask e
        · simp only [h1, h2, if_false, if_true] at hr
          unfold EINVAL at hr
          omega
        · simp only [h1, h2, if_false] at hr ⊢
          obtain ⟨k, e1, hk, heq, hcase⟩ := ih (i0 + 1) free_idx hf hr
          refine ⟨k + 1, e1, by simpa using hk, ?_, ?_⟩
          · rw [heq]; congr 1; omega
          · rcases hcase with h | ⟨hv1, hfirst, hall⟩
            · exact Or.inl h
            · refine Or.inr ⟨hv1, ?_, ?_⟩
              · intro k1 e2 hk1 hget
                cases k1 with
                | zero =>
                  simp at hget
                  rw [← hget]; exact hv
                | succ k2 =>
                  exact hfirst k2 e2 (by omega) (by simpa using hget)
              · intro e2 he2 hv2
                rcases List.mem_cons.mp he2 with h | h
                · rw [h]; exact ⟨h1, h2⟩
                · exact hall e2 h hv2

/-! ## C arrays -/

theorem arr_set_length {α : Type} (l : List α) (idx : Int) (v : α) :
    (arr_set l idx v).length = l.length := by
  unfold arr_set
  split <;> simp

theorem getElem?_arr_set {α : Type} (l : List α) (idx : Int) (v : α) (j : Nat) :
    (arr_set l idx v)[j]? =
      if 0 ≤ idx ∧ idx.toNat = j ∧ j < l.length then some v else l[j]? := by
  unfold arr_set
  by_cases h : idx < 0
  · have h0 : ¬ 0 ≤ idx := by omega
    simp [h, h0]
  · have h0 : 0 ≤ idx := by omega
    simp only [h, if_false, h0, true_and]
    rw [List.getElem?_set]
    by_cases hj : idx.toNat = j
    · subst hj
      by_cases hl : idx.toNat < l.length
      · simp [hl]
      · simp only [hl, if_false, if_true, and_false]
        exact (List.getElem?_eq_none (by omega)).symm
    · simp [hj]

theorem getElem?_arr_set_nat {α : Type} (l : List α) (k : Nat) (v : α) (j : Nat) :
    (arr_set l (k : Int) v)[j]? = if k = j ∧ j < l.length then some v else l[j]? := by
  rw [getElem?_arr_set]
  simp

theorem arr_get_of_getElem? {α : Type} [Inhabited α] (l : List α) (k : Nat) (e : α)
    (h : l[k]? = some e) : arr_get l (k : Int) = e := by
  unfold arr_get
  have h0 : ¬ ((k : Int) < 0) := by omega
  simp [h0, h]

/-! ## The stream-match table stays free of overlaps -/

theorem sme_disjoint_symm {a b : arm_smmu_smr} (h : sme_disjoint a b) : sme_disjoint b a := by
  intro s hs hab
  exact h s hs ⟨hab.2, hab.1⟩

theorem smr_table_ok_invalidate (n : Nat) (l : List arm_smmu_smr) (idx : Int)
    (h : smr_table_ok n l) :
    smr_table_ok n (arr_set l idx { (arr_get l idx) with valid := false }) := by
  obtain ⟨h1, h2⟩ := h
  have key : ∀ (i : Nat) (e : arm_smmu_smr),
      (arr_set l idx { (arr_get l idx) with valid := false })[i]? = some e →
      e.valid = true → l[i]? = some e := by
    intro i e hget hv
    rw [getElem?_arr_set] at hget
    by_cases hc : 0 ≤ idx ∧ idx.toNat = i ∧ i < l.length
    · simp only [hc, and_self, if_true] at hget
      injection hget with hget
      rw [← hget] at hv
      cases hv
    · simpa only [hc, if_false] using hget
  constructor
  · intro i e hget hv
    exact h1 i e (key i e hget hv) hv
  · intro i j ei ej hij hi hj hvi hvj
    exact h2 i j ei ej hij (key i ei hi hvi) (key j ej hj hvj) hvi hvj

theorem smr_table_ok_store (n : Nat) (l : List arm_smmu_smr) (k sid mask : Nat)
    (h : smr_table_ok n l) (hk : k < n) (hsid : sid < 2 ^ 16)
    (hdis : ∀ (j : Nat) (ej : arm_smmu_smr), j ≠ k → l[j]? = some ej → ej.valid = true →
      sme_disjoint { mask := mask, id := sid, valid := true } ej) :
    smr_table_ok n (arr_set l (k : Int) { mask := mask, id := sid, valid := true }) := by
  obtain ⟨h1, h2⟩ := h
  constructor
  · intro i e hget hv
    rw [getElem?_arr_set_nat] at hget
    by_cases hc : k = i ∧ i < l.length
    · simp only [hc, and_self, if_true] at hget
      injection hget with hget
      rw [← hget]
      exact ⟨by omega, hsid⟩
    · simp only [hc, if_false] at hget
      exact h1 i e hget hv
  · intro i j ei ej hij hi hj hvi hvj
    rw [getElem?_arr_set_nat] at hi hj
    by_cases hci : k = i ∧ i < l.length
    · simp only [hci, and_self, if_true] at hi
      injection hi with hi
      have hcj : ¬ (k = j ∧ j < l.length) := by
        intro hc; exact hij (hci.1.symm.trans hc.1)
      simp only [hcj, if_false] at hj
      rw [← hi]
      exact hdis j ej (by omega) hj hvj
    · simp only [hci, if_false] at hi
      by_cases hcj : k = j ∧ j < l.length
      · simp only [hcj, and_self, if_true] at hj
        injection hj with hj
        rw [← hj]
        exact sme_disjoint_symm (hdis i ei (by omega) hi hvi)
      · simp only [hcj, if_false] at hj
        exact h2 i j ei ej hij hi hj hvi hvj

/-- A non-negative result of `arm_smmu_find_sme` on a stream-matching controller is
the index of a slot below `num_mapping_groups`, and the new pattern is disjoint from
every valid entry in any other slot. -/
theorem find_sme_result_disjoint (smmu : arm_smmu_device) (l : List arm_smmu_smr)
    (sid mask : Nat) (hsm : smmu.smrs = some l)
    (hok : smr_table_ok smmu.num_mapping_groups l)
    (hsid : sid < 2 ^ 16) (hmask : mask < 2 ^ 16)
    (hr : 0 ≤ arm_smmu_find_sme smmu sid mask) :
    ∃ k : Nat, arm_smmu_find_sme smmu sid mask = (k : Int) ∧ k < smmu.num_mapping_groups ∧
      k < l.length ∧
      ∀ (j : Nat) (ej : arm_smmu_smr), j ≠ k → l[j]? = some ej → ej.valid = true →
        sme_disjoint { mask := mask, id := sid, valid := true } ej := by
  obtain ⟨h1, h2⟩ := hok
  have hfind : arm_smmu_find_sme smmu sid mask =
      find_sme_loop sid mask (l.take smmu.num_mapping_groups) 0 (-ENOSPC) := by
    simp [arm_smmu_find_sme, hsm]
  rw [hfind] at hr ⊢
  obtain ⟨k, e, hk, heq, hcase⟩ := find_sme_loop_fresh sid mask
    (l.take smmu.num_mapping_groups) 0 (-ENOSPC) (by unfold ENOSPC; omega) hr
  rw [List.getElem?_take] at hk
  have hkn : k < smmu.num_mapping_groups := by
    by_contra hc
    simp [hc] at hk
  simp only [hkn, if_true] at hk
  have hkl : k < l.length := by
    by_contra hc
    rw [List.getElem?_eq_none (by omega)] at hk
    cases hk
  refine ⟨k, by rw [heq]; simp, hkn, hkl, ?_⟩
  intro j ej hjk hj hvj
  rcases hcase with ⟨hv, hre⟩ | ⟨_, _, hall⟩
  · have hcont := (reuse_cond_iff sid mask e.id e.mask hsid hmask (h1 k e hk hv).2).mp hre
    have hdis := h2 k j e ej (by omega) hk hj hv hvj
    intro s hs hboth
    exact hdis s hs ⟨hcont s hs hboth.1, hboth.2⟩
  · have hjn := (h1 j ej hj hvj).1
    have hmem : ej ∈ l.take smmu.num_mapping_groups := by
      apply List.getElem?_mem (n := j)
      rw [List.getElem?_take]
      simp [hjn, hj]
    have hnc := (hall ej hmem hvj).2
    intro s hs hboth
    apply hnc
    exact (conflict_cond_iff sid mask ej.id ej.mask hsid (h1 j ej hj hvj).2).mpr ⟨s, hs, hboth⟩

theorem free_sme_fields (db : Bool) (smmu : arm_smmu_device) (idx : Int) :
    (arm_smmu_free_sme db smmu idx).2.num_mapping_groups = smmu.num_mapping_groups ∧
    (arm_smmu_free_sme db smmu idx).2.s2crs =
      (if (arr_get smmu.s2crs idx).count - 1 ≠ 0 then
        arr_set smmu.s2crs idx
          { (arr_get smmu.s2crs idx) with count := (arr_get smmu.s2crs idx).count - 1 }
      else arr_set smmu.s2crs idx (s2cr_init_val db)) ∧
    (arm_smmu_free_sme db smmu idx).2.smrs =
      (if (arr_get smmu.s2crs idx).count - 1 ≠ 0 then smmu.smrs
      else smmu.smrs.map fun smrs =>
        arr_set smrs idx { (arr_get smrs idx) with valid := false }) := by
  unfold arm_smmu_free_sme
  by_cases h : (arr_get smmu.s2crs idx).count - 1 = 0
  · simp [h]
  · simp [h]

theorem alloc_smes_entry_fields (smmu smmu1 : arm_smmu_device) (fw fw1 : iommu_fwspec)
    (i : Nat) (hstep : alloc_smes_entry smmu fw i = Except.ok (smmu1, fw1)) :
    ∃ r : Int, r = arm_smmu_find_sme smmu (fw.ids.getD i 0 % 2 ^ 16)
        ((fw.ids.getD i 0 >>> SMR_MASK_SHIFT) % 2 ^ 16) ∧ 0 ≤ r ∧
      fwspec_smendx fw i = INVALID_SMENDX ∧
      fw1 = set_smendx fw i (s16_cast r) ∧
      smmu1.num_mapping_groups = smmu.num_mapping_groups ∧
      smmu1.smrs = (match smmu.smrs with
        | some smrs =>
          if (arr_get smmu.s2crs r).count = 0 then
            some (arr_set smrs r { mask := (fw.ids.getD i 0 >>> SMR_MASK_SHIFT) % 2 ^ 16,
                                   id := fw.ids.getD i 0 % 2 ^ 16, valid := true })
          else some smrs
        | none => none) ∧
      smmu1.s2crs = arr_set smmu.s2crs r
        { (arr_get smmu.s2crs r) with count := (arr_get smmu.s2crs r).count + 1 } := by
  unfold alloc_smes_entry at hstep
  simp only at hstep
  split at hstep
  · cases hstep
  · rename_i hinv
    split at hstep
    · cases hstep
    · rename_i hneg
      injection hstep with hstep
      injection hstep with hs1 hf1
      refine ⟨_, rfl, by omega, by simpa using hinv, hf1.symm, ?_, ?_, ?_⟩
      · rw [← hs1]
      · rw [← hs1]
      · rw [← hs1]

theorem free_sme_sme_ok (db : Bool) (smmu : arm_smmu_device) (idx : Int) (h : sme_ok smmu) :
    sme_ok (arm_smmu_free_sme db smmu idx).2 := by
  obtain ⟨l, hsm, hok⟩ := h
  unfold arm_smmu_free_sme
  simp only
  split
  · exact ⟨l, hsm, hok⟩
  · refine ⟨arr_set l idx { (arr_get l idx) with valid := false }, ?_, ?_⟩
    · simp [hsm]
    · exact smr_table_ok_invalidate _ l idx hok

theorem mod_two_pow_16_lt (x : Nat) : x % 2 ^ 16 < 2 ^ 16 :=
  Nat.mod_lt _ (by decide)

theorem alloc_smes_entry_sme_ok (smmu smmu1 : arm_smmu_device) (fw fw1 : iommu_fwspec)
    (i : Nat) (h : sme_ok smmu) (hstep : alloc_smes_entry smmu fw i = Except.ok (smmu1, fw1)) :
    sme_ok smmu1 := by
  obtain ⟨l, hsm, hok⟩ := h
  obtain ⟨r, hr, hr0, _, _, f1, f2, _⟩ := alloc_smes_entry_fields smmu smmu1 fw fw1 i hstep
  obtain ⟨k, hk, hkn, hkl, hdis⟩ := find_sme_result_disjoint smmu l _ _ hsm hok
    (mod_two_pow_16_lt _) (mod_two_pow_16_lt _) (hr ▸ hr0)
  rw [← hr] at hk
  unfold sme_ok
  rw [f1, f2, hsm]
  simp only
  split
  · refine ⟨_, rfl, ?_⟩
    rw [hk]
    exact smr_table_ok_store _ l k _ _ hok hkn (mod_two_pow_16_lt _) hdis
  · exact ⟨l, rfl, hok⟩

theorem alloc_smes_loop_sme_ok : ∀ (n i : Nat) (smmu : arm_smmu_device) (fw : iommu_fwspec),
    sme_ok smmu → sme_ok (alloc_smes_loop n i smmu fw).2.2.1 := by
  intro n
  induction n with
  | zero =>
    intro i smmu fw h
    exact h
  | succ n ih =>
    intro i smmu fw h
    simp only [alloc_smes_loop]
    cases hstep : alloc_smes_entry smmu fw i with
    | error ret => exact h
    | ok r =>
      obtain ⟨smmu1, fw1⟩ := r
      exact ih (i + 1) smmu1 fw1 (alloc_smes_entry_sme_ok smmu smmu1 fw fw1 i h hstep)

theorem alloc_smes_unwind_sme_ok (db : Bool) : ∀ (i : Nat) (smmu : arm_smmu_device)
    (fw : iommu_fwspec), sme_ok smmu → sme_ok (alloc_smes_unwind db i smmu fw).1 := by
  intro i
  induction i with
  | zero =>
    intro smmu fw h
    exact h
  | succ i ih =>
    intro smmu fw h
    simp only [alloc_smes_unwind]
    exact ih _ _ (free_sme_sme_ok db smmu _ h)

theorem alloc_smes_set_group_smrs (group : Int) : ∀ (n i : Nat) (smmu : arm_smmu_device)
    (fw : iommu_fwspec),
    (alloc_smes_set_group group n i smmu fw).smrs = smmu.smrs ∧
    (alloc_smes_set_group group n i smmu fw).num_mapping_groups = smmu.num_mapping_groups := by
  intro n
  induction n with
  | zero =>
    intro i smmu fw
    exact ⟨rfl, rfl⟩
  | succ n ih =>
    intro i smmu fw
    simp only [alloc_smes_set_group]
    exact ih (i + 1) _ fw

theorem master_alloc_smes_sme_ok (db : Bool) (smmu : arm_smmu_device) (fw : iommu_fwspec)
    (group_ptr : Int) (h : sme_ok smmu) :
    sme_ok (arm_smmu_master_alloc_smes db smmu fw group_ptr).2.1 := by
  unfold arm_smmu_master_alloc_smes
  have hloop := alloc_smes_loop_sme_ok fw.num_ids 0 smmu fw h
  rcases hres : alloc_smes_loop fw.num_ids 0 smmu fw with ⟨ret, i, smmu1, fw1⟩
  rw [hres] at hloop
  cases ret with
  | some r =>
    exact alloc_smes_unwind_sme_ok db i smmu1 fw1 hloop
  | none =>
    simp only
    generalize (if group_ptr == 0 then -ENOMEM else group_ptr) = group
    by_cases hg : IS_ERR group = true
    · simp only [hg, if_true]
      exact alloc_smes_unwind_sme_ok db i smmu1 fw1 hloop
    · have hg1 : IS_ERR group = false := by simpa using hg
      simp only [hg1, Bool.false_eq_true, if_false]
      obtain ⟨l, hsm, hok⟩ := hloop
      obtain ⟨h1, h2⟩ := alloc_smes_set_group_smrs group fw1.num_ids 0 smmu1 fw1
      refine ⟨l, ?_, ?_⟩
      · exact h1.trans hsm
      · rw [h2]; exact hok

theorem master_free_smes_loop_sme_ok (db : Bool) : ∀ (n i : Nat) (smmu : arm_smmu_device)
    (fw : iommu_fwspec), sme_ok smmu → sme_ok (master_free_smes_loop db n i smmu fw).1 := by
  intro n
  induction n with
  | zero =>
    intro i smmu fw h
    exact h
  | succ n ih =>
    intro i smmu fw h
    simp only [master_free_smes_loop]
    exact ih _ _ _ (free_sme_sme_ok db smmu _ h)

theorem domain_add_master_loop_smrs (cbndx : Nat) (fw : iommu_fwspec) : ∀ (n i : Nat)
    (smmu : arm_smmu_device) (written : List Int),
    (domain_add_master_loop cbndx fw n i smmu written).1.smrs = smmu.smrs ∧
    (domain_add_master_loop cbndx fw n i smmu written).1.num_mapping_groups =
      smmu.num_mapping_groups := by
  intro n
  induction n with
  | zero =>
    intro i smmu written
    exact ⟨rfl, rfl⟩
  | succ n ih =>
    intro i smmu written
    simp only [domain_add_master_loop]
    split
    · exact ih (i + 1) smmu written
    · exact ih (i + 1) _ _

theorem sme_step_sme_ok (db : Bool) (st : sme_state) (op : sme_op) (h : sme_ok st.smmu) :
    sme_ok (sme_step db st op).smmu := by
  cases op with
  | add_device ids group_ptr =>
    simp only [sme_step]
    split
    · exact master_alloc_smes_sme_ok db st.smmu _ group_ptr h
    · exact master_alloc_smes_sme_ok db st.smmu _ group_ptr h
  | remove_device k =>
    simp only [sme_step]
    split
    · exact h
    · exact master_free_smes_loop_sme_ok db _ 0 st.smmu _ h
  | attach_dev k cbndx =>
    simp only [sme_step]
    split
    · exact h
    · rename_i fw _
      obtain ⟨l, hsm, hok⟩ := h
      obtain ⟨h1, h2⟩ := domain_add_master_loop_smrs cbndx fw fw.num_ids 0 st.smmu []
      refine ⟨l, ?_, ?_⟩
      · show (arm_smmu_domain_add_master cbndx st.smmu fw).1.smrs = some l
        unfold arm_smmu_domain_add_master
        rw [h1]; exact hsm
      · show smr_table_ok (arm_smmu_domain_add_master cbndx st.smmu fw).1.num_mapping_groups l
        unfold arm_smmu_domain_add_master
        rw [h2]; exact hok

theorem sme_run_sme_ok (db : Bool) : ∀ (ops : List sme_op) (st : sme_state),
    sme_ok st.smmu → sme_ok (sme_run db st ops).smmu := by
  intro ops
  induction ops with
  | nil =>
    intro st h
    exact h
  | cons op ops ih =>
    intro st h
    exact ih (sme_step db st op) (sme_step_sme_ok db st op h)

/-- C3. No-overlap invariant. Start from a stream-matching controller whose match
entries are all invalid and run any sequence of `arm_smmu_master_alloc_smes`
(successful or failed), `arm_smmu_master_free_smes` and attach calls: the controller
still does stream matching, and any two distinct valid stream-match entries have
disjoint match sets (no 16-bit stream ID is matched by both). -/
theorem sme_run_no_overlap (disable_bypass : Bool) (smmu0 : arm_smmu_device)
    (l0 : List arm_smmu_smr) (hsm : smmu0.smrs = some l0)
    (hinit : ∀ e ∈ l0, e.valid = false) (ops : List sme_op) :
    ∃ l, (sme_run disable_bypass { smmu := smmu0, masters := [] } ops).smmu.smrs = some l ∧
      ∀ (i j : Nat) (ei ej : arm_smmu_smr), i ≠ j → l[i]? = some ei → l[j]? = some ej →
        ei.valid = true → ej.valid = true →
        ∀ s, s < 2 ^ 16 → ¬ (sid_matches s ei.id ei.mask ∧ sid_matches s ej.id ej.mask) := by
  have h0 : sme_ok smmu0 := by
    refine ⟨l0, hsm, ?_, ?_⟩
    · intro i e hget hv
      rw [hinit e (List.getElem?_mem hget)] at hv
      cases hv
    · intro i j ei ej _ hget _ hv
      rw [hinit ei (List.getElem?_mem hget)] at hv
      cases hv
  obtain ⟨l, hl, hok⟩ := sme_run_sme_ok disable_bypass ops { smmu := smmu0, masters := [] } h0
  exact ⟨l, hl, hok.2⟩

theorem sme_run_no_overlap_witness :
    ∃ l, (sme_run false { smmu := sample_smmu 4, masters := [] }
        [sme_op.add_device [0x10, 0x00ff0100] 5, sme_op.add_device [0x00030020, 0x10] 6,
         sme_op.remove_device 0]).smmu.smrs = some l ∧
      ∀ (i j : Nat) (ei ej : arm_smmu_smr), i ≠ j → l[i]? = some ei → l[j]? = some ej →
        ei.valid = true → ej.valid = true →
        ∀ s, s < 2 ^ 16 → ¬ (sid_matches s ei.id ei.mask ∧ sid_matches s ej.id ej.mask) :=
  sme_run_no_overlap false (sample_smmu 4)
    (List.replicate 4 { mask := 0, id := 0, valid := false }) rfl
    (fun _ he => by rw [List.eq_of_mem_replicate he])
    [sme_op.add_device [0x10, 0x00ff0100] 5, sme_op.add_device [0x00030020, 0x10] 6,
     sme_op.remove_device 0]

/-! ## Reference counts of the stream table -/

theorem arr_get_arr_set_nat {α : Type} [Inhabited α] (l : List α) (k j : Nat) (v : α)
    (hj : j < l.length) :
    arr_get (arr_set l (k : Int) v) (j : Int) = if k = j then v else arr_get l (j : Int) := by
  have h0 : ¬ ((j : Int) < 0) := by omega
  unfold arr_get
  simp only [h0, if_false, Int.toNat_ofNat, List.getD_eq_getElem?_getD]
  rw [getElem?_arr_set_nat]
  by_cases hkj : k = j
  · simp [hkj, hj]
  · simp [hkj]

theorem arr_set_neg {α : Type} (l : List α) (idx : Int) (v : α) (h : idx < 0) :
    arr_set l idx v = l := by
  simp [arr_set, h]

theorem refcount_ok_congr (smmu : arm_smmu_device) (c c1 : Nat → Nat)
    (hc : ∀ k, k < smmu.num_mapping_groups → c k = c1 k) (h : refcount_ok smmu c) :
    refcount_ok smmu c1 := by
  obtain ⟨h1, h2, l, h3, h4, h5⟩ := h
  refine ⟨h1, h2, l, h3, h4, ?_⟩
  intro k hk
  rw [← hc k hk]
  exact h5 k hk

theorem find_sme_result_lt (smmu : arm_smmu_device) (l : List arm_smmu_smr) (sid mask : Nat)
    (hsm : smmu.smrs = some l) (hr : 0 ≤ arm_smmu_find_sme smmu sid mask) :
    ∃ k : Nat, arm_smmu_find_sme smmu sid mask = (k : Int) ∧ k < smmu.num_mapping_groups ∧
      k < l.length := by
  have hfind : arm_smmu_find_sme smmu sid mask =
      find_sme_loop sid mask (l.take smmu.num_mapping_groups) 0 (-ENOSPC) := by
    simp [arm_smmu_find_sme, hsm]
  rw [hfind] at hr ⊢
  obtain ⟨k, e, hk, heq, _⟩ := find_sme_loop_fresh sid mask
    (l.take smmu.num_mapping_groups) 0 (-ENOSPC) (by unfold ENOSPC; omega) hr
  rw [List.getElem?_take] at hk
  have hkn : k < smmu.num_mapping_groups := by
    by_contra hc
    simp [hc] at hk
  simp only [hkn, if_true] at hk
  have hkl : k < l.length := by
    by_contra hc
    rw [List.getElem?_eq_none (by omega)] at hk
    cases hk
  exact ⟨k, by rw [heq]; simp, hkn, hkl⟩

theorem s16_cast_small (k : Nat) (hk : k < 2 ^ 15) : s16_cast (k : Int) = (k : Int) := by
  unfold s16_cast
  have h1 : (k : Int) % 65536 = (k : Int) := by omega
  simp only [h1]
  have h2 : (k : Int) < 32768 := by omega
  simp [h2]

/-- Releasing a slot that has at least one reference takes one reference away. -/
theorem free_sme_refcount (db : Bool) (smmu : arm_smmu_device) (c : Nat → Nat) (k : Nat)
    (h : refcount_ok smmu c) (hk : k < smmu.num_mapping_groups) (hpos : 0 < c k) :
    refcount_ok (arm_smmu_free_sme db smmu (k : Int)).2
      (fun j => if j = k then c k - 1 else c j) := by
  obtain ⟨h1, h2, l, h3, h4, h5⟩ := h
  obtain ⟨hck, hvk⟩ := h5 k hk
  obtain ⟨f1, f2, f3⟩ := free_sme_fields db smmu (k : Int)
  unfold refcount_ok
  rw [f1, f2, f3, hck, h3]
  by_cases hone : c k = 1
  · have hz : ¬ ((c k : Int) - 1 ≠ 0) := by simp [hone]
    simp only [hz, if_false, Option.map_some']
    refine ⟨h1, by rw [arr_set_length]; exact h2, _, rfl, by rw [arr_set_length]; exact h4, ?_⟩
    intro j hj
    rw [arr_get_arr_set_nat _ _ _ _ (by omega), arr_get_arr_set_nat _ _ _ _ (by omega)]
    by_cases hjk : k = j
    · subst hjk
      simp [s2cr_init_val, hone]
    · have hjk1 : ¬ j = k := fun hc => hjk hc.symm
      simp only [hjk, hjk1, if_false]
      exact h5 j hj
  · have hz : (c k : Int) - 1 ≠ 0 := by omega
    simp only [hz, ne_eq, not_false_eq_true, if_true]
    refine ⟨h1, by rw [arr_set_length]; exact h2, l, rfl, h4, ?_⟩
    intro j hj
    rw [arr_get_arr_set_nat _ _ _ _ (by omega)]
    by_cases hjk : k = j
    · subst hjk
      simp only [if_true]
      refine ⟨by omega, ?_⟩
      constructor
      · intro _; omega
      · intro _; exact hvk.mpr hpos
    · have hjk1 : ¬ j = k := fun hc => hjk hc.symm
      simp only [hjk, hjk1, if_false]
      exact h5 j hj

/-- Releasing index `INVALID_SMENDX` (outside the table) leaves the tables alone. -/
theorem free_sme_neg (db : Bool) (smmu : arm_smmu_device) (c : Nat → Nat) (idx : Int)
    (hidx : idx < 0) (h : refcount_ok smmu c) :
    refcount_ok (arm_smmu_free_sme db smmu idx).2 c := by
  obtain ⟨f1, f2, f3⟩ := free_sme_fields db smmu idx
  have hget : (arr_get smmu.s2crs idx).count = 0 := by
    simp [arr_get, hidx]
    rfl
  unfold refcount_ok
  rw [f1, f2, f3, hget]
  have hz : ((0 : Int) - 1 ≠ 0) := by decide
  simp only [hz, ne_eq, not_false_eq_true, if_true, arr_set_neg _ _ _ hidx]
  exact h

/-- A successful iteration of the allocation loop records a slot below
`num_mapping_groups` for identifier `i` and adds one reference to it. -/
theorem alloc_smes_entry_refcount (smmu smmu1 : arm_smmu_device) (fw fw1 : iommu_fwspec)
    (i : Nat) (c : Nat → Nat) (h : refcount_ok smmu c)
    (hstep : alloc_smes_entry smmu fw i = Except.ok (smmu1, fw1)) :
    ∃ k : Nat, k < smmu.num_mapping_groups ∧ fw1 = set_smendx fw i (k : Int) ∧
      fwspec_smendx fw i = INVALID_SMENDX ∧
      arm_smmu_find_sme smmu (fw.ids.getD i 0 % 2 ^ 16)
        ((fw.ids.getD i 0 >>> SMR_MASK_SHIFT) % 2 ^ 16) = (k : Int) ∧
      smmu1.num_mapping_groups = smmu.num_mapping_groups ∧
      refcount_ok smmu1 (fun j => if j = k then c k + 1 else c j) := by
  obtain ⟨h1, h2, l, h3, h4, h5⟩ := h
  obtain ⟨r, hr, hr0, hinv, hfw, f1, f2, f3⟩ := alloc_smes_entry_fields smmu smmu1 fw fw1 i hstep
  obtain ⟨k, hk, hkn, hkl⟩ := find_sme_result_lt smmu l _ _ h3 (hr ▸ hr0)
  rw [← hr] at hk
  obtain ⟨hck, hvk⟩ := h5 k hkn
  refine ⟨k, hkn, ?_, hinv, by rw [← hr]; exact hk, f1, ?_⟩
  · rw [hfw, hk, s16_cast_small k (by omega)]
  · unfold refcount_ok
    rw [f1, f2, f3, h3, hk, hck]
    by_cases hz : c k = 0
    · have hb : (c k : Int) = 0 := by omega
      simp only [hb, if_true]
      refine ⟨h1, by rw [arr_set_length]; exact h2, _, rfl,
        by rw [arr_set_length]; exact h4, ?_⟩
      intro j hj
      rw [arr_get_arr_set_nat _ _ _ _ (by omega), arr_get_arr_set_nat _ _ _ _ (by omega)]
      by_cases hjk : k = j
      · subst hjk
        simp only [if_true]
        refine ⟨by omega, ?_⟩
        simp
      · have hjk1 : ¬ j = k := fun hc => hjk hc.symm
        simp only [hjk, hjk1, if_false]
        exact h5 j hj
    · have hb : ¬ (c k : Int) = 0 := by omega
      simp only [hb, if_false]
      refine ⟨h1, by rw [arr_set_length]; exact h2, l, rfl, h4, ?_⟩
      intro j hj
      rw [arr_get_arr_set_nat _ _ _ _ (by omega)]
      by_cases hjk : k = j
      · subst hjk
        simp only [if_true]
        refine ⟨by push_cast; omega, ?_⟩
        constructor
        · intro _; omega
        · intro _; exact hvk.mpr (by omega)
      · have hjk1 : ¬ j = k := fun hc => hjk hc.symm
        simp only [hjk, hjk1, if_false]
        exact h5 j hj

theorem smendx_count_set (sx : List Int) (i : Nat) (v : Int) (k : Nat) (hi : i < sx.length) :
    (sx.set i v).count (k : Int) =
      sx.count (k : Int) - (if sx.getD i 0 = (k : Int) then 1 else 0) +
        (if v = (k : Int) then 1 else 0) := by
  rw [List.count_set _ _ _ _ hi]
  have hget : sx.getD i 0 = sx[i] := by
    simp [List.getD_eq_getElem?_getD, List.getElem?_eq_getElem hi]
  rw [hget]
  simp only [beq_iff_eq]

theorem smendx_count_pos (sx : List Int) (i : Nat) (k : Nat) (hi : i < sx.length)
    (hk : sx.getD i 0 = (k : Int)) : 0 < sx.count (k : Int) := by
  rw [List.count_pos_iff]
  apply List.getElem?_mem (n := i)
  rw [List.getElem?_eq_getElem hi]
  have hget : sx.getD i 0 = sx[i] := by
    simp [List.getD_eq_getElem?_getD, List.getElem?_eq_getElem hi]
  rw [← hget, hk]

theorem smendx_count_zero (sx : List Int) (k : Nat)
    (h : ∀ j, j < sx.length → sx[j]? = some INVALID_SMENDX) : sx.count (k : Int) = 0 := by
  rw [List.count_eq_zero]
  intro hmem
  obtain ⟨j, hj⟩ := List.mem_iff_getElem?.mp hmem
  have hlt : j < sx.length := by
    by_contra hc
    rw [List.getElem?_eq_none (by omega)] at hj
    cases hj
  rw [h j hlt] at hj
  injection hj with hj
  unfold INVALID_SMENDX at hj
  omega

theorem set_smendx_fields (fw : iommu_fwspec) (i : Nat) (v : Int) :
    (set_smendx fw i v).ids = fw.ids ∧
    (set_smendx fw i v).iommu_priv.smendx = fw.iommu_priv.smendx.set i v :=
  ⟨rfl, rfl⟩

theorem smendx_wf_set (n : Nat) (fw : iommu_fwspec) (i : Nat) (v : Int)
    (hv : v = INVALID_SMENDX ∨ (0 ≤ v ∧ v < (n : Int))) (h : smendx_wf n fw) :
    smendx_wf n (set_smendx fw i v) := by
  obtain ⟨h1, h2⟩ := h
  refine ⟨by simp [set_smendx, h1], ?_⟩
  intro x hx
  rcases List.mem_or_eq_of_mem_set hx with hm | he
  · exact h2 x hm
  · rw [he]; exact hv

/-- One release step, as both the unwinding loop and `arm_smmu_master_free_smes` do it:
slot `smendx[i]` is released and `smendx[i]` becomes `INVALID_SMENDX`. -/
theorem free_step_refcount (db : Bool) (smmu : arm_smmu_device) (fw : iommu_fwspec)
    (c0 : Nat → Nat) (i : Nat) (hi : i < fw.iommu_priv.smendx.length)
    (hwf : smendx_wf smmu.num_mapping_groups fw)
    (h : refcount_ok smmu (fun k => c0 k + fw.iommu_priv.smendx.count (k : Int))) :
    refcount_ok (arm_smmu_free_sme db smmu (fw.iommu_priv.smendx.getD i 0)).2
      (fun k => c0 k + (set_smendx fw i INVALID_SMENDX).iommu_priv.smendx.count (k : Int)) ∧
    (arm_smmu_free_sme db smmu (fw.iommu_priv.smendx.getD i 0)).2.num_mapping_groups =
      smmu.num_mapping_groups := by
  refine ⟨?_, (free_sme_fields db smmu _).1⟩
  have hmem : fw.iommu_priv.smendx.getD i 0 ∈ fw.iommu_priv.smendx := by
    apply List.getElem?_mem (n := i)
    simp [List.getD_eq_getElem?_getD, List.getElem?_eq_getElem hi]
  have hn := (free_sme_fields db smmu (fw.iommu_priv.smendx.getD i 0)).1
  rcases hwf.2 _ hmem with hinv | ⟨hx0, hxn⟩
  · apply refcount_ok_congr _ _ _ _
      (free_sme_neg db smmu _ _ (by rw [hinv]; decide) h)
    intro k _
    simp only [(set_smendx_fields fw i INVALID_SMENDX).2]
    rw [smendx_count_set _ _ _ _ hi]
    have h1 : ¬ fw.iommu_priv.smendx.getD i 0 = (k : Int) := by
      rw [hinv]; unfold INVALID_SMENDX; omega
    have h2 : ¬ INVALID_SMENDX = (k : Int) := by unfold INVALID_SMENDX; omega
    simp only [h1, h2, if_false]
    omega
  · obtain ⟨x, hx⟩ : ∃ x : Nat, fw.iommu_priv.smendx.getD i 0 = (x : Int) :=
      ⟨(fw.iommu_priv.smendx.getD i 0).toNat, by omega⟩
    rw [hx] at hxn ⊢
    have hpos := smendx_count_pos _ i x hi hx
    apply refcount_ok_congr _ _ _ _
      (free_sme_refcount db smmu _ x h (by omega) (by omega))
    intro k _
    simp only [(set_smendx_fields fw i INVALID_SMENDX).2]
    rw [smendx_count_set _ _ _ _ hi, hx]
    have h2 : ¬ INVALID_SMENDX = (k : Int) := by unfold INVALID_SMENDX; omega
    by_cases hkx : k = x
    · subst hkx
      simp only [if_true, h2, if_false]
      omega
    · have h3 : ¬ (x : Int) = (k : Int) := by omega
      simp only [hkx, h2, h3, if_false]
      omega

theorem alloc_smes_unwind_refcount (db : Bool) (c0 : Nat → Nat) : ∀ (i : Nat)
    (smmu : arm_smmu_device) (fw : iommu_fwspec),
    i ≤ fw.iommu_priv.smendx.length → smendx_wf smmu.num_mapping_groups fw →
    refcount_ok smmu (fun k => c0 k + fw.iommu_priv.smendx.count (k : Int)) →
    refcount_ok (alloc_smes_unwind db i smmu fw).1
      (fun k => c0 k + (alloc_smes_unwind db i smmu fw).2.iommu_priv.smendx.count (k : Int)) ∧
    (alloc_smes_unwind db i smmu fw).1.num_mapping_groups = smmu.num_mapping_groups ∧
    (alloc_smes_unwind db i smmu fw).2.ids = fw.ids ∧
    (alloc_smes_unwind db i smmu fw).2.iommu_priv.smendx.length =
      fw.iommu_priv.smendx.length ∧
    (∀ j, j < i → (alloc_smes_unwind db i smmu fw).2.iommu_priv.smendx[j]? =
      some INVALID_SMENDX) ∧
    (∀ j, i ≤ j → (alloc_smes_unwind db i smmu fw).2.iommu_priv.smendx[j]? =
      fw.iommu_priv.smendx[j]?) := by
  intro i
  induction i with
  | zero =>
    intro smmu fw _ _ h
    refine ⟨h, rfl, rfl, rfl, ?_, ?_⟩
    · intro j hj; omega
    · intro j _; rfl
  | succ i ih =>
    intro smmu fw hi hwf h
    simp only [alloc_smes_unwind]
    obtain ⟨hstep, hn⟩ := free_step_refcount db smmu fw c0 i (by omega) hwf h
    have hwf1 : smendx_wf (arm_smmu_free_sme db smmu
        (fw.iommu_priv.smendx.getD i 0)).2.num_mapping_groups
        (set_smendx fw i INVALID_SMENDX) := by
      rw [hn]
      exact smendx_wf_set _ fw i _ (Or.inl rfl) hwf
    have hlen : (set_smendx fw i INVALID_SMENDX).iommu_priv.smendx.length =
        fw.iommu_priv.smendx.length := by
      simp [set_smendx]
    obtain ⟨r1, r2, r3, r4, r5, r6⟩ := ih _ (set_smendx fw i INVALID_SMENDX)
      (by rw [hlen]; omega) hwf1 hstep
    refine ⟨r1, r2.trans hn, r3, r4.trans hlen, ?_, ?_⟩
    · intro j hj
      by_cases hji : j < i
      · exact r5 j hji
      · have hje : j = i := by omega
        rw [r6 j (by omega), hje]
        simp only [(set_smendx_fields fw i INVALID_SMENDX).2]
        rw [List.getElem?_set_self (by omega)]
    · intro j hj
      rw [r6 j (by omega)]
      simp only [(set_smendx_fields fw i INVALID_SMENDX).2]
      rw [List.getElem?_set_ne (by omega)]

theorem alloc_smes_loop_error (n i : Nat) (smmu : arm_smmu_device) (fw : iommu_fwspec)
    (ret : Int) (h : alloc_smes_entry smmu fw i = Except.error ret) :
    alloc_smes_loop (n + 1) i smmu fw = (some ret, i, smmu, fw) := by
  simp only [alloc_smes_loop, h]

theorem alloc_smes_loop_ok (n i : Nat) (smmu smmu1 : arm_smmu_device) (fw fw1 : iommu_fwspec)
    (h : alloc_smes_entry smmu fw i = Except.ok (smmu1, fw1)) :
    alloc_smes_loop (n + 1) i smmu fw = alloc_smes_loop n (i + 1) smmu1 fw1 := by
  simp only [alloc_smes_loop, h]

theorem alloc_smes_loop_refcount (c0 : Nat → Nat) : ∀ (n i : Nat) (smmu : arm_smmu_device)
    (fw : iommu_fwspec),
    fw.iommu_priv.smendx.length = i + n → smendx_wf smmu.num_mapping_groups fw →
    (∀ j, i ≤ j → j < i + n → fw.iommu_priv.smendx[j]? = some INVALID_SMENDX) →
    refcount_ok smmu (fun k => c0 k + fw.iommu_priv.smendx.count (k : Int)) →
    refcount_ok (alloc_smes_loop n i smmu fw).2.2.1
      (fun k => c0 k + (alloc_smes_loop n i smmu fw).2.2.2.iommu_priv.smendx.count (k : Int)) ∧
    (alloc_smes_loop n i smmu fw).2.2.1.num_mapping_groups = smmu.num_mapping_groups ∧
    smendx_wf smmu.num_mapping_groups (alloc_smes_loop n i smmu fw).2.2.2 ∧
    (alloc_smes_loop n i smmu fw).2.2.2.ids = fw.ids ∧
    (alloc_smes_loop n i smmu fw).2.1 ≤ i + n ∧
    (∀ j, (alloc_smes_loop n i smmu fw).2.1 ≤ j → j < i + n →
      (alloc_smes_loop n i smmu fw).2.2.2.iommu_priv.smendx[j]? = some INVALID_SMENDX) := by
  intro n
  induction n with
  | zero =>
    intro i smmu fw _ hwf hrest h
    exact ⟨h, rfl, hwf, rfl, Nat.le_refl _, hrest⟩
  | succ n ih =>
    intro i smmu fw hlen hwf hrest h
    cases hstep : alloc_smes_entry smmu fw i with
    | error ret =>
      rw [alloc_smes_loop_error n i smmu fw ret hstep]
      exact ⟨h, rfl, hwf, rfl, Nat.le_add_right i (n + 1), hrest⟩
    | ok r =>
      obtain ⟨smmu1, fw1⟩ := r
      rw [alloc_smes_loop_ok n i smmu smmu1 fw fw1 hstep]
      obtain ⟨k, hkn, hfw1, _, _, hn1, hrc⟩ :=
        alloc_smes_entry_refcount smmu smmu1 fw fw1 i _ h hstep
      have hi : i < fw.iommu_priv.smendx.length := by omega
      have hold : fw.iommu_priv.smendx.getD i 0 = INVALID_SMENDX := by
        simp [List.getD_eq_getElem?_getD, hrest i (Nat.le_refl _) (by omega)]
      have hwf1 : smendx_wf smmu1.num_mapping_groups fw1 := by
        rw [hn1, hfw1]
        exact smendx_wf_set _ fw i _ (Or.inr ⟨by omega, by omega⟩) hwf
      have hlen1 : fw1.iommu_priv.smendx.length = (i + 1) + n := by
        rw [hfw1]; simp [set_smendx]; omega
      have hrest1 : ∀ j, i + 1 ≤ j → j < (i + 1) + n →
          fw1.iommu_priv.smendx[j]? = some INVALID_SMENDX := by
        intro j hj1 hj2
        rw [hfw1]
        simp only [(set_smendx_fields fw i (k : Int)).2]
        rw [List.getElem?_set_ne (by omega)]
        exact hrest j (by omega) (by omega)
      have hrc1 : refcount_ok smmu1
          (fun j => c0 j + fw1.iommu_priv.smendx.count (j : Int)) := by
        apply refcount_ok_congr _ _ _ _ hrc
        intro j _
        rw [hfw1]
        simp only [(set_smendx_fields fw i (k : Int)).2]
        rw [smendx_count_set _ _ _ _ hi, hold]
        have h2 : ¬ INVALID_SMENDX = (j : Int) := by unfold INVALID_SMENDX; omega
        by_cases hjk : j = k
        · subst hjk
          simp only [if_true, h2, if_false]
          omega
        · have h3 : ¬ (k : Int) = (j : Int) := by omega
          simp only [hjk, h2, h3, if_false]
          omega
      obtain ⟨r1, r2, r3, r4, r5, r6⟩ := ih (i + 1) smmu1 fw1 hlen1 hwf1 hrest1 hrc1
      refine ⟨r1, r2.trans hn1, hn1 ▸ r3, ?_, by omega, ?_⟩
      · rw [r4, hfw1]; rfl
      · intro j hj1 hj2
        exact r6 j hj1 (by omega)

theorem master_free_smes_loop_refcount (db : Bool) (c0 : Nat → Nat) : ∀ (n i : Nat)
    (smmu : arm_smmu_device) (fw : iommu_fwspec),
    fw.iommu_priv.smendx.length = i + n → fw.ids.length = i + n →
    smendx_wf smmu.num_mapping_groups fw →
    (∀ j, j < i → fw.iommu_priv.smendx[j]? = some INVALID_SMENDX) →
    refcount_ok smmu (fun k => c0 k + fw.iommu_priv.smendx.count (k : Int)) →
    refcount_ok (master_free_smes_loop db n i smmu fw).1
      (fun k => c0 k +
        (master_free_smes_loop db n i smmu fw).2.iommu_priv.smendx.count (k : Int)) ∧
    (master_free_smes_loop db n i smmu fw).1.num_mapping_groups = smmu.num_mapping_groups ∧
    (master_free_smes_loop db n i smmu fw).2.iommu_priv.smendx.length = i + n ∧
    (∀ j, j < i + n →
      (master_free_smes_loop db n i smmu fw).2.iommu_priv.smendx[j]? =
        some INVALID_SMENDX) := by
  intro n
  induction n with
  | zero =>
    intro i smmu fw hlen _ _ hdone h
    exact ⟨h, rfl, hlen, hdone⟩
  | succ n ih =>
    intro i smmu fw hlen hids hwf hdone h
    simp only [master_free_smes_loop]
    have hidx : fwspec_smendx fw i = fw.iommu_priv.smendx.getD i 0 := by
      unfold fwspec_smendx iommu_fwspec.num_ids
      have : ¬ i ≥ fw.ids.length := by omega
      simp only [this, if_false]
    rw [hidx]
    obtain ⟨hstep, hn⟩ := free_step_refcount db smmu fw c0 i (by omega) hwf h
    have hwf1 : smendx_wf (arm_smmu_free_sme db smmu
        (fw.iommu_priv.smendx.getD i 0)).2.num_mapping_groups
        (set_smendx fw i INVALID_SMENDX) := by
      rw [hn]
      exact smendx_wf_set _ fw i _ (Or.inl rfl) hwf
    have hlen1 : (set_smendx fw i INVALID_SMENDX).iommu_priv.smendx.length = (i + 1) + n := by
      simp [set_smendx]; omega
    have hdone1 : ∀ j, j < i + 1 →
        (set_smendx fw i INVALID_SMENDX).iommu_priv.smendx[j]? = some INVALID_SMENDX := by
      intro j hj
      simp only [(set_smendx_fields fw i INVALID_SMENDX).2]
      by_cases hji : j = i
      · rw [hji, List.getElem?_set_self (by omega)]
      · rw [List.getElem?_set_ne (by omega)]
        exact hdone j (by omega)
    obtain ⟨r1, r2, r3, r4⟩ := ih (i + 1) _ (set_smendx fw i INVALID_SMENDX) hlen1
      (by rw [(set_smendx_fields fw i INVALID_SMENDX).1]; omega) hwf1 hdone1 hstep
    refine ⟨r1, r2.trans hn, by omega, ?_⟩
    intro j hj
    exact r4 j (by omega)

/-- A change of the routing entries that keeps every reference count keeps the
reference-count invariant. -/
theorem refcount_ok_of_counts (smmu smmu1 : arm_smmu_device) (c : Nat → Nat)
    (hn : smmu1.num_mapping_groups = smmu.num_mapping_groups)
    (hsm : smmu1.smrs = smmu.smrs) (hlen : smmu1.s2crs.length = smmu.s2crs.length)
    (hcnt : ∀ j : Nat, (arr_get smmu1.s2crs (j : Int)).count = (arr_get smmu.s2crs (j : Int)).count)
    (h : refcount_ok smmu c) : refcount_ok smmu1 c := by
  obtain ⟨h1, h2, l, h3, h4, h5⟩ := h
  unfold refcount_ok
  rw [hn, hsm, hlen]
  refine ⟨h1, h2, l, h3, h4, ?_⟩
  intro k hk
  rw [hcnt k]
  exact h5 k hk

theorem arr_set_keeps_count (s2crs : List arm_smmu_s2cr) (idx : Int) (v : arm_smmu_s2cr)
    (hv : v.count = (arr_get s2crs idx).count) (j : Nat) :
    (arr_get (arr_set s2crs idx v) (j : Int)).count = (arr_get s2crs (j : Int)).count := by
  by_cases hneg : idx < 0
  · rw [arr_set_neg _ _ _ hneg]
  · obtain ⟨k, hk⟩ : ∃ k : Nat, idx = (k : Int) := ⟨idx.toNat, by omega⟩
    subst hk
    by_cases hj : j < s2crs.length
    · rw [arr_get_arr_set_nat _ _ _ _ hj]
      by_cases hkj : k = j
      · subst hkj
        simp only [if_true]
        exact hv
      · simp only [hkj, if_false]
    · have h1 : arr_get (arr_set s2crs (k : Int) v) (j : Int) = default := by
        unfold arr_get
        have h0 : ¬ ((j : Int) < 0) := by omega
        simp only [h0, if_false, Int.toNat_ofNat, List.getD_eq_getElem?_getD]
        rw [List.getElem?_eq_none (by rw [arr_set_length]; omega)]
        rfl
      have h2 : arr_get s2crs (j : Int) = default := by
        unfold arr_get
        have h0 : ¬ ((j : Int) < 0) := by omega
        simp only [h0, if_false, Int.toNat_ofNat, List.getD_eq_getElem?_getD]
        rw [List.getElem?_eq_none (by omega)]
        rfl
      rw [h1, h2]

theorem alloc_smes_set_group_counts (group : Int) : ∀ (n i : Nat) (smmu : arm_smmu_device)
    (fw : iommu_fwspec),
    (alloc_smes_set_group group n i smmu fw).s2crs.length = smmu.s2crs.length ∧
    ∀ j : Nat, (arr_get (alloc_smes_set_group group n i smmu fw).s2crs (j : Int)).count =
      (arr_get smmu.s2crs (j : Int)).count := by
  intro n
  induction n with
  | zero =>
    intro i smmu fw
    exact ⟨rfl, fun _ => rfl⟩
  | succ n ih =>
    intro i smmu fw
    simp only [alloc_smes_set_group]
    obtain ⟨h1, h2⟩ := ih (i + 1) (set_s2cr smmu (fwspec_smendx fw i)
      { (arr_get smmu.s2crs (fwspec_smendx fw i)) with group := group }) fw
    refine ⟨h1.trans (arr_set_length _ _ _), ?_⟩
    intro j
    rw [h2 j]
    refine arr_set_keeps_count smmu.s2crs (fwspec_smendx fw i) _ ?_ j
    rfl

theorem domain_add_master_loop_counts (cbndx : Nat) (fw : iommu_fwspec) : ∀ (n i : Nat)
    (smmu : arm_smmu_device) (written : List Int),
    (domain_add_master_loop cbndx fw n i smmu written).1.s2crs.length = smmu.s2crs.length ∧
    ∀ j : Nat,
      (arr_get (domain_add_master_loop cbndx fw n i smmu written).1.s2crs (j : Int)).count =
        (arr_get smmu.s2crs (j : Int)).count := by
  intro n
  induction n with
  | zero =>
    intro i smmu written
    exact ⟨rfl, fun _ => rfl⟩
  | succ n ih =>
    intro i smmu written
    simp only [domain_add_master_loop]
    split
    · exact ih (i + 1) smmu written
    · rename_i hc
      obtain ⟨h1, h2⟩ := ih (i + 1) (set_s2cr smmu (fwspec_smendx fw i)
        { (arr_get smmu.s2crs (fwspec_smendx fw i)) with
          type := arm_smmu_s2cr_type.S2CR_TYPE_TRANS
          privcfg := arm_smmu_s2cr_privcfg.S2CR_PRIVCFG_DEFAULT
          cbndx := cbndx }) (written ++ [fwspec_smendx fw i])
      refine ⟨h1.trans (arr_set_length _ _ _), ?_⟩
      intro j
      rw [h2 j]
      refine arr_set_keeps_count smmu.s2crs (fwspec_smendx fw i) _ ?_ j
      rfl

theorem smendx_refs_nil (k : Nat) : smendx_refs [] k = 0 := rfl

theorem smendx_refs_append (ms : List iommu_fwspec) (fw : iommu_fwspec) (k : Nat) :
    smendx_refs (ms ++ [fw]) k = smendx_refs ms k + fw.iommu_priv.smendx.count (k : Int) := by
  simp [smendx_refs]

theorem smendx_refs_eraseIdx : ∀ (ms : List iommu_fwspec) (p : Nat) (fw : iommu_fwspec) (k : Nat),
    ms[p]? = some fw →
    smendx_refs ms k = smendx_refs (ms.eraseIdx p) k + fw.iommu_priv.smendx.count (k : Int) := by
  intro ms
  induction ms with
  | nil =>
    intro p fw k h
    simp at h
  | cons m ms ih =>
    intro p fw k h
    cases p with
    | zero =>
      simp at h
      subst h
      simp [smendx_refs]
      omega
    | succ p =>
      simp at h
      have := ih p fw k h
      simp only [smendx_refs, List.map_cons, List.sum_cons, List.eraseIdx_cons_succ] at this ⊢
      omega

theorem fresh_fwspec_all_invalid (ids : List Nat) (j : Nat) (hj : j < ids.length) :
    (fresh_fwspec ids).iommu_priv.smendx[j]? = some INVALID_SMENDX := by
  simp [fresh_fwspec, List.getElem?_replicate, hj]

theorem fresh_fwspec_wf (n : Nat) (ids : List Nat) : smendx_wf n (fresh_fwspec ids) := by
  refine ⟨by simp [fresh_fwspec], ?_⟩
  intro x hx
  left
  exact List.eq_of_mem_replicate hx

/-- Effect of `arm_smmu_master_alloc_smes` on the reference counts of a stream-matching
controller, for a master set up with every `smendx` invalid: afterwards the counts are
the old ones plus the references the master records, and a master whose call did not
return 0 records none. -/
theorem master_alloc_smes_refcount (db : Bool) (smmu : arm_smmu_device) (c0 : Nat → Nat)
    (ids : List Nat) (group_ptr : Int) (h : refcount_ok smmu c0) :
    (arm_smmu_master_alloc_smes db smmu (fresh_fwspec ids) group_ptr).2.1.num_mapping_groups =
      smmu.num_mapping_groups ∧
    smendx_wf smmu.num_mapping_groups
      (arm_smmu_master_alloc_smes db smmu (fresh_fwspec ids) group_ptr).2.2 ∧
    refcount_ok (arm_smmu_master_alloc_smes db smmu (fresh_fwspec ids) group_ptr).2.1
      (fun k => c0 k + (arm_smmu_master_alloc_smes db smmu (fresh_fwspec ids)
        group_ptr).2.2.iommu_priv.smendx.count (k : Int)) ∧
    ((arm_smmu_master_alloc_smes db smmu (fresh_fwspec ids) group_ptr).1 ≠ 0 →
      ∀ j, j < (arm_smmu_master_alloc_smes db smmu (fresh_fwspec ids)
          group_ptr).2.2.iommu_priv.smendx.length →
        (arm_smmu_master_alloc_smes db smmu (fresh_fwspec ids)
          group_ptr).2.2.iommu_priv.smendx[j]? = some INVALID_SMENDX) := by
  have hlen0 : (fresh_fwspec ids).iommu_priv.smendx.length = 0 + ids.length := by
    simp [fresh_fwspec]
  have h0 : refcount_ok smmu
      (fun k => c0 k + (fresh_fwspec ids).iommu_priv.smendx.count (k : Int)) := by
    apply refcount_ok_congr _ _ _ _ h
    intro k _
    rw [smendx_count_zero _ k (fun j hj => fresh_fwspec_all_invalid ids j (by omega))]
    rfl
  obtain ⟨l1, l2, l3, l4, l5, l6⟩ := alloc_smes_loop_refcount c0 ids.length 0 smmu
    (fresh_fwspec ids) hlen0 (fresh_fwspec_wf _ ids)
    (fun j _ hj => fresh_fwspec_all_invalid ids j (by omega)) h0
  have hunwind : ∀ (i : Nat) (smmu1 : arm_smmu_device) (fw1 : iommu_fwspec),
      refcount_ok smmu1 (fun k => c0 k + fw1.iommu_priv.smendx.count (k : Int)) →
      smmu1.num_mapping_groups = smmu.num_mapping_groups →
      smendx_wf smmu.num_mapping_groups fw1 →
      fw1.ids = (fresh_fwspec ids).ids →
      i ≤ 0 + ids.length →
      (∀ j, i ≤ j → j < 0 + ids.length → fw1.iommu_priv.smendx[j]? = some INVALID_SMENDX) →
      (alloc_smes_unwind db i smmu1 fw1).1.num_mapping_groups = smmu.num_mapping_groups ∧
      smendx_wf smmu.num_mapping_groups (alloc_smes_unwind db i smmu1 fw1).2 ∧
      refcount_ok (alloc_smes_unwind db i smmu1 fw1).1
        (fun k => c0 k +
          (alloc_smes_unwind db i smmu1 fw1).2.iommu_priv.smendx.count (k : Int)) ∧
      (∀ j, j < (alloc_smes_unwind db i smmu1 fw1).2.iommu_priv.smendx.length →
        (alloc_smes_unwind db i smmu1 fw1).2.iommu_priv.smendx[j]? = some INVALID_SMENDX) := by
    intro i smmu1 fw1 hrc hn hwf hids hi hrest
    have hidl : fw1.ids.length = ids.length := by rw [hids]; rfl
    have hlen1 : fw1.iommu_priv.smendx.length = ids.length := by rw [hwf.1, hidl]
    obtain ⟨u1, u2, u3, u4, u5, u6⟩ := alloc_smes_unwind_refcount db c0 i smmu1 fw1
      (by omega) (hn ▸ hwf) hrc
    have hall : ∀ j, j < (alloc_smes_unwind db i smmu1 fw1).2.iommu_priv.smendx.length →
        (alloc_smes_unwind db i smmu1 fw1).2.iommu_priv.smendx[j]? = some INVALID_SMENDX := by
      intro j hj
      by_cases hji : j < i
      · exact u5 j hji
      · rw [u6 j (by omega)]
        exact hrest j (by omega) (by omega)
    refine ⟨u2.trans hn, ⟨by rw [u4, u3]; exact hwf.1, ?_⟩, u1, hall⟩
    intro x hx
    left
    obtain ⟨j, hj⟩ := List.mem_iff_getElem?.mp hx
    have hjl : j < (alloc_smes_unwind db i smmu1 fw1).2.iommu_priv.smendx.length := by
      by_contra hc
      rw [List.getElem?_eq_none (by omega)] at hj
      cases hj
    rw [hall j hjl] at hj
    injection hj with hj
    exact hj.symm
  unfold arm_smmu_master_alloc_smes
  have hnum : (fresh_fwspec ids).num_ids = ids.length := by
    simp [iommu_fwspec.num_ids, fresh_fwspec]
  rw [hnum]
  rcases hres : alloc_smes_loop ids.length 0 smmu (fresh_fwspec ids) with ⟨ret, i, smmu1, fw1⟩
  rw [hres] at l1 l2 l3 l4 l5 l6
  simp only at l1 l2 l3 l4 l5 l6
  cases ret with
  | some r =>
    simp only
    obtain ⟨v1, v2, v3, v4⟩ := hunwind i smmu1 fw1 l1 l2 l3 l4 l5 l6
    exact ⟨v1, v2, v3, fun _ => v4⟩
  | none =>
    simp only
    generalize (if group_ptr == 0 then -ENOMEM else group_ptr) = group
    by_cases hg : IS_ERR group = true
    · simp only [hg, if_true]
      obtain ⟨v1, v2, v3, v4⟩ := hunwind i smmu1 fw1 l1 l2 l3 l4 l5 l6
      exact ⟨v1, v2, v3, fun _ => v4⟩
    · have hg1 : IS_ERR group = false := by simpa using hg
      simp only [hg1, Bool.false_eq_true, if_false]
      obtain ⟨g1, g2⟩ := alloc_smes_set_group_smrs group fw1.num_ids 0 smmu1 fw1
      obtain ⟨g3, g4⟩ := alloc_smes_set_group_counts group fw1.num_ids 0 smmu1 fw1
      refine ⟨g2.trans l2, l3, ?_, fun hne => absurd rfl hne⟩
      exact refcount_ok_of_counts smmu1 _ _ g2 g1 g3 g4 l1

/-- Effect of `arm_smmu_master_free_smes` on the reference counts of a stream-matching
controller: the references the master recorded are taken away. -/
theorem master_free_smes_refcount (db : Bool) (smmu : arm_smmu_device) (c0 : Nat → Nat)
    (fw : iommu_fwspec) (hwf : smendx_wf smmu.num_mapping_groups fw)
    (h : refcount_ok smmu (fun k => c0 k + fw.iommu_priv.smendx.count (k : Int))) :
    (arm_smmu_master_free_smes db smmu fw).1.num_mapping_groups = smmu.num_mapping_groups ∧
    refcount_ok (arm_smmu_master_free_smes db smmu fw).1 c0 := by
  unfold arm_smmu_master_free_smes iommu_fwspec.num_ids
  obtain ⟨r1, r2, r3, r4⟩ := master_free_smes_loop_refcount db c0 fw.ids.length 0 smmu fw
    (by rw [hwf.1]; omega) (by omega) hwf (fun j hj => by omega) h
  refine ⟨r2, ?_⟩
  apply refcount_ok_congr _ _ _ _ r1
  intro k _
  rw [smendx_count_zero _ k (fun j hj => r4 j (by omega))]
  rfl

theorem domain_add_master_refcount (cbndx : Nat) (smmu : arm_smmu_device) (c : Nat → Nat)
    (fw : iommu_fwspec) (h : refcount_ok smmu c) :
    (arm_smmu_domain_add_master cbndx smmu fw).1.num_mapping_groups =
      smmu.num_mapping_groups ∧
    refcount_ok (arm_smmu_domain_add_master cbndx smmu fw).1 c := by
  unfold arm_smmu_domain_add_master
  obtain ⟨g1, g2⟩ := domain_add_master_loop_smrs cbndx fw fw.num_ids 0 smmu []
  obtain ⟨g3, g4⟩ := domain_add_master_loop_counts cbndx fw fw.num_ids 0 smmu []
  exact ⟨g2, refcount_ok_of_counts smmu _ _ g2 g1 g3 g4 h⟩

theorem sme_step_refs_inv (db : Bool) (st : sme_state) (op : sme_op) (h : refs_inv st) :
    refs_inv (sme_step db st op) ∧
    (sme_step db st op).smmu.num_mapping_groups = st.smmu.num_mapping_groups := by
  obtain ⟨hrc, hwf⟩ := h
  cases op with
  | add_device ids group_ptr =>
    obtain ⟨a1, a2, a3, a4⟩ := master_alloc_smes_refcount db st.smmu _ ids group_ptr hrc
    simp only [sme_step]
    by_cases hret : (arm_smmu_master_alloc_smes db st.smmu (fresh_fwspec ids) group_ptr).1 = 0
    · simp only [hret, if_true]
      refine ⟨⟨?_, ?_⟩, a1⟩
      · apply refcount_ok_congr _ _ _ _ a3
        intro k _
        rw [smendx_refs_append]
      · intro fw hfw
        simp only [a1]
        rcases List.mem_append.mp hfw with hm | hm
        · exact hwf fw hm
        · rw [List.mem_singleton.mp hm]; exact a2
    · simp only [hret, if_false]
      refine ⟨⟨?_, ?_⟩, a1⟩
      · apply refcount_ok_congr _ _ _ _ a3
        intro k _
        rw [smendx_count_zero _ k (fun j hj => a4 hret j hj)]
        rfl
      · intro fw hfw
        simp only [a1]
        exact hwf fw hfw
  | remove_device p =>
    simp only [sme_step]
    cases hget : st.masters.get? p with
    | none => exact ⟨⟨hrc, hwf⟩, rfl⟩
    | some fw =>
      simp only
      have hget1 : st.masters[p]? = some fw := by simpa using hget
      have hmem : fw ∈ st.masters := List.getElem?_mem hget1
      have hrc1 : refcount_ok st.smmu (fun k => smendx_refs (st.masters.eraseIdx p) k +
          fw.iommu_priv.smendx.count (k : Int)) := by
        apply refcount_ok_congr _ _ _ _ hrc
        intro k _
        exact smendx_refs_eraseIdx st.masters p fw k hget1
      obtain ⟨f1, f2⟩ := master_free_smes_refcount db st.smmu _ fw (hwf fw hmem) hrc1
      refine ⟨⟨f2, ?_⟩, f1⟩
      intro fw1 hfw1
      simp only [f1]
      exact hwf fw1 (List.mem_of_mem_eraseIdx hfw1)
  | attach_dev p cbndx =>
    simp only [sme_step]
    cases hget : st.masters.get? p with
    | none => exact ⟨⟨hrc, hwf⟩, rfl⟩
    | some fw =>
      simp only
      obtain ⟨d1, d2⟩ := domain_add_master_refcount cbndx st.smmu _ fw hrc
      refine ⟨⟨d2, ?_⟩, d1⟩
      intro fw1 hfw1
      simp only [d1]
      exact hwf fw1 hfw1

theorem sme_run_refs_inv (db : Bool) : ∀ (ops : List sme_op) (st : sme_state),
    refs_inv st → refs_inv (sme_run db st ops) ∧
      (sme_run db st ops).smmu.num_mapping_groups = st.smmu.num_mapping_groups := by
  intro ops
  induction ops with
  | nil =>
    intro st h
    exact ⟨h, rfl⟩
  | cons op ops ih =>
    intro st h
    obtain ⟨s1, s2⟩ := sme_step_refs_inv db st op h
    obtain ⟨r1, r2⟩ := ih (sme_step db st op) s1
    exact ⟨r1, r2.trans s2⟩

/-! ## Choice of a free slot -/

theorem find_sme_loop_no_match_noted (id mask : Nat) : ∀ (l : List arm_smmu_smr) (i0 : Nat)
    (free_idx : Int),
    (∀ e ∈ l, e.valid = true → ¬ sme_reuse id mask e ∧ ¬ sme_conflict id mask e) →
    (0 ≤ free_idx ∨ ∀ e ∈ l, e.valid = true) →
    find_sme_loop id mask l i0 free_idx = free_idx := by
  intro l
  induction l with
  | nil =>
    intro i0 free_idx _ _
    rfl
  | cons e rest ih =>
    intro i0 free_idx hno hcase
    have hno1 : ∀ e1 ∈ rest, e1.valid = true →
        ¬ sme_reuse id mask e1 ∧ ¬ sme_conflict id mask e1 :=
      fun e1 he1 => hno e1 (List.mem_cons_of_mem _ he1)
    cases hv : e.valid with
    | false =>
      rw [find_sme_loop_cons_invalid id mask e rest i0 free_idx hv]
      rcases hcase with hf | hall
      · have hnot : ¬ free_idx < 0 := by omega
        simp only [hnot, if_false]
        exact ih (i0 + 1) free_idx hno1 (Or.inl hf)
      · have := hall e (List.mem_cons_self _ _)
        rw [hv] at this
        cases this
    | true =>
      rw [find_sme_loop_cons_valid id mask e rest i0 free_idx hv]
      obtain ⟨h1, h2⟩ := hno e (List.mem_cons_self _ _) hv
      simp only [h1, h2, if_false]
      apply ih (i0 + 1) free_idx hno1
      rcases hcase with hf | hall
      · exact Or.inl hf
      · exact Or.inr (fun e1 he1 => hall e1 (List.mem_cons_of_mem _ he1))

theorem find_sme_loop_no_match_first (id mask : Nat) : ∀ (l : List arm_smmu_smr) (i0 : Nat)
    (free_idx : Int) (k : Nat) (e : arm_smmu_smr),
    (∀ e1 ∈ l, e1.valid = true → ¬ sme_reuse id mask e1 ∧ ¬ sme_conflict id mask e1) →
    free_idx < 0 → l[k]? = some e → e.valid = false →
    (∀ (j : Nat) (ej : arm_smmu_smr), j < k → l[j]? = some ej → ej.valid = true) →
    find_sme_loop id mask l i0 free_idx = ((i0 + k : Nat) : Int) := by
  intro l
  induction l with
  | nil =>
    intro i0 free_idx k e _ _ hk _ _
    simp at hk
  | cons e0 rest ih =>
    intro i0 free_idx k e hno hf hk hv hfirst
    have hno1 : ∀ e1 ∈ rest, e1.valid = true →
        ¬ sme_reuse id mask e1 ∧ ¬ sme_conflict id mask e1 :=
      fun e1 he1 => hno e1 (List.mem_cons_of_mem _ he1)
    cases k with
    | zero =>
      simp at hk
      subst hk
      rw [find_sme_loop_cons_invalid id mask e0 rest i0 free_idx hv]
      simp only [hf, if_true]
      rw [find_sme_loop_no_match_noted id mask rest (i0 + 1) (i0 : Int) hno1 (Or.inl (by omega))]
      simp
    | succ k =>
      have hv0 : e0.valid = true := hfirst 0 e0 (by omega) (by simp)
      rw [find_sme_loop_cons_valid id mask e0 rest i0 free_idx hv0]
      obtain ⟨h1, h2⟩ := hno e0 (List.mem_cons_self _ _) hv0
      simp only [h1, h2, if_false]
      rw [ih (i0 + 1) free_idx k e hno1 hf (by simpa using hk) hv
        (fun j ej hj hget => hfirst (j + 1) ej (by omega) (by simpa using hget))]
      congr 1
      omega

theorem alloc_smes_entry_succeeds (smmu : arm_smmu_device) (fw : iommu_fwspec) (i : Nat)
    (hinv : fwspec_smendx fw i = INVALID_SMENDX)
    (hr : 0 ≤ arm_smmu_find_sme smmu (fw.ids.getD i 0 % 2 ^ 16)
      ((fw.ids.getD i 0 >>> SMR_MASK_SHIFT) % 2 ^ 16)) :
    ∃ smmu1 fw1, alloc_smes_entry smmu fw i = Except.ok (smmu1, fw1) := by
  unfold alloc_smes_entry
  have h1 : ¬ (arm_smmu_find_sme smmu (fw.ids.getD i 0 % 2 ^ 16)
      ((fw.ids.getD i 0 >>> SMR_MASK_SHIFT) % 2 ^ 16) < 0) := by omega
  simp only [hinv, bne_self_eq_false, Bool.false_eq_true, if_false, h1]
  exact ⟨_, _, rfl⟩

theorem probed_sme_ok (db : Bool) (smmu : arm_smmu_device)
    (h : probed_stream_matching db smmu) : sme_ok smmu := by
  obtain ⟨_, hsm, _⟩ := h
  refine ⟨_, hsm, ?_, ?_⟩
  · intro i e hget hv
    rw [List.eq_of_mem_replicate (List.getElem?_mem hget)] at hv
    cases hv
  · intro i j ei ej _ hget _ hv
    rw [List.eq_of_mem_replicate (List.getElem?_mem hget)] at hv
    cases hv

theorem arr_get_replicate {α : Type} [Inhabited α] (n k : Nat) (v : α) (hk : k < n) :
    arr_get (List.replicate n v) (k : Int) = v := by
  apply arr_get_of_getElem?
  simp [List.getElem?_replicate, hk]

theorem probed_refs_inv (db : Bool) (smmu : arm_smmu_device)
    (h : probed_stream_matching db smmu) : refs_inv { smmu := smmu, masters := [] } := by
  obtain ⟨hn, hsm, hs2⟩ := h
  refine ⟨⟨hn, by rw [hs2]; simp, _, hsm, by simp, ?_⟩, ?_⟩
  · intro k hk
    simp only [hs2]
    rw [arr_get_replicate _ _ _ hk, arr_get_replicate _ _ _ hk]
    simp [smendx_refs, s2cr_init_val]
  · intro fw hfw
    cases hfw

/-- C10. Free-slot selection in every state a probed stream-matching controller can
reach. When no valid entry contains the new 16-bit pattern and none intersects it,
`arm_smmu_find_sme` returns `-ENOSPC` if every entry is valid, and otherwise the
lowest index `i` (below `num_mapping_groups`) whose entry is invalid; the iteration of
`arm_smmu_master_alloc_smes` for an identifier with that pattern then succeeds and
leaves exactly `(id, mask, valid = true)` in entry `i`, every other entry as before. -/
theorem find_sme_free_slot (db : Bool) (smmu0 : arm_smmu_device) (ops : List sme_op)
    (l : List arm_smmu_smr) (id mask : Nat)
    (hprobe : probed_stream_matching db smmu0)
    (hl : (sme_run db { smmu := smmu0, masters := [] } ops).smmu.smrs = some l)
    (hid : id < 2 ^ 16) (hmask : mask < 2 ^ 16)
    (hno : ∀ e ∈ l, e.valid = true →
      ¬ (∀ s, s < 2 ^ 16 → sid_matches s id mask → sid_matches s e.id e.mask) ∧
      ¬ (∃ s, s < 2 ^ 16 ∧ sid_matches s id mask ∧ sid_matches s e.id e.mask)) :
    ((∀ e ∈ l, e.valid = true) →
      arm_smmu_find_sme (sme_run db { smmu := smmu0, masters := [] } ops).smmu id mask =
        -ENOSPC) ∧
    (∀ (i : Nat) (e : arm_smmu_smr), l[i]? = some e → e.valid = false →
      (∀ (j : Nat) (ej : arm_smmu_smr), j < i → l[j]? = some ej → ej.valid = true) →
      arm_smmu_find_sme (sme_run db { smmu := smmu0, masters := [] } ops).smmu id mask =
        (i : Int) ∧
      i < smmu0.num_mapping_groups ∧
      ∀ (fw : iommu_fwspec) (p : Nat), fwspec_smendx fw p = INVALID_SMENDX →
        fw.ids.getD p 0 % 2 ^ 16 = id → (fw.ids.getD p 0 >>> SMR_MASK_SHIFT) % 2 ^ 16 = mask →
        ∃ smmu1 fw1 l1,
          alloc_smes_entry (sme_run db { smmu := smmu0, masters := [] } ops).smmu fw p =
            Except.ok (smmu1, fw1) ∧
          smmu1.smrs = some l1 ∧
          l1[i]? = some { mask := mask, id := id, valid := true } ∧
          ∀ j : Nat, j ≠ i → l1[j]? = l[j]?) := by
  obtain ⟨l2, hl2, hok⟩ := sme_run_sme_ok db ops { smmu := smmu0, masters := [] }
    (probed_sme_ok db smmu0 hprobe)
  obtain ⟨⟨hrc, _⟩, hnum⟩ := sme_run_refs_inv db ops { smmu := smmu0, masters := [] }
    (probed_refs_inv db smmu0 hprobe)
  generalize sme_run db { smmu := smmu0, masters := [] } ops = st at hl hl2 hok hrc hnum ⊢
  simp only at hnum
  rw [hl] at hl2
  injection hl2 with hl2
  subst hl2
  obtain ⟨_, hs2len, l3, hl3, hlen, hcnt⟩ := hrc
  rw [hl] at hl3
  injection hl3 with hl3
  subst hl3
  have hfind : arm_smmu_find_sme st.smmu id mask =
      find_sme_loop id mask (l.take st.smmu.num_mapping_groups) 0 (-ENOSPC) := by
    simp [arm_smmu_find_sme, hl]
  have htake : l.take st.smmu.num_mapping_groups = l := by
    rw [← hlen]; exact List.take_length l
  rw [htake] at hfind
  have hno1 : ∀ e ∈ l, e.valid = true → ¬ sme_reuse id mask e ∧ ¬ sme_conflict id mask e := by
    intro e he hv
    obtain ⟨j, hj⟩ := List.mem_iff_getElem?.mp he
    have heid := (hok.1 j e hj hv).2
    obtain ⟨n1, n2⟩ := hno e he hv
    constructor
    · intro hre
      exact n1 ((reuse_cond_iff id mask e.id e.mask hid hmask heid).mp hre)
    · intro hco
      exact n2 ((conflict_cond_iff id mask e.id e.mask hid heid).mp hco)
  constructor
  · intro hfull
    rw [hfind]
    exact find_sme_loop_no_match_noted id mask l 0 (-ENOSPC) hno1 (Or.inr hfull)
  · intro i e hi hv hfirst
    have hil : i < l.length := by
      by_contra hc
      rw [List.getElem?_eq_none (by omega)] at hi
      cases hi
    have hres : arm_smmu_find_sme st.smmu id mask = (i : Int) := by
      rw [hfind, find_sme_loop_no_match_first id mask l 0 (-ENOSPC) i e hno1
        (by unfold ENOSPC; omega) hi hv hfirst]
      simp
    refine ⟨hres, by omega, ?_⟩
    intro fw p hinv hsid hmk
    obtain ⟨hci, hvi⟩ := hcnt i (by omega)
    rw [arr_get_of_getElem? l i e hi, hv] at hvi
    have hzero : (arr_get st.smmu.s2crs (i : Int)).count = 0 := by
      rw [hci]
      have : ¬ 0 < smendx_refs st.masters i := fun hc => by
        have := hvi.mpr hc
        cases this
      omega
    obtain ⟨smmu1, fw1, hstep⟩ := alloc_smes_entry_succeeds st.smmu fw p hinv
      (by rw [hsid, hmk, hres]; omega)
    obtain ⟨r, hr, _, _, _, _, f2, _⟩ := alloc_smes_entry_fields st.smmu smmu1 fw fw1 p hstep
    rw [hsid, hmk, hres] at hr
    rw [hr, hl, hsid, hmk] at f2
    simp only [hzero, if_true] at f2
    refine ⟨smmu1, fw1, arr_set l (i : Int) { mask := mask, id := id, valid := true },
      hstep, f2, ?_, ?_⟩
    · rw [getElem?_arr_set_nat]
      simp [hil]
    · intro j hj
      rw [getElem?_arr_set_nat]
      have : ¬ (i = j ∧ j < l.length) := fun hc => hj hc.1.symm
      simp only [this, if_false]

theorem find_sme_free_slot_witness :
    arm_smmu_find_sme (sme_run false { smmu := sample_smmu 4, masters := [] }
        [sme_op.add_device [0x10] 5]).smmu 0x20 0 = ((1 : Nat) : Int) ∧
    ∃ smmu1 fw1 l1,
      alloc_smes_entry (sme_run false { smmu := sample_smmu 4, masters := [] }
          [sme_op.add_device [0x10] 5]).smmu (fresh_fwspec [0x20]) 0 =
        Except.ok (smmu1, fw1) ∧
      smmu1.smrs = some l1 ∧
      l1[1]? = some { mask := 0, id := 0x20, valid := true } ∧
      ∀ j : Nat, j ≠ 1 → l1[j]? =
        [{ mask := 0, id := 0x10, valid := true }, { mask := 0, id := 0, valid := false },
         { mask := 0, id := 0, valid := false },
         ({ mask := 0, id := 0, valid := false } : arm_smmu_smr)][j]? :=
  have h := (find_sme_free_slot false (sample_smmu 4) [sme_op.add_device [0x10] 5]
    [{ mask := 0, id := 0x10, valid := true }, { mask := 0, id := 0, valid := false },
     { mask := 0, id := 0, valid := false }, { mask := 0, id := 0, valid := false }]
    0x20 0 ⟨by decide, rfl, rfl⟩ (by decide) (by decide) (by decide)
    (fun e he hv => by
      have he0 : e = { mask := 0, id := 0x10, valid := true } := by
        simp only [List.mem_cons, List.mem_singleton] at he
        rcases he with h | h | h | h
        · exact h
        · rw [h] at hv; cases hv
        · rw [h] at hv; cases hv
        · rcases h with h | h
          · rw [h] at hv; cases hv
          · cases h
      subst he0
      constructor
      · intro hc
        exact absurd ((reuse_cond_iff 0x20 0 0x10 0 (by decide) (by decide) (by decide)).mpr hc)
          (by decide)
      · intro hc
        exact absurd ((conflict_cond_iff 0x20 0 0x10 0 (by decide) (by decide)).mpr hc)
          (by decide))).2 1 { mask := 0, id := 0, valid := false } rfl rfl
    (fun j ej hj hget => by
      have hj0 : j = 0 := by omega
      subst hj0
      simp at hget
      rw [← hget])
  ⟨h.1, h.2.2 (fresh_fwspec [0x20]) 0 (by decide) (by decide) (by decide)⟩

/-! ## Stream indexing with extended stream IDs -/

/-- On a stream-indexing controller the allocation for the single identifier `0xffff`
takes a reference on slot 65535 and records `(s16)65535 = -1` for it; neither the
unwinding loop nor the loop that records the group then reaches slot 65535. -/
theorem direct_alloc_0xffff (db : Bool) (smmu : arm_smmu_device) (group_ptr : Int)
    (hsm : smmu.smrs = none) :
    (arm_smmu_master_alloc_smes db smmu (fresh_fwspec [0xffff]) group_ptr).1 =
      (if IS_ERR (if group_ptr == 0 then -ENOMEM else group_ptr) then
        (if group_ptr == 0 then -ENOMEM else group_ptr) else 0) ∧
    (arm_smmu_master_alloc_smes db smmu (fresh_fwspec [0xffff]) group_ptr).2.1.s2crs =
      arr_set smmu.s2crs ((65535 : Nat) : Int)
        { (arr_get smmu.s2crs ((65535 : Nat) : Int)) with
          count := (arr_get smmu.s2crs ((65535 : Nat) : Int)).count + 1 } ∧
    (arm_smmu_master_alloc_smes db smmu (fresh_fwspec [0xffff]) group_ptr).2.2 =
      { ids := [0xffff], iommu_priv := { smendx := [INVALID_SMENDX] } } := by
  have hfind : arm_smmu_find_sme smmu (0xffff % 2 ^ 16) ((0xffff >>> SMR_MASK_SHIFT) % 2 ^ 16) =
      ((65535 : Nat) : Int) := by
    simp [arm_smmu_find_sme, hsm]
  have hentry : alloc_smes_entry smmu (fresh_fwspec [0xffff]) 0 =
      Except.ok ({ smmu with
          smrs := none
          s2crs := arr_set smmu.s2crs ((65535 : Nat) : Int)
            { (arr_get smmu.s2crs ((65535 : Nat) : Int)) with
              count := (arr_get smmu.s2crs ((65535 : Nat) : Int)).count + 1 } },
        { ids := [0xffff], iommu_priv := { smendx := [INVALID_SMENDX] } }) := by
    unfold alloc_smes_entry
    have h1 : fwspec_smendx (fresh_fwspec [0xffff]) 0 = INVALID_SMENDX := by decide
    have h2 : (fresh_fwspec [0xffff]).ids.getD 0 0 = 0xffff := by decide
    simp only [h1, h2, hfind, hsm, bne_self_eq_false, Bool.false_eq_true, if_false]
    have h3 : ¬ (((65535 : Nat) : Int) < 0) := by omega
    simp only [h3, if_false]
    rfl
  have hloop : alloc_smes_loop (fresh_fwspec [0xffff]).num_ids 0 smmu (fresh_fwspec [0xffff]) =
      (none, 1, { smmu with
          smrs := none
          s2crs := arr_set smmu.s2crs ((65535 : Nat) : Int)
            { (arr_get smmu.s2crs ((65535 : Nat) : Int)) with
              count := (arr_get smmu.s2crs ((65535 : Nat) : Int)).count + 1 } },
        { ids := [0xffff], iommu_priv := { smendx := [INVALID_SMENDX] } }) := by
    have hn : (fresh_fwspec [0xffff]).num_ids = 0 + 1 := by decide
    rw [hn, alloc_smes_loop_ok 0 0 smmu _ _ _ hentry]
    rfl
  unfold arm_smmu_master_alloc_smes
  rw [hloop]
  simp only
  generalize (if group_ptr == 0 then -ENOMEM else group_ptr) = group
  by_cases hg : IS_ERR group = true
  · simp only [hg, if_true]
    refine ⟨trivial, ?_, ?_⟩
    · simp only [alloc_smes_unwind]
      have hidx : ([INVALID_SMENDX] : List Int).getD 0 0 = INVALID_SMENDX := by decide
      rw [hidx]
      obtain ⟨_, f2, _⟩ := free_sme_fields db
        { smmu with
          smrs := none
          s2crs := arr_set smmu.s2crs ((65535 : Nat) : Int)
            { (arr_get smmu.s2crs ((65535 : Nat) : Int)) with
              count := (arr_get smmu.s2crs ((65535 : Nat) : Int)).count + 1 } }
        INVALID_SMENDX
      rw [f2]
      have hneg : INVALID_SMENDX < 0 := by decide
      simp only [arr_set_neg _ _ _ hneg, ite_self]
    · simp only [alloc_smes_unwind]
      rfl
  · have hg1 : IS_ERR group = false := by simpa using hg
    simp only [hg1, Bool.false_eq_true, if_false]
    refine ⟨trivial, ?_, trivial⟩
    have hn : ({ ids := [0xffff], iommu_priv := { smendx := [INVALID_SMENDX] } } :
        iommu_fwspec).num_ids = 0 + 1 := by decide
    rw [hn]
    simp only [alloc_smes_set_group, set_s2cr]
    have hidx : fwspec_smendx { ids := [0xffff], iommu_priv := { smendx := [INVALID_SMENDX] } }
        0 = INVALID_SMENDX := by decide
    rw [hidx]
    have hneg : INVALID_SMENDX < 0 := by decide
    simp only [arr_set_neg _ _ _ hneg]

theorem sum_count_set : ∀ (l : List arm_smmu_s2cr) (k : Nat) (v : arm_smmu_s2cr),
    k < l.length →
    ((l.set k v).map fun s => s.count).sum =
      (l.map fun s => s.count).sum - (l.getD k default).count + v.count := by
  intro l
  induction l with
  | nil =>
    intro k v hk
    simp at hk
  | cons a l ih =>
    intro k v hk
    cases k with
    | zero =>
      simp only [List.set_cons_zero, List.map_cons, List.sum_cons, List.getD_cons_zero]
      omega
    | succ k =>
      have := ih k v (by simpa using hk)
      simp only [List.set_cons_succ, List.map_cons, List.sum_cons, List.getD_cons_succ] at this ⊢
      omega

theorem sum_count_replicate (n : Nat) (v : arm_smmu_s2cr) (hv : v.count = 0) :
    ((List.replicate n v).map fun s => s.count).sum = 0 := by
  induction n with
  | zero => rfl
  | succ n ih =>
    simp only [List.replicate_succ, List.map_cons, List.sum_cons, ih, hv]
    rfl

/-- The state after one master with the single stream ID `0xffff` was added to a
stream-indexing controller with `n > 65535` routing entries, all initial: the master
records `INVALID_SMENDX`, so no live reference is recorded, yet the reference counts
add up to 1. -/
theorem direct_add_0xffff_state (db : Bool) (smmu : arm_smmu_device) (n : Nat)
    (hn : 65535 < n) (hsm : smmu.smrs = none)
    (hs2 : smmu.s2crs = List.replicate n (s2cr_init_val db)) :
    (sme_run db { smmu := smmu, masters := [] } [sme_op.add_device [0xffff] 5]).masters =
      [{ ids := [0xffff], iommu_priv := { smendx := [INVALID_SMENDX] } }] ∧
    live_sme_refs (sme_run db { smmu := smmu, masters := [] }
      [sme_op.add_device [0xffff] 5]).masters = 0 ∧
    s2cr_count_sum (sme_run db { smmu := smmu, masters := [] }
      [sme_op.add_device [0xffff] 5]).smmu = 1 := by
  obtain ⟨h1, h2, h3⟩ := direct_alloc_0xffff db smmu 5 hsm
  have hret : (arm_smmu_master_alloc_smes db smmu (fresh_fwspec [0xffff]) 5).1 = 0 := by
    rw [h1]; decide
  have hrun : sme_run db { smmu := smmu, masters := [] } [sme_op.add_device [0xffff] 5] =
      { smmu := (arm_smmu_master_alloc_smes db smmu (fresh_fwspec [0xffff]) 5).2.1,
        masters := [(arm_smmu_master_alloc_smes db smmu (fresh_fwspec [0xffff]) 5).2.2] } := by
    simp only [sme_run, List.foldl, sme_step, hret, if_true, List.nil_append]
  rw [hrun]
  simp only [h3]
  refine ⟨trivial, by decide, ?_⟩
  unfold s2cr_count_sum
  rw [h2, hs2]
  have hset : arr_set (List.replicate n (s2cr_init_val db)) ((65535 : Nat) : Int)
      { (arr_get (List.replicate n (s2cr_init_val db)) ((65535 : Nat) : Int)) with
        count := (arr_get (List.replicate n (s2cr_init_val db)) ((65535 : Nat) : Int)).count + 1 } =
      (List.replicate n (s2cr_init_val db)).set 65535
        { (s2cr_init_val db) with count := 1 } := by
    rw [arr_get_replicate n 65535 _ hn]
    unfold arr_set
    have h0 : ¬ (((65535 : Nat) : Int) < 0) := by omega
    simp only [h0, if_false, Int.toNat_ofNat]
    rfl
  rw [hset, sum_count_set _ _ _ (by simp; omega), sum_count_replicate n _ rfl]
  have hget : ((List.replicate n (s2cr_init_val db)).getD 65535 default).count = 0 := by
    simp [List.getElem?_replicate, hn, s2cr_init_val]
  rw [hget]
  rfl

/-- C4. Refcount correctness fails on a stream-indexing controller with extended
stream IDs: after adding one master with the stream ID `0xffff` (accepted, since
`streamid_mask = 0xffff`) the master records `(s16)0xffff = INVALID_SMENDX`, so no
live pair references a slot, while the reference counts sum to 1. -/
theorem refcount_sum_exids_0xffff :
    0xffff &&& not32 sample_exids_smmu.streamid_mask = 0 ∧
    (sme_run false { smmu := sample_exids_smmu, masters := [] }
      [sme_op.add_device [0xffff] 5]).masters =
      [{ ids := [0xffff], iommu_priv := { smendx := [INVALID_SMENDX] } }] ∧
    live_sme_refs (sme_run false { smmu := sample_exids_smmu, masters := [] }
      [sme_op.add_device [0xffff] 5]).masters = 0 ∧
    s2cr_count_sum (sme_run false { smmu := sample_exids_smmu, masters := [] }
      [sme_op.add_device [0xffff] 5]).smmu = 1 :=
  ⟨by decide, direct_add_0xffff_state false sample_exids_smmu 65536 (by decide) rfl rfl⟩

/-- C5. Allocation rollback fails on a stream-indexing controller with extended stream
IDs: for a master with the single stream ID `0xffff` and all `smendx` invalid on entry,
a call that fails because no group is obtained (`iommu_group_get_for_dev` returns
`NULL`) returns `-ENOMEM` with `smendx` invalid again, but slot 65535, whose reference
count was 0 before the call, keeps reference count 1. -/
theorem alloc_rollback_exids_0xffff :
    (fresh_fwspec [0xffff]).iommu_priv.smendx = [INVALID_SMENDX] ∧
    (arr_get sample_exids_smmu.s2crs ((65535 : Nat) : Int)).count = 0 ∧
    (arm_smmu_master_alloc_smes false sample_exids_smmu (fresh_fwspec [0xffff]) 0).1 =
      -ENOMEM ∧
    (arm_smmu_master_alloc_smes false sample_exids_smmu
      (fresh_fwspec [0xffff]) 0).2.2.iommu_priv.smendx = [INVALID_SMENDX] ∧
    (arr_get (arm_smmu_master_alloc_smes false sample_exids_smmu
      (fresh_fwspec [0xffff]) 0).2.1.s2crs ((65535 : Nat) : Int)).count = 1 := by
  obtain ⟨h1, h2, h3⟩ := direct_alloc_0xffff false sample_exids_smmu 0 rfl
  have hget : arr_get sample_exids_smmu.s2crs ((65535 : Nat) : Int) = s2cr_init_val false :=
    arr_get_replicate 65536 65535 _ (by decide)
  refine ⟨rfl, by rw [hget]; rfl, by rw [h1]; decide, by rw [h3], ?_⟩
  rw [h2, arr_get_arr_set_nat _ _ _ _ (by
    show 65535 < (List.replicate 65536 (s2cr_init_val false)).length
    rw [List.length_replicate]; decide), hget]
  rfl

/-! ## Binding a domain -/

/-- C7. A bind that fails in `alloc_io_pgtable_ops` after the context bank was chosen:
on the sample controller (banks 0 and 1 free, bank 0 stage-2 only) a stage-1 bind whose
page-table allocation returns `NULL` ends with `-ENOMEM` and an unbound domain, but
bit 1 of `context_map` stays set. -/
theorem init_domain_context_pgtbl_failure_keeps_bank :
    (sample_smmu 4).context_map = 0 ∧
    ∃ r, arm_smmu_init_domain_context sample_kconfig 1
        (fresh_domain arm_smmu_domain_stage.ARM_SMMU_DOMAIN_S1) 0x1000 (sample_smmu 4)
        none 0 = some r ∧
      r.ret = -ENOMEM ∧ r.smmu_domain.smmu = none ∧ r.smmu.context_map = 2 ∧
      r.smmu.context_map.testBit 1 = true := by
  refine ⟨rfl, _, rfl, ?_, ?_, ?_, ?_⟩ <;> decide

/-- C6. After a single failed bind (page-table allocation returns `NULL`) on the
sample controller, started with an empty `context_map`, no domain is bound and yet
bit 1 of `context_map` is set. -/
theorem ctx_run_failed_bind_leaves_bit_set :
    (sample_smmu 4).context_map = 0 ∧
    ∃ st, ctx_run sample_kconfig 1 0x1000 { smmu := sample_smmu 4, bound := [] }
        [ctx_op.bind arm_smmu_domain_stage.ARM_SMMU_DOMAIN_S1 none 0] = some st ∧
      st.bound = [] ∧ st.smmu.context_map.testBit 1 = true := by
  refine ⟨rfl, _, rfl, ?_, ?_⟩ <;> decide

/-! ## Stage, format and bank selection of a bind -/

theorem neg_EINVAL_ne_zero : (-EINVAL : Int) ≠ 0 := by decide
theorem neg_ENOSPC_ne_zero : (-ENOSPC : Int) ≠ 0 := by decide
theorem neg_ENOMEM_ne_zero : (-ENOMEM : Int) ≠ 0 := by decide
theorem neg_ENOSPC_ne_EINVAL : (-ENOSPC : Int) ≠ -EINVAL := by decide
theorem neg_ENOMEM_ne_EINVAL : (-ENOMEM : Int) ≠ -EINVAL := by decide
theorem zero_ne_neg_EINVAL : (0 : Int) ≠ -EINVAL := by decide

theorem init_domain_context_unbound (kc : kconfig) (fuel : Nat) (d : arm_smmu_domain)
    (p : Nat) (smmu : arm_smmu_device) (pgtbl : Option (Nat × Nat)) (irq_ret : Int)
    (hu : d.smmu = none) :
    ∃ r, arm_smmu_init_domain_context kc (fuel + 1) d p smmu pgtbl irq_ret = some r ∧
      r.smmu_domain.stage = resolve_stage smmu.features d.stage ∧
      r.smmu_domain.cfg.fmt =
        resolve_fmt kc smmu.features (resolve_stage smmu.features d.stage) d.cfg.fmt ∧
      r.smmu.s2crs = smmu.s2crs ∧ r.smmu.smrs = smmu.smrs ∧
      (r.ret = -EINVAL ↔
        resolve_fmt kc smmu.features (resolve_stage smmu.features d.stage) d.cfg.fmt =
          arm_smmu_context_fmt.ARM_SMMU_CTX_FMT_NONE) ∧
      (r.ret = 0 → r.smmu_domain.smmu = some p ∧
        find_next_zero_bit smmu.context_map smmu.num_context_banks
          (setup_stage smmu r.smmu_domain.stage r.smmu_domain.cfg.fmt).start ≠
            smmu.num_context_banks ∧
        r.smmu_domain.cfg.cbndx = find_next_zero_bit smmu.context_map smmu.num_context_banks
          (setup_stage smmu r.smmu_domain.stage r.smmu_domain.cfg.fmt).start % 256 ∧
        r.smmu.context_map = smmu.context_map ||| 2 ^ find_next_zero_bit smmu.context_map
          smmu.num_context_banks
          (setup_stage smmu r.smmu_domain.stage r.smmu_domain.cfg.fmt).start) := by
  have hs : d.smmu.isSome = false := by rw [hu]; rfl
  unfold arm_smmu_init_domain_context
  simp only [hs, Bool.false_eq_true, if_false]
  by_cases hf : resolve_fmt kc smmu.features (resolve_stage smmu.features d.stage) d.cfg.fmt =
      arm_smmu_context_fmt.ARM_SMMU_CTX_FMT_NONE
  · simp only [hf, if_true]
    refine ⟨_, rfl, rfl, rfl, rfl, rfl, ?_, ?_⟩
    · exact ⟨fun _ => trivial, fun _ => rfl⟩
    · exact fun h => absurd h neg_EINVAL_ne_zero
  · simp only [hf, if_false]
    rw [alloc_bitmap_eq]
    by_cases he : find_next_zero_bit smmu.context_map smmu.num_context_banks
        (setup_stage smmu (resolve_stage smmu.features d.stage)
          (resolve_fmt kc smmu.features (resolve_stage smmu.features d.stage) d.cfg.fmt)).start =
        smmu.num_context_banks
    · simp only [he, if_true]
      have hneg : (-ENOSPC : Int) < 0 := by decide
      simp only [hneg, if_true]
      refine ⟨_, rfl, rfl, rfl, rfl, rfl, ?_, ?_⟩
      · exact ⟨fun h => absurd h neg_ENOSPC_ne_EINVAL, fun h => h.elim⟩
      · exact fun h => absurd h neg_ENOSPC_ne_zero
    · simp only [he, if_false]
      have hnn : ¬ ((find_next_zero_bit smmu.context_map smmu.num_context_banks
        (setup_stage smmu (resolve_stage smmu.features d.stage)
          (resolve_fmt kc smmu.features (resolve_stage smmu.features d.stage) d.cfg.fmt)).start
          : Nat) : Int) < 0 := by omega
      simp only [hnn, if_false]
      cases pgtbl with
      | none =>
        refine ⟨_, rfl, rfl, rfl, ?_, ?_, ?_, ?_⟩
        · simp only []
          split <;> rfl
        · simp only []
          split <;> rfl
        · exact ⟨fun h => absurd h neg_ENOMEM_ne_EINVAL, fun h => h.elim⟩
        · exact fun h => absurd h neg_ENOMEM_ne_zero
      | some pg =>
        obtain ⟨ops, pgs⟩ := pg
        refine ⟨_, rfl, ?_, ?_, ?_, ?_, ?_, ?_⟩
        · simp only []; split <;> rfl
        · simp only []; split <;> rfl
        · simp only []; split <;> rfl
        · simp only []; split <;> rfl
        · exact ⟨fun h => absurd h zero_ne_neg_EINVAL, fun h => h.elim⟩
        · intro _
          refine ⟨?_, ?_, ?_, ?_⟩
          · simp only []; split <;> rfl
          · simp only []; split <;> exact he
          · simp only []; split <;> (simp only []; omega)
          · simp only []; (repeat' split) <;> rfl

theorem resolve_fmt_eq_priority (kc : kconfig) (features : Nat)
    (stage : arm_smmu_domain_stage) :
    resolve_fmt kc features stage arm_smmu_context_fmt.ARM_SMMU_CTX_FMT_NONE =
      fmt_by_priority kc features stage := by
  unfold resolve_fmt fmt_by_priority
  by_cases h1 : features &&& ARM_SMMU_FEAT_FMT_AARCH32_L = 0 <;>
  by_cases h2 : features &&& ARM_SMMU_FEAT_FMT_AARCH32_S = 0 <;>
  by_cases h3 : features &&& (ARM_SMMU_FEAT_FMT_AARCH64_64K |||
      ARM_SMMU_FEAT_FMT_AARCH64_16K ||| ARM_SMMU_FEAT_FMT_AARCH64_4K) = 0 <;>
  cases h4 : kc.CONFIG_64BIT <;> cases h5 : kc.CONFIG_ARM_LPAE <;>
  cases h6 : kc.CONFIG_IOMMU_IO_PGTABLE_ARMV7S <;> cases stage <;>
  simp [h1, h2, h3]

theorem setup_stage_start (smmu : arm_smmu_device) (stage : arm_smmu_domain_stage)
    (cfmt : arm_smmu_context_fmt) :
    (setup_stage smmu stage cfmt).start =
      if stage = arm_smmu_domain_stage.ARM_SMMU_DOMAIN_S1 then smmu.num_s2_context_banks
      else 0 := by
  unfold setup_stage
  cases stage <;> simp only [] <;> (repeat' split) <;> first | rfl | contradiction

/-- C14. A successful `arm_smmu_init_domain_context` on an unbound domain, on a
controller with at most 256 context banks (`cfg.cbndx` is a `u8`), leaves a bank
index with `num_s2_context_banks <= cbndx < num_context_banks` when the domain
resolved to stage 1 and with `cbndx < num_context_banks` otherwise. -/
theorem init_domain_context_bank_range (kc : kconfig) (fuel : Nat) (d : arm_smmu_domain)
    (p : Nat) (smmu : arm_smmu_device) (pgtbl : Option (Nat × Nat)) (irq_ret : Int)
    (hu : d.smmu = none) (hcb : smmu.num_context_banks ≤ 256) :
    ∃ r, arm_smmu_init_domain_context kc (fuel + 1) d p smmu pgtbl irq_ret = some r ∧
      (r.ret = 0 →
        (r.smmu_domain.stage = arm_smmu_domain_stage.ARM_SMMU_DOMAIN_S1 →
          smmu.num_s2_context_banks ≤ r.smmu_domain.cfg.cbndx ∧
          r.smmu_domain.cfg.cbndx < smmu.num_context_banks) ∧
        (r.smmu_domain.stage ≠ arm_smmu_domain_stage.ARM_SMMU_DOMAIN_S1 →
          r.smmu_domain.cfg.cbndx < smmu.num_context_banks)) := by
  obtain ⟨r, hr, _, _, _, _, _, hok⟩ :=
    init_domain_context_unbound kc fuel d p smmu pgtbl irq_ret hu
  refine ⟨r, hr, fun h0 => ?_⟩
  obtain ⟨_, hne, hcb1, _⟩ := hok h0
  obtain ⟨h1, h2, _, _, h5⟩ := find_next_zero_bit_spec smmu.context_map smmu.num_context_banks
    (setup_stage smmu r.smmu_domain.stage r.smmu_domain.cfg.fmt).start
  have hst := setup_stage_start smmu r.smmu_domain.stage r.smmu_domain.cfg.fmt
  generalize (setup_stage smmu r.smmu_domain.stage r.smmu_domain.cfg.fmt).start = s at *
  generalize find_next_zero_bit smmu.context_map smmu.num_context_banks s = k at *
  have hlt : s < smmu.num_context_banks := by
    by_contra hge
    exact hne (h5 (by omega))
  have h2a := h2 hlt
  have hk : r.smmu_domain.cfg.cbndx = k := by
    rw [hcb1]; exact Nat.mod_eq_of_lt (by omega)
  constructor
  · intro hs
    rw [if_pos hs] at hst
    omega
  · intro _
    omega

theorem init_domain_context_bank_range_witness :
    ∃ r, arm_smmu_init_domain_context sample_kconfig (0 + 1)
        (fresh_domain arm_smmu_domain_stage.ARM_SMMU_DOMAIN_S1) 0x1000 (sample_smmu 4)
        (some (7, 0x1000)) 0 = some r ∧
      (r.ret = 0 →
        (r.smmu_domain.stage = arm_smmu_domain_stage.ARM_SMMU_DOMAIN_S1 →
          (sample_smmu 4).num_s2_context_banks ≤ r.smmu_domain.cfg.cbndx ∧
          r.smmu_domain.cfg.cbndx < (sample_smmu 4).num_context_banks) ∧
        (r.smmu_domain.stage ≠ arm_smmu_domain_stage.ARM_SMMU_DOMAIN_S1 →
          r.smmu_domain.cfg.cbndx < (sample_smmu 4).num_context_banks)) :=
  init_domain_context_bank_range sample_kconfig 0
    (fresh_domain arm_smmu_domain_stage.ARM_SMMU_DOMAIN_S1) 0x1000 (sample_smmu 4)
    (some (7, 0x1000)) 0 rfl (by decide)

/-- C15. On a controller that supports stage 1 or stage 2, the stage of an unbound
domain after the stage resolution of `arm_smmu_init_domain_context` is S2 when the
controller lacks stage 1, S1 when it lacks stage 2, and the requested stage when it
supports both. -/
theorem init_domain_context_stage_resolution (kc : kconfig) (fuel : Nat)
    (d : arm_smmu_domain) (p : Nat) (smmu : arm_smmu_device) (pgtbl : Option (Nat × Nat))
    (irq_ret : Int) (hu : d.smmu = none)
    (hsup : smmu.features &&& ARM_SMMU_FEAT_TRANS_S1 ≠ 0 ∨
      smmu.features &&& ARM_SMMU_FEAT_TRANS_S2 ≠ 0) :
    resolve_stage smmu.features d.stage =
      (if smmu.features &&& ARM_SMMU_FEAT_TRANS_S1 = 0 then
        arm_smmu_domain_stage.ARM_SMMU_DOMAIN_S2
      else if smmu.features &&& ARM_SMMU_FEAT_TRANS_S2 = 0 then
        arm_smmu_domain_stage.ARM_SMMU_DOMAIN_S1
      else d.stage) ∧
    ∃ r, arm_smmu_init_domain_context kc (fuel + 1) d p smmu pgtbl irq_ret = some r ∧
      (smmu.features &&& ARM_SMMU_FEAT_TRANS_S1 = 0 →
        r.smmu_domain.stage = arm_smmu_domain_stage.ARM_SMMU_DOMAIN_S2) ∧
      (smmu.features &&& ARM_SMMU_FEAT_TRANS_S2 = 0 →
        r.smmu_domain.stage = arm_smmu_domain_stage.ARM_SMMU_DOMAIN_S1) ∧
      (smmu.features &&& ARM_SMMU_FEAT_TRANS_S1 ≠ 0 →
        smmu.features &&& ARM_SMMU_FEAT_TRANS_S2 ≠ 0 →
        r.smmu_domain.stage = d.stage) := by
  have hrs : resolve_stage smmu.features d.stage =
      (if smmu.features &&& ARM_SMMU_FEAT_TRANS_S1 = 0 then
        arm_smmu_domain_stage.ARM_SMMU_DOMAIN_S2
      else if smmu.features &&& ARM_SMMU_FEAT_TRANS_S2 = 0 then
        arm_smmu_domain_stage.ARM_SMMU_DOMAIN_S1
      else d.stage) := by
    unfold resolve_stage
    by_cases h1 : smmu.features &&& ARM_SMMU_FEAT_TRANS_S1 = 0
    · have h2 : ¬ smmu.features &&& ARM_SMMU_FEAT_TRANS_S2 = 0 := by
        rcases hsup with h | h
        · exact absurd h1 h
        · exact h
      simp [h1, h2]
    · by_cases h2 : smmu.features &&& ARM_SMMU_FEAT_TRANS_S2 = 0 <;> simp [h1, h2]
  refine ⟨hrs, ?_⟩
  obtain ⟨r, hr, hst, _⟩ := init_domain_context_unbound kc fuel d p smmu pgtbl irq_ret hu
  refine ⟨r, hr, ?_, ?_, ?_⟩
  · intro h1
    rw [hst, hrs, if_pos h1]
  · intro h2
    have h1 : ¬ smmu.features &&& ARM_SMMU_FEAT_TRANS_S1 = 0 := by
      rcases hsup with h | h
      · exact h
      · exact absurd h2 h
    rw [hst, hrs, if_neg h1, if_pos h2]
  · intro h1 h2
    rw [hst, hrs, if_neg h1, if_neg h2]

theorem init_domain_context_stage_resolution_witness :
    resolve_stage (sample_smmu 4).features
        (fresh_domain arm_smmu_domain_stage.ARM_SMMU_DOMAIN_NESTED).stage =
      (if (sample_smmu 4).features &&& ARM_SMMU_FEAT_TRANS_S1 = 0 then
        arm_smmu_domain_stage.ARM_SMMU_DOMAIN_S2
      else if (sample_smmu 4).features &&& ARM_SMMU_FEAT_TRANS_S2 = 0 then
        arm_smmu_domain_stage.ARM_SMMU_DOMAIN_S1
      else (fresh_domain arm_smmu_domain_stage.ARM_SMMU_DOMAIN_NESTED).stage) ∧
    ∃ r, arm_smmu_init_domain_context sample_kconfig (0 + 1)
        (fresh_domain arm_smmu_domain_stage.ARM_SMMU_DOMAIN_NESTED) 0x1000 (sample_smmu 4)
        (some (7, 0x1000)) 0 = some r ∧
      ((sample_smmu 4).features &&& ARM_SMMU_FEAT_TRANS_S1 = 0 →
        r.smmu_domain.stage = arm_smmu_domain_stage.ARM_SMMU_DOMAIN_S2) ∧
      ((sample_smmu 4).features &&& ARM_SMMU_FEAT_TRANS_S2 = 0 →
        r.smmu_domain.stage = arm_smmu_domain_stage.ARM_SMMU_DOMAIN_S1) ∧
      ((sample_smmu 4).features &&& ARM_SMMU_FEAT_TRANS_S1 ≠ 0 →
        (sample_smmu 4).features &&& ARM_SMMU_FEAT_TRANS_S2 ≠ 0 →
        r.smmu_domain.stage =
          (fresh_domain arm_smmu_domain_stage.ARM_SMMU_DOMAIN_NESTED).stage) :=
  init_domain_context_stage_resolution sample_kconfig 0
    (fresh_domain arm_smmu_domain_stage.ARM_SMMU_DOMAIN_NESTED) 0x1000 (sample_smmu 4)
    (some (7, 0x1000)) 0 rfl (Or.inl (by decide))

/-- C16 (counterexample). On a 64-bit build, a controller whose only table format is
AArch32-Long (no AArch64 page size) matches none of the three cases of the stated
priority, yet `arm_smmu_init_domain_context` on a fresh stage-1 domain succeeds and
selects AArch32-Long instead of failing with `-EINVAL`. -/
theorem fmt_as_specified_fails_64bit_aarch32 :
    sample_kconfig.CONFIG_64BIT = true ∧
    fmt_as_specified sample_kconfig sample_aarch32_smmu.features
      arm_smmu_domain_stage.ARM_SMMU_DOMAIN_S1 = arm_smmu_context_fmt.ARM_SMMU_CTX_FMT_NONE ∧
    ∃ r, arm_smmu_init_domain_context sample_kconfig 1
        (fresh_domain arm_smmu_domain_stage.ARM_SMMU_DOMAIN_S1) 0x1000 sample_aarch32_smmu
        (some (7, 0x1000)) 0 = some r ∧
      r.ret = 0 ∧ r.smmu_domain.stage = arm_smmu_domain_stage.ARM_SMMU_DOMAIN_S1 ∧
      r.smmu_domain.cfg.fmt = arm_smmu_context_fmt.ARM_SMMU_CTX_FMT_AARCH32_L := by
  refine ⟨rfl, ?_, _, rfl, ?_, ?_, ?_⟩ <;> decide

/-- C16 (amended). For an unbound domain whose format is None,
`arm_smmu_init_domain_context` selects AArch64 when the build is 64-bit and an AArch64
page size is supported; otherwise AArch32-Short when the v7s backend is built, the
build is neither 64-bit nor LPAE, the controller supports the format and the resolved
stage is S1; otherwise AArch32-Long whenever the controller supports it; otherwise
AArch64 whenever an AArch64 page size is supported; and it returns `-EINVAL` exactly
when none of these applies. -/
theorem init_domain_context_fmt_priority (kc : kconfig) (fuel : Nat) (d : arm_smmu_domain)
    (p : Nat) (smmu : arm_smmu_device) (pgtbl : Option (Nat × Nat)) (irq_ret : Int)
    (hu : d.smmu = none)
    (hfmt : d.cfg.fmt = arm_smmu_context_fmt.ARM_SMMU_CTX_FMT_NONE) :
    ∃ r, arm_smmu_init_domain_context kc (fuel + 1) d p smmu pgtbl irq_ret = some r ∧
      r.smmu_domain.cfg.fmt = fmt_by_priority kc smmu.features r.smmu_domain.stage ∧
      (r.ret = -EINVAL ↔ fmt_by_priority kc smmu.features r.smmu_domain.stage =
        arm_smmu_context_fmt.ARM_SMMU_CTX_FMT_NONE) := by
  obtain ⟨r, hr, hst, hf, _, _, hiff, _⟩ :=
    init_domain_context_unbound kc fuel d p smmu pgtbl irq_ret hu
  rw [hfmt, resolve_fmt_eq_priority, ← hst] at hf hiff
  exact ⟨r, hr, hf, hiff⟩

theorem init_domain_context_fmt_priority_witness :
    ∃ r, arm_smmu_init_domain_context sample_kconfig (0 + 1)
        (fresh_domain arm_smmu_domain_stage.ARM_SMMU_DOMAIN_S1) 0x1000 sample_aarch32_smmu
        (some (7, 0x1000)) 0 = some r ∧
      r.smmu_domain.cfg.fmt =
        fmt_by_priority sample_kconfig sample_aarch32_smmu.features r.smmu_domain.stage ∧
      (r.ret = -EINVAL ↔
        fmt_by_priority sample_kconfig sample_aarch32_smmu.features r.smmu_domain.stage =
          arm_smmu_context_fmt.ARM_SMMU_CTX_FMT_NONE) :=
  init_domain_context_fmt_priority sample_kconfig 0
    (fresh_domain arm_smmu_domain_stage.ARM_SMMU_DOMAIN_S1) 0x1000 sample_aarch32_smmu
    (some (7, 0x1000)) 0 rfl rfl

/-- C17. Stage negotiation is not deterministic in the prior content of the domain: a
stage-1 domain whose bind on `sample_full_aarch32_smmu` failed with `-ENOSPC` is still
unbound but keeps `cfg.fmt = AArch32-Long`; bound next against `sample_smmu 4`, which
does not support AArch32-Long, under the same build options it resolves
(S1, AArch32-Long), while a fresh stage-1 domain bound against the same controller
resolves (S1, AArch64). -/
theorem init_domain_context_stale_fmt :
    (sample_smmu 4).features &&& ARM_SMMU_FEAT_FMT_AARCH32_L = 0 ∧
    ∃ r0 r1 r2,
      arm_smmu_init_domain_context sample_kconfig_lpae 1
        (fresh_domain arm_smmu_domain_stage.ARM_SMMU_DOMAIN_S1) 0x1000
        sample_full_aarch32_smmu (some (7, 0x1000)) 0 = some r0 ∧
      r0.ret = -ENOSPC ∧ r0.smmu_domain.smmu = none ∧
      r0.smmu_domain.stage = arm_smmu_domain_stage.ARM_SMMU_DOMAIN_S1 ∧
      r0.smmu_domain.cfg.fmt = arm_smmu_context_fmt.ARM_SMMU_CTX_FMT_AARCH32_L ∧
      arm_smmu_init_domain_context sample_kconfig_lpae 1 r0.smmu_domain 0x2000
        (sample_smmu 4) (some (7, 0x1000)) 0 = some r1 ∧
      r1.ret = 0 ∧
      r1.smmu_domain.stage = arm_smmu_domain_stage.ARM_SMMU_DOMAIN_S1 ∧
      r1.smmu_domain.cfg.fmt = arm_smmu_context_fmt.ARM_SMMU_CTX_FMT_AARCH32_L ∧
      arm_smmu_init_domain_context sample_kconfig_lpae 1
        (fresh_domain arm_smmu_domain_stage.ARM_SMMU_DOMAIN_S1) 0x2000
        (sample_smmu 4) (some (7, 0x1000)) 0 = some r2 ∧
      r2.ret = 0 ∧
      r2.smmu_domain.stage = arm_smmu_domain_stage.ARM_SMMU_DOMAIN_S1 ∧
      r2.smmu_domain.cfg.fmt = arm_smmu_context_fmt.ARM_SMMU_CTX_FMT_AARCH64 := by
  refine ⟨by decide, _, _, _, rfl, ?_, ?_, ?_, ?_, rfl, ?_, ?_, ?_, rfl, ?_, ?_, ?_⟩ <;> decide

/-! ## Releasing a slot, registering a device, looking up a group -/

/-- C12. For a slot `k` of the routing table, `arm_smmu_free_sme` returns true exactly
when the reference count was 1 and leaves the count one lower; when it returns true the
routing entry is `s2cr_init_val` (type Fault if `disable_bypass` else Bypass, count 0,
no group) and the match entry of the slot, if the controller has one, is invalid with
every other match entry as before; when it returns false only the count of that slot
changed. -/
theorem free_sme_release_slot (db : Bool) (smmu : arm_smmu_device) (k : Nat)
    (hk : k < smmu.s2crs.length) (hc : 1 ≤ (arr_get smmu.s2crs (k : Int)).count) :
    ((arm_smmu_free_sme db smmu (k : Int)).1 = true ↔
      (arr_get smmu.s2crs (k : Int)).count = 1) ∧
    (arr_get (arm_smmu_free_sme db smmu (k : Int)).2.s2crs (k : Int)).count =
      (arr_get smmu.s2crs (k : Int)).count - 1 ∧
    (∀ j : Nat, j ≠ k →
      (arm_smmu_free_sme db smmu (k : Int)).2.s2crs[j]? = smmu.s2crs[j]?) ∧
    ((arm_smmu_free_sme db smmu (k : Int)).1 = true →
      arr_get (arm_smmu_free_sme db smmu (k : Int)).2.s2crs (k : Int) = s2cr_init_val db ∧
      (s2cr_init_val db).type = (if db then arm_smmu_s2cr_type.S2CR_TYPE_FAULT
        else arm_smmu_s2cr_type.S2CR_TYPE_BYPASS) ∧
      (s2cr_init_val db).count = 0 ∧ (s2cr_init_val db).group = 0 ∧
      ∀ l, smmu.smrs = some l → k < l.length →
        ∃ l1, (arm_smmu_free_sme db smmu (k : Int)).2.smrs = some l1 ∧
          (arr_get l1 (k : Int)).valid = false ∧
          ∀ j : Nat, j ≠ k → l1[j]? = l[j]?) ∧
    ((arm_smmu_free_sme db smmu (k : Int)).1 = false →
      (arm_smmu_free_sme db smmu (k : Int)).2 =
        set_s2cr smmu (k : Int) { (arr_get smmu.s2crs (k : Int)) with
          count := (arr_get smmu.s2crs (k : Int)).count - 1 }) := by
  have _ := hc
  by_cases h : (arr_get smmu.s2crs (k : Int)).count - 1 = 0
  · have h1 : (arr_get smmu.s2crs (k : Int)).count = 1 := by omega
    have hfree : arm_smmu_free_sme db smmu (k : Int) =
        (true, { smmu with
          s2crs := arr_set smmu.s2crs (k : Int) (s2cr_init_val db)
          smrs := smmu.smrs.map fun smrs =>
            arr_set smrs (k : Int) { (arr_get smrs (k : Int)) with valid := false } }) := by
      unfold arm_smmu_free_sme
      simp [h]
    rw [hfree]
    have hinit : arr_get (arr_set smmu.s2crs (k : Int) (s2cr_init_val db)) (k : Int) =
        s2cr_init_val db := by
      rw [arr_get_arr_set_nat _ _ _ _ hk, if_pos rfl]
    refine ⟨⟨fun _ => h1, fun _ => rfl⟩, ?_, ?_, fun _ => ⟨hinit, ?_, rfl, rfl, ?_⟩, ?_⟩
    · simp only []
      rw [hinit, h1]; rfl
    · intro j hj
      simp only []
      rw [getElem?_arr_set_nat]
      have : ¬ (k = j ∧ j < smmu.s2crs.length) := fun hh => hj hh.1.symm
      rw [if_neg this]
    · cases db <;> rfl
    · intro l hl hkl
      refine ⟨arr_set l (k : Int) { (arr_get l (k : Int)) with valid := false }, ?_, ?_, ?_⟩
      · simp only [hl, Option.map_some']
      · rw [arr_get_arr_set_nat _ _ _ _ hkl, if_pos rfl]
      · intro j hj
        rw [getElem?_arr_set_nat]
        have : ¬ (k = j ∧ j < l.length) := fun hh => hj hh.1.symm
        rw [if_neg this]
    · intro hf; cases hf
  · have h1 : ¬ (arr_get smmu.s2crs (k : Int)).count = 1 := by omega
    have hfree : arm_smmu_free_sme db smmu (k : Int) =
        (false, set_s2cr smmu (k : Int) { (arr_get smmu.s2crs (k : Int)) with
          count := (arr_get smmu.s2crs (k : Int)).count - 1 }) := by
      unfold arm_smmu_free_sme set_s2cr
      simp [h]
    rw [hfree]
    refine ⟨⟨fun hf => (by cases hf), fun hh => absurd hh h1⟩, ?_, ?_,
      fun hf => (by cases hf), fun _ => rfl⟩
    · simp only [set_s2cr]
      rw [arr_get_arr_set_nat _ _ _ _ hk, if_pos rfl]
    · intro j hj
      simp only [set_s2cr]
      rw [getElem?_arr_set_nat]
      have : ¬ (k = j ∧ j < smmu.s2crs.length) := fun hh => hj hh.1.symm
      rw [if_neg this]

theorem free_sme_release_slot_witness :
    ((arm_smmu_free_sme false (sme_run false { smmu := sample_smmu 4, masters := [] }
        [sme_op.add_device [0x10] 5]).smmu ((0 : Nat) : Int)).1 = true ↔
      (arr_get (sme_run false { smmu := sample_smmu 4, masters := [] }
        [sme_op.add_device [0x10] 5]).smmu.s2crs ((0 : Nat) : Int)).count = 1) :=
  (free_sme_release_slot false (sme_run false { smmu := sample_smmu 4, masters := [] }
    [sme_op.add_device [0x10] 5]).smmu 0 (by decide) (by decide)).1

theorem add_device_check_ids_false_iff (smmu : arm_smmu_device) (ids : List Nat) :
    add_device_check_ids smmu ids = false ↔ ∃ fwid ∈ ids, sid_out_of_range smmu fwid := by
  induction ids with
  | nil => simp [add_device_check_ids]
  | cons fwid rest ih =>
    unfold add_device_check_ids
    split
    · rename_i h1
      exact ⟨fun _ => ⟨fwid, List.mem_cons_self _ _, Or.inl h1⟩, fun _ => rfl⟩
    · rename_i h1
      split
      · rename_i h2
        exact ⟨fun _ => ⟨fwid, List.mem_cons_self _ _, Or.inr h2⟩, fun _ => rfl⟩
      · rename_i h2
        rw [ih]
        constructor
        · rintro ⟨x, hx, hr⟩
          exact ⟨x, List.mem_cons_of_mem _ hx, hr⟩
        · rintro ⟨x, hx, hr⟩
          rcases List.mem_cons.mp hx with hx | hx
          · subst hx
            rcases hr with hr | hr
            · exact absurd hr h1
            · exact absurd hr h2
          · exact ⟨x, hx, hr⟩

theorem add_device_found_einval_iff (db : Bool) (smmu : arm_smmu_device) (ids : List Nat)
    (env : add_device_env) :
    ((add_device_found db smmu ids env).1 = -EINVAL ↔
      (∃ fwid ∈ ids, sid_out_of_range smmu fwid) ∨
      ((∀ fwid ∈ ids, ¬ sid_out_of_range smmu fwid) ∧ env.cfg_alloc_ok = true ∧
        env.pm_get_err = false ∧
        (arm_smmu_master_alloc_smes db smmu (fresh_fwspec ids) env.group_ptr).1 = -EINVAL)) ∧
    ((∃ fwid ∈ ids, sid_out_of_range smmu fwid) →
      add_device_found db smmu ids env = (-EINVAL, smmu, none)) := by
  unfold add_device_found
  by_cases hchk : add_device_check_ids smmu ids = false
  · have hex := (add_device_check_ids_false_iff smmu ids).mp hchk
    simp only [hchk, if_true]
    exact ⟨⟨fun _ => Or.inl hex, fun _ => (by simp)⟩, fun _ => (by simp)⟩
  · have hnex : ¬ ∃ fwid ∈ ids, sid_out_of_range smmu fwid :=
      fun h => hchk ((add_device_check_ids_false_iff smmu ids).mpr h)
    have hall : ∀ fwid ∈ ids, ¬ sid_out_of_range smmu fwid :=
      fun x hx hr => hnex ⟨x, hx, hr⟩
    simp only [hchk, if_false]
    refine ⟨?_, fun h => absurd h hnex⟩
    cases hca : env.cfg_alloc_ok
    · simp only [if_true]
      constructor
      · intro h; exact absurd h neg_ENOMEM_ne_EINVAL
      · rintro (h | ⟨_, h, _⟩)
        · exact absurd h hnex
        · cases h
    · simp only [Bool.true_eq_false, if_false]
      cases hpg : env.pm_get_err
      · simp only [Bool.false_eq_true, if_false]
        by_cases hr : (arm_smmu_master_alloc_smes db smmu (fresh_fwspec ids) env.group_ptr).1 = 0
        · have hne : ¬ (arm_smmu_master_alloc_smes db smmu (fresh_fwspec ids)
              env.group_ptr).1 = -EINVAL := by
            rw [hr]; exact zero_ne_neg_EINVAL
          simp only [hr, ne_eq, not_true_eq_false, if_false]
          constructor
          · intro h
            have h0 : (0 : Int) = -EINVAL := by
              cases hpp : env.pm_put_err <;> rw [hpp] at h <;> exact h
            exact absurd h0 zero_ne_neg_EINVAL
          · rintro (h | ⟨_, _, _, h⟩)
            · exact absurd h hnex
            · exact absurd h zero_ne_neg_EINVAL
        · simp only [ne_eq, hr, not_false_eq_true, if_true]
          constructor
          · intro h; exact Or.inr ⟨hall, by simp, by simp, h⟩
          · rintro (h | ⟨_, _, _, h⟩)
            · exact absurd h hnex
            · exact h
      · simp only [if_true]
        constructor
        · intro h; exact absurd h neg_ENOMEM_ne_EINVAL
        · rintro (h | ⟨_, _, h, _⟩)
          · exact absurd h hnex
          · cases h

/-- A stream-match conflict is reported with the same number as an out-of-range
identifier. On `sample_smmu 4` a device declaring the firmware IDs `0x00010010` and
`0x00020010` passes the validation loop, and `arm_smmu_master_alloc_smes` then fails
with `-EINVAL` (the second identifier conflicts with the entry allocated for the
first); match entry 0 is left with the ID and mask of the first identifier. -/
theorem add_device_einval_without_bad_id :
    (∀ fwid ∈ [0x00010010, 0x00020010], ¬ sid_out_of_range (sample_smmu 4) fwid) ∧
    (arm_smmu_add_device false (sample_smmu 4)
      (add_device_lookup.generic [0x00010010, 0x00020010]) sample_env).1 = -EINVAL ∧
    (arm_smmu_add_device false (sample_smmu 4)
      (add_device_lookup.generic [0x00010010, 0x00020010]) sample_env).2.1.smrs =
      some [{ mask := 1, id := 0x10, valid := false }, { mask := 0, id := 0, valid := false },
        { mask := 0, id := 0, valid := false }, { mask := 0, id := 0, valid := false }] := by
  refine ⟨by decide, by decide, by decide⟩

/-- Where the return value `-EINVAL` of `arm_smmu_add_device` comes from, for a device
whose controller was found: from the validation loop (some identifier out of range), or,
with every identifier in range, the configuration allocated and `pm_runtime_get_sync`
successful, from `arm_smmu_master_alloc_smes`. -/
theorem add_device_einval_iff (db : Bool) (smmu : arm_smmu_device)
    (lookup : add_device_lookup) (ids : List Nat) (env : add_device_env)
    (hl : lookup = add_device_lookup.generic ids ∨ lookup = add_device_lookup.legacy 0 ids) :
    ((arm_smmu_add_device db smmu lookup env).1 = -EINVAL ↔
      (∃ fwid ∈ ids, sid_out_of_range smmu fwid) ∨
      ((∀ fwid ∈ ids, ¬ sid_out_of_range smmu fwid) ∧ env.cfg_alloc_ok = true ∧
        env.pm_get_err = false ∧
        (arm_smmu_master_alloc_smes db smmu (fresh_fwspec ids) env.group_ptr).1 = -EINVAL)) ∧
    ((∃ fwid ∈ ids, sid_out_of_range smmu fwid) →
      arm_smmu_add_device db smmu lookup env = (-EINVAL, smmu, none)) := by
  have heq : arm_smmu_add_device db smmu lookup env = add_device_found db smmu ids env := by
    rcases hl with hl | hl <;> subst hl <;> simp [arm_smmu_add_device]
  rw [heq]
  exact add_device_found_einval_iff db smmu ids env

/-- C13. For a device whose controller was found (the generic binding, or the legacy
binding after `arm_smmu_register_legacy_master` returned 0): the validation loop of
`arm_smmu_add_device` takes its error exit if and only if some declared identifier has
an ID bit outside `streamid_mask` or a mask bit outside `smr_mask_mask` (ID = low 16
bits, mask = high 16 bits of the firmware ID word); and when some identifier is out of
range the call returns `-EINVAL`, the controller (match entries, routing entries and
reference counts) is as before, and no master configuration stays with the device. -/
theorem add_device_invalid_stream_id (db : Bool) (smmu : arm_smmu_device) (ids : List Nat)
    (env : add_device_env) :
    (add_device_check_ids smmu ids = false ↔ ∃ fwid ∈ ids, sid_out_of_range smmu fwid) ∧
    ((∃ fwid ∈ ids, sid_out_of_range smmu fwid) →
      arm_smmu_add_device db smmu (add_device_lookup.generic ids) env =
        (-EINVAL, smmu, none) ∧
      arm_smmu_add_device db smmu (add_device_lookup.legacy 0 ids) env =
        (-EINVAL, smmu, none)) := by
  refine ⟨add_device_check_ids_false_iff smmu ids, fun hbad => ?_⟩
  have hchk := (add_device_check_ids_false_iff smmu ids).mpr hbad
  constructor
  · simp only [arm_smmu_add_device, add_device_found, hchk, if_true]
  · simp only [arm_smmu_add_device, add_device_found, hchk, if_true, ne_eq,
      not_true_eq_false, if_false]

/-- Witness for `add_device_invalid_stream_id`: the stream ID `0x8000` lies outside the
15-bit `streamid_mask` of `sample_smmu 4`. -/
theorem add_device_invalid_stream_id_witness :
    arm_smmu_add_device false (sample_smmu 4) (add_device_lookup.generic [0x8000])
      sample_env = (-EINVAL, sample_smmu 4, none) :=
  ((add_device_invalid_stream_id false (sample_smmu 4) [0x8000] sample_env).2
    ⟨0x8000, List.mem_singleton.mpr rfl, Or.inl (by decide)⟩).1

/-- C20. Group selection forgets a group seen at an earlier slot. On `sample_smmu 4`
with one master registered for stream ID `0x10` in group 5, a device with the IDs
`0x10, 0x20` reaches `arm_smmu_device_group` with slot 0 (group 5) and the new slot 1
(no group): the lookup gives back the fresh group 9, not group 5. With a second master
registered for `0x30` in group 7, a device with the IDs `0x10, 0x20, 0x30` has slots of
groups 5, none and 7: the lookup gives back group 7 and no `-EINVAL`. -/
theorem device_group_forgets_earlier_group :
    (∃ (i : Nat) (smmu1 : arm_smmu_device) (fw1 : iommu_fwspec),
      alloc_smes_loop 2 0 (sme_run false { smmu := sample_smmu 4, masters := [] }
        [sme_op.add_device [0x10] 5]).smmu (fresh_fwspec [0x10, 0x20]) =
        (none, i, smmu1, fw1) ∧
      fw1.iommu_priv.smendx = [0, 1] ∧
      (arr_get smmu1.s2crs 0).group = 5 ∧ (arr_get smmu1.s2crs 1).group = 0 ∧
      arm_smmu_device_group smmu1 fw1 9 = 9) ∧
    (∃ (i : Nat) (smmu1 : arm_smmu_device) (fw1 : iommu_fwspec),
      alloc_smes_loop 3 0 (sme_run false { smmu := sample_smmu 4, masters := [] }
        [sme_op.add_device [0x10] 5, sme_op.add_device [0x30] 7]).smmu
        (fresh_fwspec [0x10, 0x20, 0x30]) = (none, i, smmu1, fw1) ∧
      fw1.iommu_priv.smendx = [0, 2, 1] ∧
      (arr_get smmu1.s2crs 0).group = 5 ∧ (arr_get smmu1.s2crs 2).group = 0 ∧
      (arr_get smmu1.s2crs 1).group = 7 ∧
      arm_smmu_device_group smmu1 fw1 9 = 7) := by
  constructor
  · refine ⟨_, _, _, rfl, ?_, ?_, ?_, ?_⟩ <;> decide
  · refine ⟨_, _, _, rfl, ?_, ?_, ?_, ?_, ?_⟩ <;> decide

/-! ## Attaching a device to a domain -/

theorem arr_get_arr_set_int {α : Type} [Inhabited α] (l : List α) (idx x : Int) (v : α)
    (hx0 : 0 ≤ x) (hx1 : x < l.length) :
    arr_get (arr_set l idx v) x = if idx = x then v else arr_get l x := by
  obtain ⟨j, hj⟩ : ∃ j : Nat, x = (j : Int) := ⟨x.toNat, by omega⟩
  subst hj
  by_cases hneg : idx < 0
  · rw [arr_set_neg _ _ _ hneg]
    have hne : ¬ idx = (j : Int) := by omega
    rw [if_neg hne]
  · obtain ⟨k, hk⟩ : ∃ k : Nat, idx = (k : Int) := ⟨idx.toNat, by omega⟩
    subst hk
    rw [arr_get_arr_set_nat _ _ _ _ (by omega)]
    by_cases hkj : k = j
    · subst hkj; simp
    · have hne : ¬ ((k : Int) = (j : Int)) := by omega
      rw [if_neg hkj, if_neg hne]

theorem arr_get_out_of_bounds {α : Type} [Inhabited α] (l : List α) (x : Int)
    (hx : x < 0 ∨ (l.length : Int) ≤ x) : arr_get l x = default := by
  unfold arr_get
  by_cases hneg : x < 0
  · simp [hneg]
  · simp only [hneg, if_false, List.getD_eq_getElem?_getD]
    rw [List.getElem?_eq_none (by omega)]
    rfl

theorem arr_get_arr_set_cases {α : Type} [Inhabited α] (l : List α) (idx x : Int) (v : α) :
    arr_get (arr_set l idx v) x = v ∨ arr_get (arr_set l idx v) x = arr_get l x := by
  by_cases hx : 0 ≤ x ∧ x < l.length
  · rw [arr_get_arr_set_int _ _ _ _ hx.1 hx.2]
    by_cases h : idx = x
    · left; rw [if_pos h]
    · right; rw [if_neg h]
  · right
    rw [arr_get_out_of_bounds l x (by omega),
      arr_get_out_of_bounds _ x (by rw [arr_set_length]; omega)]

theorem domain_add_master_loop_routes (cbndx : Nat) (fw : iommu_fwspec) : ∀ (n i : Nat)
    (smmu : arm_smmu_device) (written : List Int),
    (∀ x : Int, (arr_get smmu.s2crs x).type = arm_smmu_s2cr_type.S2CR_TYPE_TRANS ∧
        (arr_get smmu.s2crs x).cbndx = cbndx →
      (arr_get (domain_add_master_loop cbndx fw n i smmu written).1.s2crs x).type =
        arm_smmu_s2cr_type.S2CR_TYPE_TRANS ∧
      (arr_get (domain_add_master_loop cbndx fw n i smmu written).1.s2crs x).cbndx = cbndx) ∧
    ((∀ j, i ≤ j → j < i + n →
        0 ≤ fwspec_smendx fw j ∧ fwspec_smendx fw j < smmu.s2crs.length) →
      ∀ j, i ≤ j → j < i + n →
        (arr_get (domain_add_master_loop cbndx fw n i smmu written).1.s2crs
          (fwspec_smendx fw j)).type = arm_smmu_s2cr_type.S2CR_TYPE_TRANS ∧
        (arr_get (domain_add_master_loop cbndx fw n i smmu written).1.s2crs
          (fwspec_smendx fw j)).cbndx = cbndx) := by
  intro n
  induction n with
  | zero =>
    intro i smmu written
    refine ⟨fun x hx => hx, fun _ j h1 h2 => ?_⟩
    omega
  | succ n ih =>
    intro i smmu written
    simp only [domain_add_master_loop]
    split
    · rename_i hc
      obtain ⟨p1, p2⟩ := ih (i + 1) smmu written
      refine ⟨p1, fun hb j h1 h2 => ?_⟩
      by_cases hji : j = i
      · subst hji
        exact p1 _ ⟨hc.1, hc.2.symm⟩
      · exact p2 (fun k hk1 hk2 => hb k (by omega) (by omega)) j (by omega) (by omega)
    · obtain ⟨p1, p2⟩ := ih (i + 1) (set_s2cr smmu (fwspec_smendx fw i)
        { (arr_get smmu.s2crs (fwspec_smendx fw i)) with
          type := arm_smmu_s2cr_type.S2CR_TYPE_TRANS
          privcfg := arm_smmu_s2cr_privcfg.S2CR_PRIVCFG_DEFAULT
          cbndx := cbndx }) (written ++ [fwspec_smendx fw i])
      have hlen : (set_s2cr smmu (fwspec_smendx fw i)
        { (arr_get smmu.s2crs (fwspec_smendx fw i)) with
          type := arm_smmu_s2cr_type.S2CR_TYPE_TRANS
          privcfg := arm_smmu_s2cr_privcfg.S2CR_PRIVCFG_DEFAULT
          cbndx := cbndx }).s2crs.length = smmu.s2crs.length := arr_set_length _ _ _
      constructor
      · intro x hx
        apply p1
        rcases arr_get_arr_set_cases smmu.s2crs (fwspec_smendx fw i) x
          { (arr_get smmu.s2crs (fwspec_smendx fw i)) with
            type := arm_smmu_s2cr_type.S2CR_TYPE_TRANS
            privcfg := arm_smmu_s2cr_privcfg.S2CR_PRIVCFG_DEFAULT
            cbndx := cbndx } with h | h
        · simp only [set_s2cr]; rw [h]; exact ⟨rfl, rfl⟩
        · simp only [set_s2cr]; rw [h]; exact hx
      · intro hb j h1 h2
        by_cases hji : j = i
        · subst hji
          apply p1
          obtain ⟨b1, b2⟩ := hb j (Nat.le_refl _) (by omega)
          simp only [set_s2cr]
          rw [arr_get_arr_set_int _ _ _ _ b1 b2, if_pos rfl]
          exact ⟨rfl, rfl⟩
        · refine p2 (fun k hk1 hk2 => ?_) j (by omega) (by omega)
          rw [hlen]
          exact hb k (by omega) (by omega)

theorem domain_add_master_loop_skip (cbndx : Nat) (fw : iommu_fwspec) : ∀ (n i : Nat)
    (smmu : arm_smmu_device) (written : List Int),
    (∀ j, i ≤ j → j < i + n →
      (arr_get smmu.s2crs (fwspec_smendx fw j)).type = arm_smmu_s2cr_type.S2CR_TYPE_TRANS ∧
      (arr_get smmu.s2crs (fwspec_smendx fw j)).cbndx = cbndx) →
    domain_add_master_loop cbndx fw n i smmu written = (smmu, written) := by
  intro n
  induction n with
  | zero =>
    intro i smmu written _
    rfl
  | succ n ih =>
    intro i smmu written h
    simp only [domain_add_master_loop]
    have hc := h i (Nat.le_refl _) (by omega)
    rw [if_pos ⟨hc.1, hc.2.symm⟩]
    exact ih (i + 1) smmu written (fun j h1 h2 => h j (by omega) (by omega))

theorem domain_add_master_loop_written (cbndx : Nat) (fw : iommu_fwspec) : ∀ (n i : Nat)
    (smmu : arm_smmu_device) (written : List Int),
    ∀ x ∈ (domain_add_master_loop cbndx fw n i smmu written).2,
      x ∈ written ∨
      ((∃ j, i ≤ j ∧ j < i + n ∧ x = fwspec_smendx fw j) ∧
        ¬ ((arr_get smmu.s2crs x).type = arm_smmu_s2cr_type.S2CR_TYPE_TRANS ∧
          (arr_get smmu.s2crs x).cbndx = cbndx)) := by
  intro n
  induction n with
  | zero =>
    intro i smmu written x hx
    exact Or.inl hx
  | succ n ih =>
    intro i smmu written x hx
    simp only [domain_add_master_loop] at hx
    split at hx
    · rcases ih (i + 1) smmu written x hx with h | ⟨⟨j, h1, h2, h3⟩, h4⟩
      · exact Or.inl h
      · exact Or.inr ⟨⟨j, by omega, by omega, h3⟩, h4⟩
    · rename_i hc
      rcases ih (i + 1) _ _ x hx with h | ⟨⟨j, h1, h2, h3⟩, h4⟩
      · rcases List.mem_append.mp h with h | h
        · exact Or.inl h
        · have hxi : x = fwspec_smendx fw i := List.mem_singleton.mp h
          subst hxi
          exact Or.inr ⟨⟨i, Nat.le_refl _, by omega, rfl⟩, fun hh => hc ⟨hh.1, hh.2.symm⟩⟩
      · refine Or.inr ⟨⟨j, by omega, by omega, h3⟩, fun hh => h4 ?_⟩
        rcases arr_get_arr_set_cases smmu.s2crs (fwspec_smendx fw i) x
          { (arr_get smmu.s2crs (fwspec_smendx fw i)) with
            type := arm_smmu_s2cr_type.S2CR_TYPE_TRANS
            privcfg := arm_smmu_s2cr_privcfg.S2CR_PRIVCFG_DEFAULT
            cbndx := cbndx } with h | h
        · simp only [set_s2cr]; rw [h]; exact ⟨rfl, rfl⟩
        · simp only [set_s2cr]; rw [h]; exact hh

theorem domain_add_master_loop_context_map (cbndx : Nat) (fw : iommu_fwspec) : ∀ (n i : Nat)
    (smmu : arm_smmu_device) (written : List Int),
    (domain_add_master_loop cbndx fw n i smmu written).1.context_map = smmu.context_map := by
  intro n
  induction n with
  | zero =>
    intro i smmu written
    rfl
  | succ n ih =>
    intro i smmu written
    simp only [domain_add_master_loop]
    split
    · exact ih (i + 1) smmu written
    · exact ih (i + 1) _ _

theorem init_domain_context_bound (kc : kconfig) (fuel : Nat) (d : arm_smmu_domain)
    (p : Nat) (smmu : arm_smmu_device) (pgtbl : Option (Nat × Nat)) (irq_ret : Int)
    (q : Nat) (hb : d.smmu = some q) :
    arm_smmu_init_domain_context kc fuel d p smmu pgtbl irq_ret =
      some { ret := 0, smmu_domain := d, smmu := smmu, pgtbl_request := none } := by
  have hs : d.smmu.isSome = true := by rw [hb]; rfl
  unfold arm_smmu_init_domain_context
  simp only [hs, if_true]

theorem init_domain_context_total (kc : kconfig) (fuel : Nat) (d : arm_smmu_domain)
    (p : Nat) (smmu : arm_smmu_device) (pgtbl : Option (Nat × Nat)) (irq_ret : Int) :
    ∃ r, arm_smmu_init_domain_context kc (fuel + 1) d p smmu pgtbl irq_ret = some r ∧
      r.smmu.s2crs = smmu.s2crs := by
  cases hd : d.smmu with
  | none =>
    obtain ⟨r, hr, _, _, hs, _⟩ := init_domain_context_unbound kc fuel d p smmu pgtbl irq_ret hd
    exact ⟨r, hr, hs⟩
  | some q =>
    exact ⟨_, init_domain_context_bound kc (fuel + 1) d p smmu pgtbl irq_ret q hd, rfl⟩

/-- C18. On a bound domain every `arm_smmu_attach_dev` returns with the domain as it
was (same controller, same `cfg.cbndx`) and the context-bank bitmap of the controller
of the device unchanged; when the device has a configuration on another controller
than the one the domain is bound to, the call returns `-EINVAL`, leaves that
controller unchanged and writes no routing entry. -/
theorem attach_dev_bound_domain (kc : kconfig) (fuel : Nat) (d : arm_smmu_domain)
    (fwspec : Option iommu_fwspec) (has_priv : Bool) (p : Nat) (smmu : arm_smmu_device)
    (pgtbl : Option (Nat × Nat)) (irq_ret : Int) (q : Nat) (hb : d.smmu = some q) :
    ∃ r, arm_smmu_attach_dev kc fuel d fwspec has_priv p smmu pgtbl irq_ret = some r ∧
      r.smmu_domain = d ∧ r.smmu_domain.smmu = some q ∧
      r.smmu_domain.cfg.cbndx = d.cfg.cbndx ∧
      r.smmu.context_map = smmu.context_map ∧
      (q ≠ p → ∀ fw, fwspec = some fw → has_priv = true →
        r.ret = -EINVAL ∧ r.smmu = smmu ∧ r.written = []) := by
  unfold arm_smmu_attach_dev
  cases fwspec with
  | none =>
    refine ⟨_, rfl, rfl, hb, rfl, rfl, fun _ fw hfw _ => ?_⟩
    cases hfw
  | some fw =>
    cases has_priv with
    | false =>
      refine ⟨_, rfl, rfl, hb, rfl, rfl, fun _ fw1 _ hp => ?_⟩
      cases hp
    | true =>
      simp only [Bool.true_eq_false, if_false]
      rw [init_domain_context_bound kc fuel d p smmu pgtbl irq_ret q hb]
      have h0 : ¬ ((0 : Int) < 0) := by decide
      simp only [h0, if_false, hb]
      by_cases hqp : q = p
      · subst hqp
        simp only [ne_eq, not_true_eq_false, if_false]
        refine ⟨_, rfl, rfl, hb, rfl, ?_, fun hne => hne.elim⟩
        exact domain_add_master_loop_context_map _ _ _ _ _ _
      · have hne : some q ≠ some p := fun h => hqp (Option.some.inj h)
        simp only [ne_eq, Option.some.injEq, hqp, not_false_eq_true, if_true]
        exact ⟨_, rfl, rfl, hb, rfl, rfl, fun _ _ _ _ => ⟨rfl, rfl, rfl⟩⟩

theorem attach_dev_bound_domain_witness :
    ∃ r, arm_smmu_attach_dev sample_kconfig 0
        { fresh_domain arm_smmu_domain_stage.ARM_SMMU_DOMAIN_S1 with smmu := some 0x2000 }
        (some (fresh_fwspec [0x10])) true 0x1000 (sample_smmu 4) none 0 = some r ∧
      r.ret = -EINVAL ∧ r.smmu = sample_smmu 4 ∧ r.written = [] :=
  match attach_dev_bound_domain sample_kconfig 0
    { fresh_domain arm_smmu_domain_stage.ARM_SMMU_DOMAIN_S1 with smmu := some 0x2000 }
    (some (fresh_fwspec [0x10])) true 0x1000 (sample_smmu 4) none 0 0x2000 rfl with
  | ⟨r, hr, _, _, _, _, h⟩ => ⟨r, hr, h (by decide) _ rfl rfl⟩

theorem init_domain_context_succeeds (kc : kconfig) (fuel : Nat) (d : arm_smmu_domain)
    (p : Nat) (smmu : arm_smmu_device) (pgtbl : Option (Nat × Nat)) (irq_ret : Int)
    (hu : d.smmu = none)
    (hf : resolve_fmt kc smmu.features (resolve_stage smmu.features d.stage) d.cfg.fmt ≠
      arm_smmu_context_fmt.ARM_SMMU_CTX_FMT_NONE)
    (hb : find_next_zero_bit smmu.context_map smmu.num_context_banks
      (setup_stage smmu (resolve_stage smmu.features d.stage)
        (resolve_fmt kc smmu.features (resolve_stage smmu.features d.stage) d.cfg.fmt)).start ≠
      smmu.num_context_banks)
    (hpg : pgtbl ≠ none) :
    ∃ r, arm_smmu_init_domain_context kc (fuel + 1) d p smmu pgtbl irq_ret = some r ∧
      r.ret = 0 ∧ r.smmu_domain.smmu = some p := by
  have hs : d.smmu.isSome = false := by rw [hu]; rfl
  unfold arm_smmu_init_domain_context
  simp only [hs, Bool.false_eq_true, if_false, hf]
  rw [alloc_bitmap_eq]
  simp only [hb, if_false]
  have hnn : ¬ ((find_next_zero_bit smmu.context_map smmu.num_context_banks
    (setup_stage smmu (resolve_stage smmu.features d.stage)
      (resolve_fmt kc smmu.features (resolve_stage smmu.features d.stage) d.cfg.fmt)).start
      : Nat) : Int) < 0 := by omega
  simp only [hnn, if_false]
  cases pgtbl with
  | none => exact absurd rfl hpg
  | some pg =>
    obtain ⟨ops, pgs⟩ := pg
    refine ⟨_, rfl, rfl, ?_⟩
    simp only []
    split <;> rfl

theorem domain_add_master_loop_writes (cbndx : Nat) (fw : iommu_fwspec) : ∀ (n i : Nat)
    (smmu : arm_smmu_device) (written : List Int),
    (∀ x ∈ written, x ∈ (domain_add_master_loop cbndx fw n i smmu written).2) ∧
    ((∀ j, i ≤ j → j < i + n →
        0 ≤ fwspec_smendx fw j ∧ fwspec_smendx fw j < smmu.s2crs.length) →
      ∀ j, i ≤ j → j < i + n →
        ¬ ((arr_get smmu.s2crs (fwspec_smendx fw j)).type =
            arm_smmu_s2cr_type.S2CR_TYPE_TRANS ∧
          (arr_get smmu.s2crs (fwspec_smendx fw j)).cbndx = cbndx) →
        fwspec_smendx fw j ∈ (domain_add_master_loop cbndx fw n i smmu written).2) := by
  intro n
  induction n with
  | zero =>
    intro i smmu written
    refine ⟨fun x hx => hx, fun _ j h1 h2 => ?_⟩
    omega
  | succ n ih =>
    intro i smmu written
    simp only [domain_add_master_loop]
    split
    · rename_i hc
      obtain ⟨p1, p2⟩ := ih (i + 1) smmu written
      refine ⟨p1, fun hbd j h1 h2 hnm => ?_⟩
      by_cases hji : j = i
      · subst hji
        exact absurd ⟨hc.1, hc.2.symm⟩ hnm
      · exact p2 (fun k hk1 hk2 => hbd k (by omega) (by omega)) j (by omega) (by omega) hnm
    · obtain ⟨p1, p2⟩ := ih (i + 1) (set_s2cr smmu (fwspec_smendx fw i)
        { (arr_get smmu.s2crs (fwspec_smendx fw i)) with
          type := arm_smmu_s2cr_type.S2CR_TYPE_TRANS
          privcfg := arm_smmu_s2cr_privcfg.S2CR_PRIVCFG_DEFAULT
          cbndx := cbndx }) (written ++ [fwspec_smendx fw i])
      have hlen : (set_s2cr smmu (fwspec_smendx fw i)
        { (arr_get smmu.s2crs (fwspec_smendx fw i)) with
          type := arm_smmu_s2cr_type.S2CR_TYPE_TRANS
          privcfg := arm_smmu_s2cr_privcfg.S2CR_PRIVCFG_DEFAULT
          cbndx := cbndx }).s2crs.length = smmu.s2crs.length := arr_set_length _ _ _
      refine ⟨fun x hx => p1 x (List.mem_append_left _ hx), fun hbd j h1 h2 hnm => ?_⟩
      by_cases hidx : fwspec_smendx fw j = fwspec_smendx fw i
      · rw [hidx]
        exact p1 _ (List.mem_append_right _ (List.mem_singleton.mpr rfl))
      · have hji : j ≠ i := fun h => hidx (by rw [h])
        refine p2 (fun k hk1 hk2 => ?_) j (by omega) (by omega) ?_
        · rw [hlen]
          exact hbd k (by omega) (by omega)
        · obtain ⟨b1, b2⟩ := hbd j h1 h2
          simp only [set_s2cr]
          rw [arr_get_arr_set_int _ _ _ _ b1 b2, if_neg (fun h => hidx h.symm)]
          exact hnm

/-- C19. For a device whose recorded `smendx` values are slots of the routing table, with
fuel for the bank search, `arm_smmu_attach_dev` returns, and it returns 0 when the
domain is already bound to the controller of the device (the domain then stays as it
is), and when the domain is unbound, a table format resolves, a context bank is free
and the page-table backend is allocated (the domain is then bound to the controller).
After a return of 0 every recorded slot has type Translate and the context bank of the
domain; the slots whose S2CR register was written are exactly the recorded slots whose
entry did not already have that type and bank; and attaching the same device to the
same domain again returns 0, writes no S2CR and leaves the domain and the controller
unchanged. -/
theorem attach_dev_programs_routing (kc : kconfig) (fuel : Nat) (d : arm_smmu_domain)
    (fw : iommu_fwspec) (p : Nat) (smmu : arm_smmu_device) (pgtbl : Option (Nat × Nat))
    (irq_ret : Int)
    (hwf : ∀ j, j < fw.num_ids →
      0 ≤ fwspec_smendx fw j ∧ fwspec_smendx fw j < smmu.s2crs.length) :
    ∃ r, arm_smmu_attach_dev kc (fuel + 1) d (some fw) true p smmu pgtbl irq_ret = some r ∧
      (d.smmu = some p → r.ret = 0 ∧ r.smmu_domain = d) ∧
      (d.smmu = none →
        resolve_fmt kc smmu.features (resolve_stage smmu.features d.stage) d.cfg.fmt ≠
          arm_smmu_context_fmt.ARM_SMMU_CTX_FMT_NONE →
        find_next_zero_bit smmu.context_map smmu.num_context_banks
          (setup_stage smmu (resolve_stage smmu.features d.stage)
            (resolve_fmt kc smmu.features (resolve_stage smmu.features d.stage)
              d.cfg.fmt)).start ≠ smmu.num_context_banks →
        pgtbl ≠ none →
        r.ret = 0 ∧ r.smmu_domain.smmu = some p) ∧
      (r.ret = 0 →
        (∀ j, j < fw.num_ids →
          (arr_get r.smmu.s2crs (fwspec_smendx fw j)).type =
            arm_smmu_s2cr_type.S2CR_TYPE_TRANS ∧
          (arr_get r.smmu.s2crs (fwspec_smendx fw j)).cbndx = r.smmu_domain.cfg.cbndx) ∧
        (∀ x ∈ r.written, (∃ j, j < fw.num_ids ∧ x = fwspec_smendx fw j) ∧
          ¬ ((arr_get smmu.s2crs x).type = arm_smmu_s2cr_type.S2CR_TYPE_TRANS ∧
            (arr_get smmu.s2crs x).cbndx = r.smmu_domain.cfg.cbndx)) ∧
        (∀ j, j < fw.num_ids →
          ¬ ((arr_get smmu.s2crs (fwspec_smendx fw j)).type =
              arm_smmu_s2cr_type.S2CR_TYPE_TRANS ∧
            (arr_get smmu.s2crs (fwspec_smendx fw j)).cbndx = r.smmu_domain.cfg.cbndx) →
          fwspec_smendx fw j ∈ r.written) ∧
        (∀ (fuel1 : Nat) (pgtbl1 : Option (Nat × Nat)) (irq_ret1 : Int),
          arm_smmu_attach_dev kc fuel1 r.smmu_domain (some fw) true p r.smmu pgtbl1 irq_ret1 =
            some { ret := 0, smmu_domain := r.smmu_domain, smmu := r.smmu, written := [] })) := by
  obtain ⟨ri, hri, hs2⟩ := init_domain_context_total kc fuel d p smmu pgtbl irq_ret
  have hA : d.smmu = some p → ri.ret = 0 ∧ ri.smmu_domain = d := by
    intro hb
    have h := init_domain_context_bound kc (fuel + 1) d p smmu pgtbl irq_ret p hb
    rw [hri] at h
    have hr := Option.some.inj h
    rw [hr]
    exact ⟨rfl, rfl⟩
  have hB : d.smmu = none →
      resolve_fmt kc smmu.features (resolve_stage smmu.features d.stage) d.cfg.fmt ≠
        arm_smmu_context_fmt.ARM_SMMU_CTX_FMT_NONE →
      find_next_zero_bit smmu.context_map smmu.num_context_banks
        (setup_stage smmu (resolve_stage smmu.features d.stage)
          (resolve_fmt kc smmu.features (resolve_stage smmu.features d.stage)
            d.cfg.fmt)).start ≠ smmu.num_context_banks →
      pgtbl ≠ none → ri.ret = 0 ∧ ri.smmu_domain.smmu = some p := by
    intro hu hf hb hpg
    obtain ⟨r1, hr1, h0, hp1⟩ :=
      init_domain_context_succeeds kc fuel d p smmu pgtbl irq_ret hu hf hb hpg
    rw [hri] at hr1
    have hr := Option.some.inj hr1
    rw [hr]
    exact ⟨h0, hp1⟩
  unfold arm_smmu_attach_dev
  simp only [Bool.true_eq_false, if_false, hri]
  by_cases hneg : ri.ret < 0
  · simp only [hneg, if_true]
    refine ⟨_, rfl, fun hb => ?_, fun hu hf hb hpg => ?_, fun h0 => ?_⟩
    · have := (hA hb).1
      omega
    · have := (hB hu hf hb hpg).1
      omega
    · have h0a : ri.ret = 0 := h0
      omega
  · simp only [hneg, if_false]
    by_cases hp : ri.smmu_domain.smmu = some p
    · simp only [hp, ne_eq, not_true_eq_false, if_false]
      refine ⟨_, rfl, fun hb => ⟨rfl, (hA hb).2⟩, fun _ _ _ _ => ⟨rfl, hp⟩, fun _ => ?_⟩
      have hwf1 : ∀ j, 0 ≤ j → j < 0 + fw.num_ids →
          0 ≤ fwspec_smendx fw j ∧ fwspec_smendx fw j < ri.smmu.s2crs.length := by
        intro j _ hj
        rw [hs2]
        exact hwf j (by omega)
      obtain ⟨_, hroutes⟩ := domain_add_master_loop_routes ri.smmu_domain.cfg.cbndx fw
        fw.num_ids 0 ri.smmu []
      have hr1 := hroutes hwf1
      obtain ⟨_, hwrites⟩ := domain_add_master_loop_writes ri.smmu_domain.cfg.cbndx fw
        fw.num_ids 0 ri.smmu []
      have hw1 := hwrites hwf1
      refine ⟨fun j hj => hr1 j (Nat.zero_le _) (by omega), ?_, ?_, ?_⟩
      · intro x hx
        rcases domain_add_master_loop_written ri.smmu_domain.cfg.cbndx fw fw.num_ids 0
          ri.smmu [] x hx with h | ⟨⟨j, _, h2, h3⟩, h4⟩
        · cases h
        · rw [hs2] at h4
          exact ⟨⟨j, by omega, h3⟩, h4⟩
      · intro j hj hnm
        rw [← hs2] at hnm
        exact hw1 j (Nat.zero_le _) (by omega) hnm
      · intro fuel1 pgtbl1 irq_ret1
        simp only []
        rw [init_domain_context_bound kc fuel1 ri.smmu_domain p _ pgtbl1 irq_ret1 p hp]
        have h0 : ¬ ((0 : Int) < 0) := by decide
        simp only [h0, if_false, hp, ne_eq, not_true_eq_false, arm_smmu_domain_add_master]
        rw [domain_add_master_loop_skip ri.smmu_domain.cfg.cbndx fw fw.num_ids 0 _ []
          (fun j h1 h2 => hr1 j h1 h2)]
    · simp only [ne_eq, hp, not_false_eq_true, if_true]
      refine ⟨_, rfl, fun hb => ?_, fun hu hf hb hpg => ?_, fun h0 => ?_⟩
      · have h := (hA hb).2
        rw [h] at hp
        exact absurd hb hp
      · exact absurd (hB hu hf hb hpg).2 hp
      · exact absurd h0 neg_EINVAL_ne_zero

/-- Witness for `attach_dev_programs_routing`: a fresh stage-1 domain and a device with
the slots 0 and 1 on `sample_smmu 4`. The attach returns 0, binds the domain, writes
the S2CRs of slot 0 and slot 1, and both slots then translate through the bank of the
domain. -/
theorem attach_dev_programs_routing_witness :
    ∃ r, arm_smmu_attach_dev sample_kconfig (0 + 1)
        (fresh_domain arm_smmu_domain_stage.ARM_SMMU_DOMAIN_S1)
        (some { ids := [0x10, 0x20], iommu_priv := { smendx := [0, 1] } }) true 0x1000
        (sample_smmu 4) (some (7, 0x1000)) 0 = some r ∧
      r.ret = 0 ∧ r.smmu_domain.smmu = some 0x1000 ∧
      (0 : Int) ∈ r.written ∧ (1 : Int) ∈ r.written ∧
      ∀ j, j < 2 →
        (arr_get r.smmu.s2crs (fwspec_smendx
          { ids := [0x10, 0x20], iommu_priv := { smendx := [0, 1] } } j)).type =
          arm_smmu_s2cr_type.S2CR_TYPE_TRANS ∧
        (arr_get r.smmu.s2crs (fwspec_smendx
          { ids := [0x10, 0x20], iommu_priv := { smendx := [0, 1] } } j)).cbndx =
          r.smmu_domain.cfg.cbndx :=
  match attach_dev_programs_routing sample_kconfig 0
    (fresh_domain arm_smmu_domain_stage.ARM_SMMU_DOMAIN_S1)
    { ids := [0x10, 0x20], iommu_priv := { smendx := [0, 1] } } 0x1000 (sample_smmu 4)
    (some (7, 0x1000)) 0
    (fun j hj => by
      have hj2 : j < 2 := hj
      have h : j = 0 ∨ j = 1 := by omega
      rcases h with h | h <;> subst h <;> decide) with
  | ⟨r, hr, _, hB, hC⟩ =>
    have h0 := hB rfl (by decide) (by decide) (by decide)
    ⟨r, hr, h0.1, h0.2,
      (hC h0.1).2.2.1 0 (by decide) (fun h => absurd h.1 (by decide)),
      (hC h0.1).2.2.1 1 (by decide) (fun h => absurd h.1 (by decide)),
      (hC h0.1).1⟩

/-! ## The routing-entry invariant -/

theorem direct_add_device_0xffff (db : Bool) (smmu : arm_smmu_device) (n : Nat)
    (env : add_device_env) (hn : 65535 < n) (hsm : smmu.smrs = none)
    (hs2 : smmu.s2crs = List.replicate n (s2cr_init_val db))
    (hchk : add_device_check_ids smmu [0xffff] = true)
    (hcfg : env.cfg_alloc_ok = true) (hpg : env.pm_get_err = false)
    (hpp : env.pm_put_err = false) (hg : env.group_ptr = 5) :
    (arm_smmu_add_device db smmu (add_device_lookup.generic [0xffff]) env).1 = 0 ∧
    (arm_smmu_add_device db smmu (add_device_lookup.generic [0xffff]) env).2.2 =
      some { ids := [0xffff], iommu_priv := { smendx := [INVALID_SMENDX] } } ∧
    arr_get (arm_smmu_add_device db smmu (add_device_lookup.generic [0xffff]) env).2.1.s2crs
      ((65535 : Nat) : Int) = { (s2cr_init_val db) with count := 1 } := by
  obtain ⟨h1, h2, h3⟩ := direct_alloc_0xffff db smmu 5 hsm
  have hret : (arm_smmu_master_alloc_smes db smmu (fresh_fwspec [0xffff]) 5).1 = 0 := by
    rw [h1]; decide
  have hadd : arm_smmu_add_device db smmu (add_device_lookup.generic [0xffff]) env =
      (0, (arm_smmu_master_alloc_smes db smmu (fresh_fwspec [0xffff]) 5).2.1,
        some (arm_smmu_master_alloc_smes db smmu (fresh_fwspec [0xffff]) 5).2.2) := by
    simp only [arm_smmu_add_device, add_device_found, hchk, hcfg, hpg, hpp, hg, hret,
      Bool.true_eq_false, Bool.false_eq_true, if_false, ne_eq, not_true_eq_false]
  rw [hadd]
  refine ⟨rfl, ?_, ?_⟩
  · simp only [h3]
  · simp only [h2, hs2]
    rw [arr_get_arr_set_nat _ _ _ _ (by rw [List.length_replicate]; exact hn), if_pos rfl,
      arr_get_replicate n 65535 _ hn]
    rfl

/-- C11. The routing-entry invariant fails on a stream-indexing controller with
extended stream IDs: from the probed table (every S2CR equal to `s2cr_init_val`), one
completed `arm_smmu_add_device` for a device with the stream ID `0xffff` returns 0 and
leaves slot 65535 with reference count 1 while its type is still the initial default
(Bypass, `disable_bypass` being off) and its group is empty: the group was stored
through the recorded index `(s16)0xffff = -1`, not in the slot. -/
theorem add_device_exids_0xffff_routing_entry :
    sample_exids_smmu.s2crs = List.replicate 65536 (s2cr_init_val false) ∧
    (arm_smmu_add_device false sample_exids_smmu (add_device_lookup.generic [0xffff])
      sample_env).1 = 0 ∧
    (arm_smmu_add_device false sample_exids_smmu (add_device_lookup.generic [0xffff])
      sample_env).2.2 = some { ids := [0xffff], iommu_priv := { smendx := [-1] } } ∧
    (arr_get (arm_smmu_add_device false sample_exids_smmu
      (add_device_lookup.generic [0xffff]) sample_env).2.1.s2crs
      ((65535 : Nat) : Int)).count = 1 ∧
    (arr_get (arm_smmu_add_device false sample_exids_smmu
      (add_device_lookup.generic [0xffff]) sample_env).2.1.s2crs
      ((65535 : Nat) : Int)).type = (s2cr_init_val false).type ∧
    (arr_get (arm_smmu_add_device false sample_exids_smmu
      (add_device_lookup.generic [0xffff]) sample_env).2.1.s2crs
      ((65535 : Nat) : Int)).group = 0 := by
  obtain ⟨h1, h2, h3⟩ := direct_add_device_0xffff false sample_exids_smmu 65536 sample_env
    (by decide) rfl rfl (by decide) rfl rfl rfl rfl
  refine ⟨rfl, h1, h2, ?_, ?_, ?_⟩
  · rw [h3]
  · rw [h3]
  · rw [h3]; rfl

/-! ## Routing entries of a stream-matching controller -/

theorem arr_get_arr_set_eq {α : Type} [Inhabited α] (l : List α) (idx : Int) (k : Nat)
    (v : α) :
    arr_get (arr_set l idx v) (k : Int) = arr_get l (k : Int) ∨
    (idx = (k : Int) ∧ arr_get (arr_set l idx v) (k : Int) = v) := by
  by_cases hx : (k : Int) < l.length
  · rw [arr_get_arr_set_int _ _ _ _ (by omega) hx]
    by_cases h : idx = (k : Int)
    · right; exact ⟨h, by rw [if_pos h]⟩
    · left; rw [if_neg h]
  · left
    rw [arr_get_out_of_bounds l _ (by omega),
      arr_get_out_of_bounds _ _ (by rw [arr_set_length]; omega)]

theorem routing_ok_mono (db : Bool) (smmu : arm_smmu_device) (live live1 : Nat → Nat)
    (hl : ∀ k, k < smmu.num_mapping_groups → 0 < live1 k → 0 < live k)
    (h : routing_ok db smmu live) : routing_ok db smmu live1 := by
  intro k hk
  obtain ⟨h1, h2, h3⟩ := h k hk
  exact ⟨h1, h2, fun hp => h3 (hl k hk hp)⟩

theorem routing_ok_set_s2cr (db : Bool) (smmu : arm_smmu_device) (live : Nat → Nat)
    (idx : Int) (v : arm_smmu_s2cr)
    (hcount : v.count = (arr_get smmu.s2crs idx).count)
    (hgroup : (arr_get smmu.s2crs idx).group ≠ 0 → v.group ≠ 0)
    (hne : ∀ k : Nat, k < smmu.num_mapping_groups → idx = (k : Int) →
      (arr_get smmu.s2crs (k : Int)).count ≠ 0)
    (h : routing_ok db smmu live) : routing_ok db (set_s2cr smmu idx v) live := by
  intro k hk
  have hk1 : k < smmu.num_mapping_groups := hk
  obtain ⟨h1, h2, h3⟩ := h k hk1
  show 0 ≤ (arr_get (arr_set smmu.s2crs idx v) (k : Int)).count ∧
    ((arr_get (arr_set smmu.s2crs idx v) (k : Int)).count = 0 →
      arr_get (arr_set smmu.s2crs idx v) (k : Int) = s2cr_init_val db) ∧
    (0 < live k → (arr_get (arr_set smmu.s2crs idx v) (k : Int)).group ≠ 0)
  rcases arr_get_arr_set_eq smmu.s2crs idx k v with he | ⟨hi, he⟩
  · rw [he]; exact ⟨h1, h2, h3⟩
  · rw [he]
    subst hi
    have hnz := hne k hk1 rfl
    rw [hcount]
    exact ⟨h1, fun h0 => absurd h0 hnz, fun hp => hgroup (h3 hp)⟩

theorem routing_ok_alloc_entry (db : Bool) (smmu smmu1 : arm_smmu_device)
    (fw fw1 : iommu_fwspec) (i : Nat) (live : Nat → Nat)
    (hstep : alloc_smes_entry smmu fw i = Except.ok (smmu1, fw1))
    (h : routing_ok db smmu live) : routing_ok db smmu1 live := by
  obtain ⟨r, _, _, _, _, hn, _, hs⟩ := alloc_smes_entry_fields smmu smmu1 fw fw1 i hstep
  intro k hk
  rw [hn] at hk
  obtain ⟨h1, h2, h3⟩ := h k hk
  rw [hs]
  rcases arr_get_arr_set_eq smmu.s2crs r k
    { (arr_get smmu.s2crs r) with count := (arr_get smmu.s2crs r).count + 1 } with he | ⟨hi, he⟩
  · rw [he]; exact ⟨h1, h2, h3⟩
  · rw [he]
    subst hi
    refine ⟨?_, ?_, h3⟩
    · show 0 ≤ (arr_get smmu.s2crs (k : Int)).count + 1
      omega
    · intro h0
      have h0a : (arr_get smmu.s2crs (k : Int)).count + 1 = 0 := h0
      omega

theorem routing_ok_free_step (db : Bool) (smmu : arm_smmu_device) (fw : iommu_fwspec)
    (c0 : Nat → Nat) (i : Nat) (hi : i < fw.iommu_priv.smendx.length)
    (hwf : smendx_wf smmu.num_mapping_groups fw)
    (hrc : refcount_ok smmu (fun k => c0 k + fw.iommu_priv.smendx.count (k : Int)))
    (h : routing_ok db smmu c0) :
    routing_ok db (arm_smmu_free_sme db smmu (fw.iommu_priv.smendx.getD i 0)).2 c0 := by
  obtain ⟨f1, f2, _⟩ := free_sme_fields db smmu (fw.iommu_priv.smendx.getD i 0)
  have hmem : fw.iommu_priv.smendx.getD i 0 ∈ fw.iommu_priv.smendx := by
    rw [List.getD_eq_getElem?_getD, List.getElem?_eq_getElem hi]
    exact List.getElem_mem _
  intro k hk
  rw [f1] at hk
  obtain ⟨h1, h2, h3⟩ := h k hk
  rw [f2]
  rcases hwf.2 _ hmem with hinv | ⟨hlo, hhi⟩
  · have hneg : fw.iommu_priv.smendx.getD i 0 < 0 := by rw [hinv]; decide
    have hset : ∀ v : arm_smmu_s2cr,
        arr_set smmu.s2crs (fw.iommu_priv.smendx.getD i 0) v = smmu.s2crs :=
      fun v => arr_set_neg _ _ _ hneg
    split <;> rw [hset] <;> exact ⟨h1, h2, h3⟩
  · obtain ⟨k0, hk0⟩ : ∃ k0 : Nat, fw.iommu_priv.smendx.getD i 0 = (k0 : Int) :=
      ⟨(fw.iommu_priv.smendx.getD i 0).toNat, by omega⟩
    have hk0n : k0 < smmu.num_mapping_groups := by omega
    obtain ⟨_, _, l, _, _, hcnt⟩ := hrc
    have hc : (arr_get smmu.s2crs (k0 : Int)).count =
        ((c0 k0 + fw.iommu_priv.smendx.count (k0 : Int) : Nat) : Int) := (hcnt k0 hk0n).1
    push_cast at hc
    have hpos := smendx_count_pos fw.iommu_priv.smendx i k0 hi hk0
    rw [hk0]
    split
    · rename_i hnz
      rcases arr_get_arr_set_eq smmu.s2crs (k0 : Int) k
        { (arr_get smmu.s2crs (k0 : Int)) with
          count := (arr_get smmu.s2crs (k0 : Int)).count - 1 } with he | ⟨hik, he⟩
      · rw [he]; exact ⟨h1, h2, h3⟩
      · rw [he]
        have hkk : k0 = k := by omega
        subst hkk
        refine ⟨?_, ?_, h3⟩
        · show 0 ≤ (arr_get smmu.s2crs (k0 : Int)).count - 1
          omega
        · intro h0
          exact absurd h0 hnz
    · rename_i hz
      rcases arr_get_arr_set_eq smmu.s2crs (k0 : Int) k (s2cr_init_val db) with he | ⟨hik, he⟩
      · rw [he]; exact ⟨h1, h2, h3⟩
      · rw [he]
        have hkk : k0 = k := by omega
        subst hkk
        refine ⟨by cases db <;> decide, fun _ => rfl, fun hp => ?_⟩
        exfalso
        omega

theorem routing_ok_alloc_loop (db : Bool) (live : Nat → Nat) : ∀ (n i : Nat)
    (smmu : arm_smmu_device) (fw : iommu_fwspec),
    routing_ok db smmu live → routing_ok db (alloc_smes_loop n i smmu fw).2.2.1 live := by
  intro n
  induction n with
  | zero =>
    intro i smmu fw h
    exact h
  | succ n ih =>
    intro i smmu fw h
    cases hstep : alloc_smes_entry smmu fw i with
    | error ret =>
      rw [alloc_smes_loop_error n i smmu fw ret hstep]
      exact h
    | ok r =>
      obtain ⟨smmu1, fw1⟩ := r
      rw [alloc_smes_loop_ok n i smmu smmu1 fw fw1 hstep]
      exact ih (i + 1) smmu1 fw1 (routing_ok_alloc_entry db smmu smmu1 fw fw1 i live hstep h)

theorem routing_ok_unwind (db : Bool) (c0 : Nat → Nat) : ∀ (i : Nat)
    (smmu : arm_smmu_device) (fw : iommu_fwspec),
    i ≤ fw.iommu_priv.smendx.length → smendx_wf smmu.num_mapping_groups fw →
    refcount_ok smmu (fun k => c0 k + fw.iommu_priv.smendx.count (k : Int)) →
    routing_ok db smmu c0 →
    routing_ok db (alloc_smes_unwind db i smmu fw).1 c0 := by
  intro i
  induction i with
  | zero =>
    intro smmu fw _ _ _ h
    exact h
  | succ i ih =>
    intro smmu fw hi hwf hrc h
    simp only [alloc_smes_unwind]
    obtain ⟨hstep, hn⟩ := free_step_refcount db smmu fw c0 i (by omega) hwf hrc
    have hwf1 : smendx_wf (arm_smmu_free_sme db smmu
        (fw.iommu_priv.smendx.getD i 0)).2.num_mapping_groups
        (set_smendx fw i INVALID_SMENDX) := by
      rw [hn]
      exact smendx_wf_set _ fw i _ (Or.inl rfl) hwf
    have hlen : (set_smendx fw i INVALID_SMENDX).iommu_priv.smendx.length =
        fw.iommu_priv.smendx.length := by
      simp [set_smendx]
    exact ih _ (set_smendx fw i INVALID_SMENDX) (by rw [hlen]; omega) hwf1 hstep
      (routing_ok_free_step db smmu fw c0 i (by omega) hwf hrc h)

theorem routing_ok_free_loop (db : Bool) (c0 : Nat → Nat) : ∀ (n i : Nat)
    (smmu : arm_smmu_device) (fw : iommu_fwspec),
    fw.iommu_priv.smendx.length = i + n → fw.ids.length = i + n →
    smendx_wf smmu.num_mapping_groups fw →
    refcount_ok smmu (fun k => c0 k + fw.iommu_priv.smendx.count (k : Int)) →
    routing_ok db smmu c0 →
    routing_ok db (master_free_smes_loop db n i smmu fw).1 c0 := by
  intro n
  induction n with
  | zero =>
    intro i smmu fw _ _ _ _ h
    exact h
  | succ n ih =>
    intro i smmu fw hlen hids hwf hrc h
    simp only [master_free_smes_loop]
    have hidx : fwspec_smendx fw i = fw.iommu_priv.smendx.getD i 0 := by
      unfold fwspec_smendx iommu_fwspec.num_ids
      have : ¬ i ≥ fw.ids.length := by omega
      simp only [this, if_false]
    rw [hidx]
    obtain ⟨hstep, hn⟩ := free_step_refcount db smmu fw c0 i (by omega) hwf hrc
    have hwf1 : smendx_wf (arm_smmu_free_sme db smmu
        (fw.iommu_priv.smendx.getD i 0)).2.num_mapping_groups
        (set_smendx fw i INVALID_SMENDX) := by
      rw [hn]
      exact smendx_wf_set _ fw i _ (Or.inl rfl) hwf
    have hlen1 : (set_smendx fw i INVALID_SMENDX).iommu_priv.smendx.length = (i + 1) + n := by
      simp [set_smendx]; omega
    exact ih (i + 1) _ (set_smendx fw i INVALID_SMENDX) hlen1
      (by rw [(set_smendx_fields fw i INVALID_SMENDX).1]; omega) hwf1 hstep
      (routing_ok_free_step db smmu fw c0 i (by omega) hwf hrc h)

theorem fwspec_smendx_slot (fw : iommu_fwspec) (j k : Nat)
    (hlen : fw.iommu_priv.smendx.length = fw.ids.length)
    (h : fwspec_smendx fw j = (k : Int)) :
    j < fw.iommu_priv.smendx.length ∧ fw.iommu_priv.smendx.getD j 0 = (k : Int) := by
  unfold fwspec_smendx iommu_fwspec.num_ids at h
  by_cases hj : j ≥ fw.ids.length
  · simp only [hj, if_true] at h
    have : INVALID_SMENDX = (-1 : Int) := rfl
    omega
  · simp only [hj, if_false] at h
    exact ⟨by omega, h⟩

theorem routing_ok_set_group (db : Bool) (group : Int) (hg : group ≠ 0) (live : Nat → Nat)
    (fw : iommu_fwspec) : ∀ (n i : Nat) (smmu : arm_smmu_device),
    smmu.s2crs.length = smmu.num_mapping_groups →
    (∀ j k : Nat, k < smmu.num_mapping_groups → fwspec_smendx fw j = (k : Int) →
      (arr_get smmu.s2crs (k : Int)).count ≠ 0) →
    routing_ok db smmu live →
    (∀ j k : Nat, k < smmu.num_mapping_groups → j < i → fwspec_smendx fw j = (k : Int) →
      (arr_get smmu.s2crs (k : Int)).group ≠ 0) →
    (alloc_smes_set_group group n i smmu fw).num_mapping_groups = smmu.num_mapping_groups ∧
    routing_ok db (alloc_smes_set_group group n i smmu fw) live ∧
    (∀ j k : Nat, k < smmu.num_mapping_groups → j < i + n →
      fwspec_smendx fw j = (k : Int) →
      (arr_get (alloc_smes_set_group group n i smmu fw).s2crs (k : Int)).group ≠ 0) := by
  intro n
  induction n with
  | zero =>
    intro i smmu _ _ h hset
    exact ⟨rfl, h, hset⟩
  | succ n ih =>
    intro i smmu hlen hcnt h hset
    simp only [alloc_smes_set_group]
    have hn1 : (set_s2cr smmu (fwspec_smendx fw i)
        { (arr_get smmu.s2crs (fwspec_smendx fw i)) with group := group }).num_mapping_groups =
        smmu.num_mapping_groups := rfl
    have hlen1 : (set_s2cr smmu (fwspec_smendx fw i)
        { (arr_get smmu.s2crs (fwspec_smendx fw i)) with group := group }).s2crs.length =
        smmu.num_mapping_groups := by
      rw [← hlen]; exact arr_set_length _ _ _
    have hkeep : ∀ k : Nat, (arr_get (set_s2cr smmu (fwspec_smendx fw i)
        { (arr_get smmu.s2crs (fwspec_smendx fw i)) with group := group }).s2crs
          (k : Int)).count = (arr_get smmu.s2crs (k : Int)).count := by
      intro k
      refine arr_set_keeps_count smmu.s2crs (fwspec_smendx fw i) _ ?_ k
      rfl
    obtain ⟨r1, r2, r3⟩ := ih (i + 1) (set_s2cr smmu (fwspec_smendx fw i)
        { (arr_get smmu.s2crs (fwspec_smendx fw i)) with group := group }) hlen1
      (fun j k hk hj => by rw [hkeep k]; exact hcnt j k hk hj)
      (routing_ok_set_s2cr db smmu live _ _ rfl (fun _ => hg)
        (fun k hk hik => hcnt i k hk hik) h)
      (fun j k hk hj hjk => by
        show (arr_get (arr_set smmu.s2crs (fwspec_smendx fw i)
          { (arr_get smmu.s2crs (fwspec_smendx fw i)) with group := group })
            (k : Int)).group ≠ 0
        by_cases hji : j = i
        · subst hji
          rw [hjk, arr_get_arr_set_int _ _ _ _ (by omega) (by omega), if_pos rfl]
          exact hg
        · rcases arr_get_arr_set_eq smmu.s2crs (fwspec_smendx fw i) k
            { (arr_get smmu.s2crs (fwspec_smendx fw i)) with group := group } with he | ⟨_, he⟩
          · rw [he]; exact hset j k hk (by omega) hjk
          · rw [he]; exact hg)
    refine ⟨r1.trans hn1, r2, fun j k hk hj hjk => ?_⟩
    exact r3 j k hk (by omega) hjk

theorem routing_ok_add_master_loop (db : Bool) (cbndx : Nat) (live : Nat → Nat)
    (fw : iommu_fwspec) : ∀ (n i : Nat) (smmu : arm_smmu_device) (written : List Int),
    (∀ j k : Nat, k < smmu.num_mapping_groups → fwspec_smendx fw j = (k : Int) →
      (arr_get smmu.s2crs (k : Int)).count ≠ 0) →
    routing_ok db smmu live →
    routing_ok db (domain_add_master_loop cbndx fw n i smmu written).1 live := by
  intro n
  induction n with
  | zero =>
    intro i smmu written _ h
    exact h
  | succ n ih =>
    intro i smmu written hcnt h
    simp only [domain_add_master_loop]
    split
    · exact ih (i + 1) smmu written hcnt h
    · have hkeep : ∀ k : Nat, (arr_get (set_s2cr smmu (fwspec_smendx fw i)
          { (arr_get smmu.s2crs (fwspec_smendx fw i)) with
            type := arm_smmu_s2cr_type.S2CR_TYPE_TRANS
            privcfg := arm_smmu_s2cr_privcfg.S2CR_PRIVCFG_DEFAULT
            cbndx := cbndx }).s2crs (k : Int)).count =
          (arr_get smmu.s2crs (k : Int)).count := by
        intro k
        refine arr_set_keeps_count smmu.s2crs (fwspec_smendx fw i) _ ?_ k
        rfl
      exact ih (i + 1) _ _ (fun j k hk hj => by rw [hkeep k]; exact hcnt j k hk hj)
        (routing_ok_set_s2cr db smmu live _ _ rfl (fun hgr => hgr)
          (fun k hk hik => hcnt i k hk hik) h)

theorem alloc_smes_entry_error_neg (smmu : arm_smmu_device) (fw : iommu_fwspec) (i : Nat)
    (ret : Int) (h : alloc_smes_entry smmu fw i = Except.error ret) : ret < 0 := by
  unfold alloc_smes_entry at h
  simp only [] at h
  split at h
  · injection h with h
    rw [← h]; decide
  · split at h
    · rename_i hneg
      injection h with h
      rw [← h]; exact hneg
    · cases h

theorem alloc_smes_loop_error_neg : ∀ (n i : Nat) (smmu : arm_smmu_device)
    (fw : iommu_fwspec) (ret : Int),
    (alloc_smes_loop n i smmu fw).1 = some ret → ret < 0 := by
  intro n
  induction n with
  | zero =>
    intro i smmu fw ret h
    cases h
  | succ n ih =>
    intro i smmu fw ret h
    cases hstep : alloc_smes_entry smmu fw i with
    | error r =>
      rw [alloc_smes_loop_error n i smmu fw r hstep] at h
      injection h with h
      rw [← h]
      exact alloc_smes_entry_error_neg smmu fw i r hstep
    | ok r =>
      obtain ⟨smmu1, fw1⟩ := r
      rw [alloc_smes_loop_ok n i smmu smmu1 fw fw1 hstep] at h
      exact ih (i + 1) smmu1 fw1 ret h

theorem count_pos_getD (l : List Int) (x : Int) (h : 0 < l.count x) :
    ∃ j, j < l.length ∧ l.getD j 0 = x := by
  have hm : x ∈ l := List.count_pos_iff.mp h
  obtain ⟨j, hj, he⟩ := List.getElem_of_mem hm
  refine ⟨j, hj, ?_⟩
  rw [List.getD_eq_getElem?_getD, List.getElem?_eq_getElem hj]
  simp [he]

theorem fwspec_smendx_count_pos (n : Nat) (fw : iommu_fwspec) (j k : Nat)
    (hwf : smendx_wf n fw) (h : fwspec_smendx fw j = (k : Int)) :
    0 < fw.iommu_priv.smendx.count (k : Int) := by
  obtain ⟨hj, hget⟩ := fwspec_smendx_slot fw j k hwf.1 h
  exact smendx_count_pos fw.iommu_priv.smendx j k hj hget

theorem is_err_ne_zero (group : Int) (h : IS_ERR group = true) : group ≠ 0 := by
  unfold IS_ERR at h
  simp only [Bool.and_eq_true, decide_eq_true_eq] at h
  omega

theorem master_alloc_smes_routing_core (db : Bool) (smmu : arm_smmu_device)
    (c0 : Nat → Nat) (ids : List Nat) (group_ptr : Int) (hrc : refcount_ok smmu c0)
    (h : routing_ok db smmu c0) :
    routing_ok db (arm_smmu_master_alloc_smes db smmu (fresh_fwspec ids) group_ptr).2.1 c0 ∧
    ((arm_smmu_master_alloc_smes db smmu (fresh_fwspec ids) group_ptr).1 = 0 →
      ∀ j k : Nat, k < smmu.num_mapping_groups →
        fwspec_smendx (arm_smmu_master_alloc_smes db smmu (fresh_fwspec ids) group_ptr).2.2 j =
          (k : Int) →
        (arr_get (arm_smmu_master_alloc_smes db smmu (fresh_fwspec ids)
          group_ptr).2.1.s2crs (k : Int)).group ≠ 0) := by
  have hlen0 : (fresh_fwspec ids).iommu_priv.smendx.length = 0 + ids.length := by
    simp [fresh_fwspec]
  have h0 : refcount_ok smmu
      (fun k => c0 k + (fresh_fwspec ids).iommu_priv.smendx.count (k : Int)) := by
    apply refcount_ok_congr _ _ _ _ hrc
    intro k _
    rw [smendx_count_zero _ k (fun j hj => fresh_fwspec_all_invalid ids j (by omega))]
    rfl
  obtain ⟨l1, l2, l3, l4, l5, _⟩ := alloc_smes_loop_refcount c0 ids.length 0 smmu
    (fresh_fwspec ids) hlen0 (fresh_fwspec_wf _ ids)
    (fun j _ hj => fresh_fwspec_all_invalid ids j (by omega)) h0
  have lr := routing_ok_alloc_loop db c0 ids.length 0 smmu (fresh_fwspec ids) h
  have lneg := alloc_smes_loop_error_neg ids.length 0 smmu (fresh_fwspec ids)
  have hgne : IS_ERR (if group_ptr == 0 then -ENOMEM else group_ptr) = false →
      (if group_ptr == 0 then -ENOMEM else group_ptr) ≠ 0 := by
    intro hie
    by_cases hz : group_ptr = 0
    · subst hz
      revert hie
      decide
    · have hb : (group_ptr == 0) = false := by simpa using hz
      rw [hb]
      simpa using hz
  unfold arm_smmu_master_alloc_smes
  have hnum : (fresh_fwspec ids).num_ids = ids.length := by
    simp [iommu_fwspec.num_ids, fresh_fwspec]
  rw [hnum]
  rcases hres : alloc_smes_loop ids.length 0 smmu (fresh_fwspec ids) with ⟨ret, i, smmu1, fw1⟩
  rw [hres] at l1 l2 l3 l4 l5 lr lneg
  simp only at l1 l2 l3 l4 l5 lr lneg
  have hidl : fw1.ids.length = ids.length := by rw [l4]; rfl
  have hlen1 : fw1.iommu_priv.smendx.length = ids.length := by rw [l3.1, hidl]
  have hun : routing_ok db (alloc_smes_unwind db i smmu1 fw1).1 c0 :=
    routing_ok_unwind db c0 i smmu1 fw1 (by omega) (l2 ▸ l3) l1 lr
  cases ret with
  | some r =>
    simp only
    refine ⟨hun, fun hr0 => ?_⟩
    have := lneg r rfl
    omega
  | none =>
    simp only
    generalize (if group_ptr == 0 then -ENOMEM else group_ptr) = group at hgne
    by_cases hg : IS_ERR group = true
    · simp only [hg, if_true]
      refine ⟨hun, fun hr0 => absurd hr0 (is_err_ne_zero group hg)⟩
    · have hg1 : IS_ERR group = false := by simpa using hg
      simp only [hg1, Bool.false_eq_true, if_false]
      have hlen2 : smmu1.s2crs.length = smmu1.num_mapping_groups := l1.2.1
      have hcnt : ∀ j k : Nat, k < smmu1.num_mapping_groups →
          fwspec_smendx fw1 j = (k : Int) → (arr_get smmu1.s2crs (k : Int)).count ≠ 0 := by
        intro j k hk hjk
        obtain ⟨_, _, l, _, _, hc⟩ := l1
        have hc1 : (arr_get smmu1.s2crs (k : Int)).count =
            ((c0 k + fw1.iommu_priv.smendx.count (k : Int) : Nat) : Int) := (hc k hk).1
        have hpos := fwspec_smendx_count_pos _ fw1 j k l3 hjk
        rw [hc1]
        push_cast
        omega
      obtain ⟨_, s2, s3⟩ := routing_ok_set_group db group (hgne hg1) c0 fw1 fw1.num_ids 0
        smmu1 hlen2 hcnt lr (fun j k _ hj _ => absurd hj (Nat.not_lt_zero j))
      refine ⟨s2, fun _ j k hk hjk => ?_⟩
      have hj : j < fw1.num_ids := by
        have := (fwspec_smendx_slot fw1 j k l3.1 hjk).1
        unfold iommu_fwspec.num_ids
        omega
      exact s3 j k (by rw [l2]; exact hk) (by omega) hjk

theorem master_alloc_smes_routing (db : Bool) (smmu : arm_smmu_device)
    (c0 : Nat → Nat) (ids : List Nat) (group_ptr : Int) (hrc : refcount_ok smmu c0)
    (h : routing_ok db smmu c0) :
    routing_ok db (arm_smmu_master_alloc_smes db smmu (fresh_fwspec ids) group_ptr).2.1
      (fun k => c0 k + (arm_smmu_master_alloc_smes db smmu (fresh_fwspec ids)
        group_ptr).2.2.iommu_priv.smendx.count (k : Int)) := by
  obtain ⟨a1, a2, _, a4⟩ := master_alloc_smes_refcount db smmu c0 ids group_ptr hrc
  obtain ⟨c1, c2⟩ := master_alloc_smes_routing_core db smmu c0 ids group_ptr hrc h
  intro k hk
  obtain ⟨h1, h2, h3⟩ := c1 k hk
  refine ⟨h1, h2, fun hp => ?_⟩
  by_cases hc0 : 0 < c0 k
  · exact h3 hc0
  · have hcp : 0 < (arm_smmu_master_alloc_smes db smmu (fresh_fwspec ids)
        group_ptr).2.2.iommu_priv.smendx.count (k : Int) := by
      have hp1 : 0 < c0 k + (arm_smmu_master_alloc_smes db smmu (fresh_fwspec ids)
        group_ptr).2.2.iommu_priv.smendx.count (k : Int) := hp
      omega
    obtain ⟨j, hj, hget⟩ := count_pos_getD _ _ hcp
    have hret : (arm_smmu_master_alloc_smes db smmu (fresh_fwspec ids) group_ptr).1 = 0 := by
      by_contra hne
      have hinv := a4 hne j hj
      rw [List.getD_eq_getElem?_getD, hinv] at hget
      have hget1 : INVALID_SMENDX = (k : Int) := hget
      have : INVALID_SMENDX = (-1 : Int) := rfl
      omega
    have hfs : fwspec_smendx (arm_smmu_master_alloc_smes db smmu (fresh_fwspec ids)
        group_ptr).2.2 j = (k : Int) := by
      unfold fwspec_smendx iommu_fwspec.num_ids
      have hnl : ¬ j ≥ (arm_smmu_master_alloc_smes db smmu (fresh_fwspec ids)
          group_ptr).2.2.ids.length := by
        rw [← a2.1]; omega
      simp only [hnl, if_false]
      exact hget
    exact c2 hret j k (by rw [← a1]; exact hk) hfs

theorem master_free_smes_routing (db : Bool) (smmu : arm_smmu_device) (c0 : Nat → Nat)
    (fw : iommu_fwspec) (hwf : smendx_wf smmu.num_mapping_groups fw)
    (hrc : refcount_ok smmu (fun k => c0 k + fw.iommu_priv.smendx.count (k : Int)))
    (h : routing_ok db smmu c0) :
    routing_ok db (arm_smmu_master_free_smes db smmu fw).1 c0 := by
  unfold arm_smmu_master_free_smes iommu_fwspec.num_ids
  exact routing_ok_free_loop db c0 fw.ids.length 0 smmu fw
    (by rw [hwf.1]; omega) (by omega) hwf hrc h

theorem domain_add_master_routing (db : Bool) (cbndx : Nat) (smmu : arm_smmu_device)
    (c : Nat → Nat) (fw : iommu_fwspec) (hrc : refcount_ok smmu c)
    (hcov : ∀ j k : Nat, k < smmu.num_mapping_groups → fwspec_smendx fw j = (k : Int) →
      0 < c k)
    (h : routing_ok db smmu c) :
    routing_ok db (arm_smmu_domain_add_master cbndx smmu fw).1 c := by
  unfold arm_smmu_domain_add_master
  refine routing_ok_add_master_loop db cbndx c fw fw.num_ids 0 smmu [] ?_ h
  intro j k hk hjk
  obtain ⟨_, _, l, _, _, hc⟩ := hrc
  have hc1 := (hc k hk).1
  have hpos := hcov j k hk hjk
  rw [hc1]
  omega

theorem sme_step_routing_ok (db : Bool) (st : sme_state) (op : sme_op) (h : refs_inv st)
    (hr : routing_ok db st.smmu (smendx_refs st.masters)) :
    routing_ok db (sme_step db st op).smmu (smendx_refs (sme_step db st op).masters) := by
  obtain ⟨hrc, hwf⟩ := h
  cases op with
  | add_device ids group_ptr =>
    obtain ⟨_, _, _, a4⟩ := master_alloc_smes_refcount db st.smmu _ ids group_ptr hrc
    have hm := master_alloc_smes_routing db st.smmu _ ids group_ptr hrc hr
    simp only [sme_step]
    by_cases hret : (arm_smmu_master_alloc_smes db st.smmu (fresh_fwspec ids) group_ptr).1 = 0
    · simp only [hret, if_true]
      refine routing_ok_mono db _ _ _ (fun k _ hp => ?_) hm
      rw [smendx_refs_append] at hp
      exact hp
    · simp only [hret, if_false]
      refine routing_ok_mono db _ _ _ (fun k _ hp => ?_) hm
      show 0 < smendx_refs st.masters k + _
      omega
  | remove_device p =>
    simp only [sme_step]
    cases hget : st.masters.get? p with
    | none => exact hr
    | some fw =>
      simp only
      have hget1 : st.masters[p]? = some fw := by simpa using hget
      have hmem : fw ∈ st.masters := List.getElem?_mem hget1
      have hrc1 : refcount_ok st.smmu (fun k => smendx_refs (st.masters.eraseIdx p) k +
          fw.iommu_priv.smendx.count (k : Int)) := by
        apply refcount_ok_congr _ _ _ _ hrc
        intro k _
        exact smendx_refs_eraseIdx st.masters p fw k hget1
      refine master_free_smes_routing db st.smmu _ fw (hwf fw hmem) hrc1 ?_
      refine routing_ok_mono db _ _ _ (fun k _ hp => ?_) hr
      rw [smendx_refs_eraseIdx st.masters p fw k hget1]
      omega
  | attach_dev p cbndx =>
    simp only [sme_step]
    cases hget : st.masters.get? p with
    | none => exact hr
    | some fw =>
      simp only
      have hget1 : st.masters[p]? = some fw := by simpa using hget
      have hmem : fw ∈ st.masters := List.getElem?_mem hget1
      refine domain_add_master_routing db cbndx st.smmu _ fw hrc ?_ hr
      intro j k hk hjk
      have hpos := fwspec_smendx_count_pos _ fw j k (hwf fw hmem) hjk
      rw [smendx_refs_eraseIdx st.masters p fw k hget1]
      omega

theorem sme_run_routing_ok (db : Bool) : ∀ (ops : List sme_op) (st : sme_state),
    refs_inv st → routing_ok db st.smmu (smendx_refs st.masters) →
    routing_ok db (sme_run db st ops).smmu (smendx_refs (sme_run db st ops).masters) := by
  intro ops
  induction ops with
  | nil =>
    intro st _ hr
    exact hr
  | cons op ops ih =>
    intro st h hr
    exact ih (sme_step db st op) (sme_step_refs_inv db st op h).1
      (sme_step_routing_ok db st op h hr)

theorem probed_routing_ok (db : Bool) (smmu : arm_smmu_device)
    (h : probed_stream_matching db smmu) : routing_ok db smmu (smendx_refs []) := by
  obtain ⟨_, _, hs2⟩ := h
  intro k hk
  rw [hs2, arr_get_replicate _ _ _ hk]
  refine ⟨by cases db <;> decide, fun _ => rfl, fun hp => ?_⟩
  rw [smendx_refs_nil] at hp
  omega

/-- On a stream-matching controller (fewer than 2^15 groups) the routing-entry
invariant holds: in every state reached from the probed tables by calls of
`arm_smmu_master_alloc_smes` (with any group outcome), `arm_smmu_master_free_smes` and
`arm_smmu_domain_add_master`, a slot has reference count 0 if and only if its type is
the initial default and its group is empty. -/
theorem sme_run_routing_entries (db : Bool) (smmu : arm_smmu_device) (ops : List sme_op)
    (hp : probed_stream_matching db smmu) (k : Nat) (hk : k < smmu.num_mapping_groups) :
    ((arr_get (sme_run db { smmu := smmu, masters := [] } ops).smmu.s2crs (k : Int)).count = 0 ↔
      (arr_get (sme_run db { smmu := smmu, masters := [] } ops).smmu.s2crs (k : Int)).type =
        (s2cr_init_val db).type ∧
      (arr_get (sme_run db { smmu := smmu, masters := [] } ops).smmu.s2crs (k : Int)).group =
        0) := by
  obtain ⟨hinv, hn⟩ := sme_run_refs_inv db ops { smmu := smmu, masters := [] }
    (probed_refs_inv db smmu hp)
  have hr := sme_run_routing_ok db ops { smmu := smmu, masters := [] }
    (probed_refs_inv db smmu hp) (probed_routing_ok db smmu hp)
  have hk1 : k < (sme_run db { smmu := smmu, masters := [] } ops).smmu.num_mapping_groups := by
    rw [hn]; exact hk
  obtain ⟨_, h2, h3⟩ := hr k hk1
  obtain ⟨⟨_, _, l, _, _, hc⟩, _⟩ := hinv
  have hc1 := (hc k hk1).1
  constructor
  · intro h0
    rw [h2 h0]
    exact ⟨rfl, rfl⟩
  · rintro ⟨_, hg⟩
    by_contra hne
    have hpos : 0 < smendx_refs (sme_run db { smmu := smmu, masters := [] } ops).masters k := by
      rw [hc1] at hne
      omega
    exact h3 hpos hg

/-! ## Bounded TLB sync -/

theorem tlb_sync_loop_spec (timeout : Nat) (status : Nat → Nat) : ∀ (fuel c : Nat),
    c < timeout → timeout - c ≤ fuel →
    ∃ r, tlb_sync_loop timeout status fuel c c = some r ∧
      c < r.1 ∧ r.1 ≤ timeout ∧
      (∀ j, c ≤ j → j + 1 < r.1 → status j &&& sTLBGSTATUS_GSACTIVE ≠ 0) ∧
      (r.2 = false → status (r.1 - 1) &&& sTLBGSTATUS_GSACTIVE = 0) ∧
      (r.2 = true → r.1 = timeout ∧ status (timeout - 1) &&& sTLBGSTATUS_GSACTIVE ≠ 0) := by
  intro fuel
  induction fuel with
  | zero =>
    intro c hc hf
    omega
  | succ fuel ih =>
    intro c hc hf
    unfold tlb_sync_loop
    by_cases hact : status c &&& sTLBGSTATUS_GSACTIVE ≠ 0
    · rw [if_pos hact]
      by_cases hlast : c + 1 = timeout
      · rw [if_pos hlast]
        refine ⟨_, rfl, Nat.lt_succ_self c, by simp only []; omega, ?_, ?_, ?_⟩
        · intro j h1 h2
          have h2a : j + 1 < c + 1 := h2
          omega
        · intro h; cases h
        · intro _
          refine ⟨hlast, ?_⟩
          have : timeout - 1 = c := by omega
          rw [this]; exact hact
      · rw [if_neg hlast]
        obtain ⟨r, hr, h1, h2, h3, h4, h5⟩ := ih (c + 1) (by omega) (by omega)
        refine ⟨r, hr, by omega, h2, ?_, h4, h5⟩
        intro j hj1 hj2
        by_cases hjc : j = c
        · rw [hjc]; exact hact
        · exact h3 j (by omega) hj2
    · rw [if_neg hact]
      refine ⟨_, rfl, Nat.lt_succ_self c, by simp only []; omega, ?_, ?_, ?_⟩
      · intro j h1 h2
        have h2a : j + 1 < c + 1 := h2
        omega
      · intro _
        have : ¬ ¬ (status c &&& sTLBGSTATUS_GSACTIVE = 0) := hact
        simpa using this
      · intro h; cases h

/-- C26. For every `TLB_LOOP_TIMEOUT > 0` and every sequence of values of the status
register, `__arm_smmu_tlb_sync` returns (with fuel for `TLB_LOOP_TIMEOUT` iterations):
it has written the sync command once, read the status register at least once and at
most `TLB_LOOP_TIMEOUT` times, every read before the last one showed the active bit
set, and either the last read showed it clear, or the function has read
`TLB_LOOP_TIMEOUT` times and gives up; so it returns at the first read that shows the
bit clear. -/
theorem tlb_sync_bounded (timeout : Nat) (status : Nat → Nat) (fuel : Nat)
    (ht : 0 < timeout) (hf : timeout ≤ fuel) :
    ∃ r, __arm_smmu_tlb_sync timeout status fuel = some r ∧
      r.sync_writes = [0] ∧ 1 ≤ r.reads ∧ r.reads ≤ timeout ∧
      (∀ j, j + 1 < r.reads → status j &&& sTLBGSTATUS_GSACTIVE ≠ 0) ∧
      (r.timed_out = false → status (r.reads - 1) &&& sTLBGSTATUS_GSACTIVE = 0) ∧
      (r.timed_out = true → r.reads = timeout) ∧
      (∀ k, k < timeout → (∀ j, j < k → status j &&& sTLBGSTATUS_GSACTIVE ≠ 0) →
        status k &&& sTLBGSTATUS_GSACTIVE = 0 → r.reads = k + 1 ∧ r.timed_out = false) := by
  obtain ⟨r, hr, h1, h2, h3, h4, h5⟩ := tlb_sync_loop_spec timeout status fuel 0 ht (by omega)
  unfold __arm_smmu_tlb_sync
  rw [hr]
  refine ⟨_, rfl, rfl, h1, h2, fun j hj => h3 j (Nat.zero_le _) hj, h4, fun h => (h5 h).1, ?_⟩
  intro k hk hbefore hclear
  show r.1 = k + 1 ∧ r.2 = false
  have hle : r.1 ≤ k + 1 := by
    by_contra hgt
    exact h3 k (Nat.zero_le _) (by omega) hclear
  cases hto : r.2 with
  | false =>
    refine ⟨?_, rfl⟩
    by_contra hne
    have hlt : r.1 - 1 < k := by omega
    exact hbefore (r.1 - 1) hlt (h4 hto)
  | true =>
    obtain ⟨e1, e2⟩ := h5 hto
    exfalso
    have hk1 : timeout - 1 = k := by omega
    rw [hk1] at e2
    exact e2 hclear

theorem tlb_sync_bounded_witness :
    ∃ r, __arm_smmu_tlb_sync 5 (fun _ => 1) 5 = some r ∧
      r.sync_writes = [0] ∧ 1 ≤ r.reads ∧ r.reads ≤ 5 :=
  match tlb_sync_bounded 5 (fun _ => 1) 5 (by decide) (by decide) with
  | ⟨r, hr, h1, h2, h3, _⟩ => ⟨r, hr, h1, h2, h3⟩

/-! ## Translation through the hardware and through the backend -/

theorem testBit_GENMASK_39_12 (i : Nat) :
    (GENMASK_ULL 39 12).testBit i = (decide (12 ≤ i) && decide (i < 40)) := by
  unfold GENMASK_ULL
  rw [Nat.testBit_xor, Nat.testBit_two_pow_sub_one, Nat.testBit_two_pow_sub_one]
  by_cases h1 : i < 12 <;> by_cases h2 : i < 40 <;> simp [h1, h2] <;> omega

theorem testBit_0xfff (i : Nat) : (0xfff : Nat).testBit i = decide (i < 12) := by
  have h : (0xfff : Nat) = 2 ^ 12 - 1 := by decide
  rw [h, Nat.testBit_two_pow_sub_one]

theorem par_reassembled_testBit (par iova i : Nat) :
    ((par &&& GENMASK_ULL 39 12) ||| (iova &&& 0xfff)).testBit i =
      if i < 12 then iova.testBit i else if i < 40 then par.testBit i else false := by
  rw [Nat.testBit_or, Nat.testBit_and, Nat.testBit_and, testBit_GENMASK_39_12, testBit_0xfff]
  by_cases h1 : i < 12
  · simp [h1]
  · by_cases h2 : i < 40
    · have h3 : 12 ≤ i := by omega
      simp [h1, h2, h3]
    · simp [h1, h2]

theorem par_reassembled_lt (par iova : Nat) :
    (par &&& GENMASK_ULL 39 12) ||| (iova &&& 0xfff) < 2 ^ 40 := by
  apply Nat.lt_pow_two_of_testBit
  intro i hi
  rw [par_reassembled_testBit]
  have h1 : ¬ i < 12 := by omega
  have h2 : ¬ i < 40 := by omega
  simp [h1, h2]

/-- The result of `arm_smmu_iova_to_phys_hard` when `phys_addr_t` has at least 40 bits:
nothing of `(par & GENMASK_ULL(39, 12)) | (iova & 0xfff)` is cut off. -/
theorem iova_to_phys_hard_wide (kc : kconfig) (phys_addr_bits : Nat)
    (smmu : arm_smmu_device) (sw_walk : Nat → Nat) (iova par : Nat)
    (hp : 40 ≤ phys_addr_bits) :
    (arm_smmu_iova_to_phys_hard kc phys_addr_bits smmu sw_walk iova true par).ret =
      sw_walk iova ∧
    (par &&& CB_PAR_F ≠ 0 →
      (arm_smmu_iova_to_phys_hard kc phys_addr_bits smmu sw_walk iova false par).ret = 0) ∧
    (par &&& CB_PAR_F = 0 →
      (arm_smmu_iova_to_phys_hard kc phys_addr_bits smmu sw_walk iova false par).ret =
        (par &&& GENMASK_ULL 39 12) ||| (iova &&& 0xfff) ∧
      ∀ i, (arm_smmu_iova_to_phys_hard kc phys_addr_bits smmu sw_walk iova false
          par).ret.testBit i =
        if i < 12 then iova.testBit i else if i < 40 then par.testBit i else false) := by
  have hlt : (par &&& GENMASK_ULL 39 12) ||| (iova &&& 0xfff) < 2 ^ phys_addr_bits :=
    Nat.lt_of_lt_of_le (par_reassembled_lt par iova) (Nat.pow_le_pow_right (by decide) hp)
  refine ⟨rfl, ?_, ?_⟩
  · intro hf
    simp only [arm_smmu_iova_to_phys_hard, Bool.false_eq_true, if_false, hf, ne_eq,
      not_false_eq_true, if_true]
  · intro hf
    have hret : (arm_smmu_iova_to_phys_hard kc phys_addr_bits smmu sw_walk iova false
        par).ret = (par &&& GENMASK_ULL 39 12) ||| (iova &&& 0xfff) := by
      simp only [arm_smmu_iova_to_phys_hard, Bool.false_eq_true, if_false, hf, ne_eq,
        not_true_eq_false, Nat.mod_eq_of_lt hlt]
    refine ⟨hret, fun i => ?_⟩
    rw [hret, par_reassembled_testBit]

/-- C21 (counterexample). With a 32-bit `phys_addr_t` (a 32-bit kernel without LPAE), the
result register value `0x100005000` and `iova = 0x1234`, the poll having completed and
the fault bit being clear, `arm_smmu_iova_to_phys_hard` returns `0x5234`, not
`(PAR & bits[39:12]) | (iova & 0xfff) = 0x100005234`: bit 32 does not fit the return
type. -/
theorem iova_to_phys_hard_cut_to_32_bits :
    0x100005000 &&& CB_PAR_F = 0 ∧
    (arm_smmu_iova_to_phys_hard sample_kconfig_v7s 32 sample_ats_smmu (fun _ => 0) 0x1234
      false 0x100005000).ret = 0x5234 ∧
    (0x100005000 &&& GENMASK_ULL 39 12) ||| (0x1234 &&& 0xfff) = 0x100005234 := by
  decide

/-- C21 (amended). For every width of `phys_addr_t`, every `iova` and every value `par`
read from the result register: `arm_smmu_iova_to_phys_hard` returns the result of the
software walk `ops->iova_to_phys(iova)` when the poll timed out; otherwise 0 when
`CB_PAR_F` is set in `par`; otherwise `(par & GENMASK_ULL(39, 12)) | (iova & 0xfff)`
truncated to the width of `phys_addr_t`: below that width bits 0..11 are those of
`iova` and bits 12..39 those of `par`, every other bit is clear, and with a
`phys_addr_t` of at least 40 bits nothing is cut off. -/
theorem iova_to_phys_hard_result_in_phys_addr_t (kc : kconfig) (phys_addr_bits : Nat)
    (smmu : arm_smmu_device) (sw_walk : Nat → Nat) (iova par : Nat) :
    (arm_smmu_iova_to_phys_hard kc phys_addr_bits smmu sw_walk iova true par).ret =
      sw_walk iova ∧
    (par &&& CB_PAR_F ≠ 0 →
      (arm_smmu_iova_to_phys_hard kc phys_addr_bits smmu sw_walk iova false par).ret = 0) ∧
    (par &&& CB_PAR_F = 0 →
      (arm_smmu_iova_to_phys_hard kc phys_addr_bits smmu sw_walk iova false par).ret =
        ((par &&& GENMASK_ULL 39 12) ||| (iova &&& 0xfff)) % 2 ^ phys_addr_bits ∧
      (∀ i, (arm_smmu_iova_to_phys_hard kc phys_addr_bits smmu sw_walk iova false
          par).ret.testBit i =
        (decide (i < phys_addr_bits) &&
          if i < 12 then iova.testBit i else if i < 40 then par.testBit i else false)) ∧
      (40 ≤ phys_addr_bits →
        (arm_smmu_iova_to_phys_hard kc phys_addr_bits smmu sw_walk iova false par).ret =
          (par &&& GENMASK_ULL 39 12) ||| (iova &&& 0xfff))) := by
  refine ⟨rfl, ?_, ?_⟩
  · intro hf
    simp only [arm_smmu_iova_to_phys_hard, Bool.false_eq_true, if_false, hf, ne_eq,
      not_false_eq_true, if_true]
  · intro hf
    have hret : (arm_smmu_iova_to_phys_hard kc phys_addr_bits smmu sw_walk iova false
        par).ret = ((par &&& GENMASK_ULL 39 12) ||| (iova &&& 0xfff)) % 2 ^ phys_addr_bits := by
      simp only [arm_smmu_iova_to_phys_hard, Bool.false_eq_true, if_false, hf, ne_eq,
        not_true_eq_false]
    refine ⟨hret, fun i => ?_, fun hp => ?_⟩
    · rw [hret, Nat.testBit_mod_two_pow, par_reassembled_testBit]
    · rw [hret]
      exact Nat.mod_eq_of_lt (Nat.lt_of_lt_of_le (par_reassembled_lt par iova)
        (Nat.pow_le_pow_right (by decide) hp))

/-- Witness for `iova_to_phys_hard_result_in_phys_addr_t`: a 64-bit `phys_addr_t` keeps
the whole reassembled address, a 32-bit one keeps its low 32 bits. -/
theorem iova_to_phys_hard_result_in_phys_addr_t_witness :
    (arm_smmu_iova_to_phys_hard sample_kconfig 64 sample_ats_smmu (fun _ => 0) 0x1234 false
      0x100005000).ret = (0x100005000 &&& GENMASK_ULL 39 12) ||| (0x1234 &&& 0xfff) ∧
    (arm_smmu_iova_to_phys_hard sample_kconfig_v7s 32 sample_ats_smmu (fun _ => 0) 0x1234
      false 0x100005000).ret =
        ((0x100005000 &&& GENMASK_ULL 39 12) ||| (0x1234 &&& 0xfff)) % 2 ^ 32 :=
  ⟨((iova_to_phys_hard_result_in_phys_addr_t sample_kconfig 64 sample_ats_smmu (fun _ => 0)
      0x1234 0x100005000).2.2 (by decide)).2.2 (by decide),
   ((iova_to_phys_hard_result_in_phys_addr_t sample_kconfig_v7s 32 sample_ats_smmu
      (fun _ => 0) 0x1234 0x100005000).2.2 (by decide)).1⟩

theorem io_pgtable_map_then_walk (pt pt1 : io_pgtable) (iova paddr size x : Nat)
    (hmap : pt.map iova paddr size = (0, pt1)) (h1 : iova ≤ x) (h2 : x < iova + size) :
    pt1.iova_to_phys x = paddr + (x - iova) := by
  unfold io_pgtable.map at hmap
  split at hmap
  · have h : (-ERANGE : Int) = 0 := congrArg Prod.fst hmap
    exact absurd h (by decide)
  · split at hmap
    · have h : (-EEXIST : Int) = 0 := congrArg Prod.fst hmap
      exact absurd h (by decide)
    · have hpt := congrArg Prod.snd hmap
      simp only [] at hpt
      rw [← hpt]
      unfold io_pgtable.iova_to_phys
      have hd : decide (iova ≤ x ∧ x < iova + size) = true := by
        simp only [decide_eq_true_eq]; exact ⟨h1, h2⟩
      simp only [List.find?_cons, hd]

theorem par_below_40_reassembled (paddr iova x : Nat)
    (hal : paddr % 4096 = iova % 4096) (h1 : iova ≤ x)
    (hlt : paddr + (x - iova) < 2 ^ 40) :
    (((paddr + (x - iova)) / 4096 * 4096) &&& GENMASK_ULL 39 12) ||| (x &&& 0xfff) =
      paddr + (x - iova) := by
  apply Nat.eq_of_testBit_eq
  intro i
  rw [par_reassembled_testBit]
  have h4096 : (4096 : Nat) = 2 ^ 12 := by decide
  by_cases hi : i < 12
  · rw [if_pos hi]
    have hmod : (paddr + (x - iova)) % 2 ^ 12 = x % 2 ^ 12 := by
      rw [← h4096]; omega
    have e1 := Nat.testBit_mod_two_pow (paddr + (x - iova)) 12 i
    have e2 := Nat.testBit_mod_two_pow x 12 i
    rw [hmod] at e1
    rw [e2] at e1
    simp only [hi, decide_True, Bool.true_and] at e1
    exact e1
  · rw [if_neg hi]
    by_cases h40 : i < 40
    · rw [if_pos h40, h4096, Nat.mul_comm, Nat.testBit_mul_pow_two,
        ← Nat.shiftRight_eq_div_pow, Nat.testBit_shiftRight]
      have hge : i ≥ 12 := by omega
      have hsub : 12 + (i - 12) = i := by omega
      simp only [hge, decide_True, Bool.true_and, hsub]
    · rw [if_neg h40]
      symm
      exact Nat.testBit_lt_two_pow (Nat.lt_of_lt_of_le hlt
        (Nat.pow_le_pow_right (by decide) (by omega)))

/-- Round trip below 2^40: after a successful `arm_smmu_map(iova, paddr, size)` with
`paddr` and `iova` congruent modulo 4096 and `paddr + size <= 2^40`, for every `x` of the
range the software walk returns `paddr + (x - iova)`, and so does
`arm_smmu_iova_to_phys_hard` when the result register holds the page address of
`paddr + (x - iova)`. -/
theorem map_translate_round_trip_below_40 (kc : kconfig) (phys_addr_bits : Nat)
    (smmu : arm_smmu_device) (d : arm_smmu_domain) (pt pt1 : io_pgtable)
    (iova paddr size x : Nat) (hp : 40 ≤ phys_addr_bits)
    (hmap : arm_smmu_map d pt iova paddr size = (0, pt1))
    (hal : paddr % 4096 = iova % 4096) (hlim : paddr + size ≤ 2 ^ 40)
    (h1 : iova ≤ x) (h2 : x < iova + size) :
    pt1.iova_to_phys x = paddr + (x - iova) ∧
    (arm_smmu_iova_to_phys_hard kc phys_addr_bits smmu pt1.iova_to_phys x false
      ((paddr + (x - iova)) / 4096 * 4096)).ret = paddr + (x - iova) := by
  have hmap1 : pt.map iova paddr size = (0, pt1) := by
    unfold arm_smmu_map at hmap
    cases hops : d.pgtbl_ops with
    | none =>
      rw [hops] at hmap
      have h : (-ENODEV : Int) = 0 := congrArg Prod.fst hmap
      exact absurd h (by decide)
    | some o =>
      rw [hops] at hmap
      exact hmap
  refine ⟨io_pgtable_map_then_walk pt pt1 iova paddr size x hmap1 h1 h2, ?_⟩
  have hlt : paddr + (x - iova) < 2 ^ 40 := by omega
  have hf : ((paddr + (x - iova)) / 4096 * 4096) &&& CB_PAR_F = 0 := by
    have h1a : CB_PAR_F = 1 := rfl
    rw [h1a, Nat.and_one_is_mod]
    omega
  rw [((iova_to_phys_hard_wide kc phys_addr_bits smmu pt1.iova_to_phys x
    ((paddr + (x - iova)) / 4096 * 4096) hp).2.2 hf).1]
  exact par_below_40_reassembled paddr iova x hal h1 hlt

/-- C22. The round trip fails on the hardware-assisted path above 2^40. A stage-1
domain is bound on `sample_ats_smmu` (hardware-assisted translation, 48-bit output):
the backend is created with `oas = 48`. `arm_smmu_map(0x1000, 0x10000000000, 0x1000)`
succeeds and the software walk of `0x1000` gives `0x10000000000`; with the result
register holding that page address and no fault, `arm_smmu_iova_to_phys(0x1000)`
returns 0, because bit 40 lies outside `GENMASK_ULL(39, 12)`. -/
theorem map_translate_hard_drops_bit_40 :
    ∃ r f c pt1,
      arm_smmu_init_domain_context sample_kconfig 1
        (fresh_domain arm_smmu_domain_stage.ARM_SMMU_DOMAIN_S1) 0x1000 sample_ats_smmu
        (some (7, 0x1000)) 0 = some r ∧
      r.ret = 0 ∧ r.smmu_domain.stage = arm_smmu_domain_stage.ARM_SMMU_DOMAIN_S1 ∧
      r.pgtbl_request = some (f, c) ∧ c.oas = 48 ∧
      0x10000000000 + 0x1000 ≤ 2 ^ c.oas ∧
      arm_smmu_map r.smmu_domain { cfg := c, maps := [] } 0x1000 0x10000000000 0x1000 =
        (0, pt1) ∧
      pt1.iova_to_phys 0x1000 = 0x10000000000 ∧
      0x10000000000 &&& CB_PAR_F = 0 ∧
      arm_smmu_iova_to_phys sample_kconfig 64 r.smmu_domain r.smmu pt1.iova_to_phys 0x1000
        false 0x10000000000 = 0 := by
  refine ⟨_, _, _, _, rfl, ?_, ?_, rfl, ?_, ?_, rfl, ?_, ?_, ?_⟩ <;> decide

/-! ## Widths, interrupt slot and stage of a bind -/

theorem init_domain_context_request (kc : kconfig) (fuel : Nat) (d : arm_smmu_domain)
    (p : Nat) (smmu : arm_smmu_device) (pgtbl : Option (Nat × Nat)) (irq_ret : Int)
    (hu : d.smmu = none) :
    ∃ r, arm_smmu_init_domain_context kc (fuel + 1) d p smmu pgtbl irq_ret = some r ∧
      (r.pgtbl_request = none ∨
        r.pgtbl_request = some
          ((setup_stage smmu (resolve_stage smmu.features d.stage)
            (resolve_fmt kc smmu.features (resolve_stage smmu.features d.stage)
              d.cfg.fmt)).fmt,
           { pgsize_bitmap := smmu.pgsize_bitmap,
             ias := (setup_stage smmu (resolve_stage smmu.features d.stage)
               (resolve_fmt kc smmu.features (resolve_stage smmu.features d.stage)
                 d.cfg.fmt)).ias,
             oas := (setup_stage smmu (resolve_stage smmu.features d.stage)
               (resolve_fmt kc smmu.features (resolve_stage smmu.features d.stage)
                 d.cfg.fmt)).oas })) ∧
      (r.ret = 0 → r.pgtbl_request ≠ none) := by
  have hs : d.smmu.isSome = false := by rw [hu]; rfl
  unfold arm_smmu_init_domain_context
  simp only [hs, Bool.false_eq_true, if_false]
  by_cases hf : resolve_fmt kc smmu.features (resolve_stage smmu.features d.stage) d.cfg.fmt =
      arm_smmu_context_fmt.ARM_SMMU_CTX_FMT_NONE
  · simp only [hf, if_true]
    exact ⟨_, rfl, Or.inl rfl, fun h => absurd h neg_EINVAL_ne_zero⟩
  · simp only [hf, if_false]
    rw [alloc_bitmap_eq]
    by_cases he : find_next_zero_bit smmu.context_map smmu.num_context_banks
        (setup_stage smmu (resolve_stage smmu.features d.stage)
          (resolve_fmt kc smmu.features (resolve_stage smmu.features d.stage) d.cfg.fmt)).start =
        smmu.num_context_banks
    · simp only [he, if_true]
      have hneg : (-ENOSPC : Int) < 0 := by decide
      simp only [hneg, if_true]
      exact ⟨_, rfl, Or.inl rfl, fun h => absurd h neg_ENOSPC_ne_zero⟩
    · simp only [he, if_false]
      have hnn : ¬ ((find_next_zero_bit smmu.context_map smmu.num_context_banks
        (setup_stage smmu (resolve_stage smmu.features d.stage)
          (resolve_fmt kc smmu.features (resolve_stage smmu.features d.stage) d.cfg.fmt)).start
          : Nat) : Int) < 0 := by omega
      simp only [hnn, if_false]
      cases pgtbl with
      | none =>
        exact ⟨_, rfl, Or.inr rfl, fun h => absurd h neg_ENOMEM_ne_zero⟩
      | some pg =>
        obtain ⟨ops, pgs⟩ := pg
        refine ⟨_, rfl, Or.inr rfl, fun _ h => ?_⟩
        cases h

theorem setup_stage_widths (smmu : arm_smmu_device) (stage : arm_smmu_domain_stage)
    (cfmt : arm_smmu_context_fmt) :
    (stage = arm_smmu_domain_stage.ARM_SMMU_DOMAIN_S1 →
      (cfmt = arm_smmu_context_fmt.ARM_SMMU_CTX_FMT_AARCH64 →
        (setup_stage smmu stage cfmt).ias = smmu.va_size ∧
        (setup_stage smmu stage cfmt).oas = smmu.ipa_size) ∧
      (cfmt = arm_smmu_context_fmt.ARM_SMMU_CTX_FMT_AARCH32_L →
        (setup_stage smmu stage cfmt).ias = min smmu.va_size 32 ∧
        (setup_stage smmu stage cfmt).oas = min smmu.ipa_size 40) ∧
      (cfmt = arm_smmu_context_fmt.ARM_SMMU_CTX_FMT_AARCH32_S →
        (setup_stage smmu stage cfmt).ias = min smmu.va_size 32 ∧
        (setup_stage smmu stage cfmt).oas = min smmu.ipa_size 32)) ∧
    (stage ≠ arm_smmu_domain_stage.ARM_SMMU_DOMAIN_S1 →
      (cfmt = arm_smmu_context_fmt.ARM_SMMU_CTX_FMT_AARCH64 →
        (setup_stage smmu stage cfmt).ias = smmu.ipa_size ∧
        (setup_stage smmu stage cfmt).oas = smmu.pa_size) ∧
      (cfmt ≠ arm_smmu_context_fmt.ARM_SMMU_CTX_FMT_AARCH64 →
        (setup_stage smmu stage cfmt).ias = min smmu.ipa_size 40 ∧
        (setup_stage smmu stage cfmt).oas = min smmu.pa_size 40)) := by
  constructor
  · intro hs
    subst hs
    refine ⟨fun hc => ?_, fun hc => ?_, fun hc => ?_⟩ <;> subst hc <;> exact ⟨rfl, rfl⟩
  · intro hs
    constructor
    · intro hc
      subst hc
      cases stage <;> first | exact absurd rfl hs | exact ⟨rfl, rfl⟩
    · intro hc
      cases stage <;> first
        | exact absurd rfl hs
        | (simp only [setup_stage, hc, if_false]; exact ⟨trivial, trivial⟩)

/-- C23 (counterexample). With 48-bit address sizes: a stage-2 bind in the
AArch32-Long format passes the input width `min(48, 40) = 40` to the backend, not
`min(48, 32) = 32`; a stage-1 bind in the AArch32-Short format passes the output width
`min(48, 32) = 32`, not `min(48, 40) = 40`. -/
theorem pgtbl_widths_not_as_specified :
    sample_s2_aarch32_smmu.ipa_size = 48 ∧ sample_v7s_smmu.ipa_size = 48 ∧
    (∃ r, arm_smmu_init_domain_context sample_kconfig_lpae 1
        (fresh_domain arm_smmu_domain_stage.ARM_SMMU_DOMAIN_S1) 0x1000
        sample_s2_aarch32_smmu (some (7, 0x1000)) 0 = some r ∧
      r.ret = 0 ∧ r.smmu_domain.stage = arm_smmu_domain_stage.ARM_SMMU_DOMAIN_S2 ∧
      r.smmu_domain.cfg.fmt = arm_smmu_context_fmt.ARM_SMMU_CTX_FMT_AARCH32_L ∧
      r.pgtbl_request = some (io_pgtable_fmt.ARM_32_LPAE_S2,
        { pgsize_bitmap := 0x1000, ias := 40, oas := 40 })) ∧
    (∃ r, arm_smmu_init_domain_context sample_kconfig_v7s 1
        (fresh_domain arm_smmu_domain_stage.ARM_SMMU_DOMAIN_S1) 0x1000
        sample_v7s_smmu (some (7, 0x1000)) 0 = some r ∧
      r.ret = 0 ∧ r.smmu_domain.stage = arm_smmu_domain_stage.ARM_SMMU_DOMAIN_S1 ∧
      r.smmu_domain.cfg.fmt = arm_smmu_context_fmt.ARM_SMMU_CTX_FMT_AARCH32_S ∧
      r.pgtbl_request = some (io_pgtable_fmt.ARM_V7S,
        { pgsize_bitmap := 0x1000, ias := 32, oas := 32 })) := by
  refine ⟨rfl, rfl, ⟨_, rfl, ?_, ?_, ?_, ?_⟩, ⟨_, rfl, ?_, ?_, ?_, ?_⟩⟩ <;> decide

/-- C23 (amended). For an unbound domain `arm_smmu_init_domain_context` returns, a
call that returns 0 has handed a configuration to the page-table backend, and the
widths in it are: at stage 1, `va_size` and `ipa_size` unclamped for AArch64,
`min(va_size, 32)` and `min(ipa_size, 40)` for AArch32-Long, `min(va_size, 32)` and
`min(ipa_size, 32)` for AArch32-Short; at stage 2 or nested, `ipa_size` and `pa_size`
unclamped for AArch64, `min(ipa_size, 40)` and `min(pa_size, 40)` for a 32-bit format. -/
theorem init_domain_context_widths (kc : kconfig) (fuel : Nat) (d : arm_smmu_domain)
    (p : Nat) (smmu : arm_smmu_device) (pgtbl : Option (Nat × Nat)) (irq_ret : Int)
    (hu : d.smmu = none) :
    ∃ r, arm_smmu_init_domain_context kc (fuel + 1) d p smmu pgtbl irq_ret = some r ∧
      (r.ret = 0 → ∃ f c, r.pgtbl_request = some (f, c)) ∧
      ∀ f c, r.pgtbl_request = some (f, c) →
        (r.smmu_domain.stage = arm_smmu_domain_stage.ARM_SMMU_DOMAIN_S1 →
          (r.smmu_domain.cfg.fmt = arm_smmu_context_fmt.ARM_SMMU_CTX_FMT_AARCH64 →
            c.ias = smmu.va_size ∧ c.oas = smmu.ipa_size) ∧
          (r.smmu_domain.cfg.fmt = arm_smmu_context_fmt.ARM_SMMU_CTX_FMT_AARCH32_L →
            c.ias = min smmu.va_size 32 ∧ c.oas = min smmu.ipa_size 40) ∧
          (r.smmu_domain.cfg.fmt = arm_smmu_context_fmt.ARM_SMMU_CTX_FMT_AARCH32_S →
            c.ias = min smmu.va_size 32 ∧ c.oas = min smmu.ipa_size 32)) ∧
        (r.smmu_domain.stage ≠ arm_smmu_domain_stage.ARM_SMMU_DOMAIN_S1 →
          (r.smmu_domain.cfg.fmt = arm_smmu_context_fmt.ARM_SMMU_CTX_FMT_AARCH64 →
            c.ias = smmu.ipa_size ∧ c.oas = smmu.pa_size) ∧
          (r.smmu_domain.cfg.fmt ≠ arm_smmu_context_fmt.ARM_SMMU_CTX_FMT_AARCH64 →
            c.ias = min smmu.ipa_size 40 ∧ c.oas = min smmu.pa_size 40)) := by
  obtain ⟨r, hr, hst, hfm, _⟩ := init_domain_context_unbound kc fuel d p smmu pgtbl irq_ret hu
  obtain ⟨r2, hr2, hreq, hsome⟩ := init_domain_context_request kc fuel d p smmu pgtbl irq_ret hu
  have hrr : r2 = r := by
    rw [hr] at hr2
    exact (Option.some.inj hr2).symm
  subst hrr
  rw [← hfm, ← hst] at hreq
  refine ⟨r2, hr, fun h0 => ?_, fun f c hfc => ?_⟩
  · rcases hreq with h | h
    · exact absurd h (hsome h0)
    · exact ⟨_, _, h⟩
  · rcases hreq with h | h
    · rw [h] at hfc; cases hfc
    · rw [h] at hfc
      have hc := (Prod.mk.inj (Option.some.inj hfc)).2
      rw [← hc]
      exact setup_stage_widths smmu r2.smmu_domain.stage r2.smmu_domain.cfg.fmt

theorem init_domain_context_widths_witness :
    ∃ r, arm_smmu_init_domain_context sample_kconfig_v7s (0 + 1)
        (fresh_domain arm_smmu_domain_stage.ARM_SMMU_DOMAIN_S1) 0x1000
        sample_v7s_smmu (some (7, 0x1000)) 0 = some r ∧
      (r.ret = 0 → ∃ f c, r.pgtbl_request = some (f, c)) :=
  match init_domain_context_widths sample_kconfig_v7s 0
    (fresh_domain arm_smmu_domain_stage.ARM_SMMU_DOMAIN_S1) 0x1000
    sample_v7s_smmu (some (7, 0x1000)) 0 rfl with
  | ⟨r, hr, h, _⟩ => ⟨r, hr, h⟩

/-- C24. The interrupt slot of a bind on hardware older than v2 is not the counter
modulo `num_context_irqs`: on an SMMUv1 with three context interrupts, the bind that
raises the counter `irptndx` from 254 to 255 gets slot `255 % 3 = 0`, and the next
bind, which raises it to 256, gets slot 0 again instead of `256 % 3 = 1`, because the
counter is stored in the `u8` member `cfg->irptndx` before the remainder is taken. -/
theorem irptndx_truncated_before_modulo :
    (sample_v1_smmu 254).num_context_irqs = 3 ∧
    (∃ r, arm_smmu_init_domain_context sample_kconfig 1
        (fresh_domain arm_smmu_domain_stage.ARM_SMMU_DOMAIN_S1) 0x1000
        (sample_v1_smmu 254) (some (7, 0x1000)) 0 = some r ∧
      r.ret = 0 ∧ r.smmu.irptndx = 255 ∧ r.smmu_domain.cfg.irptndx = 0) ∧
    (∃ r, arm_smmu_init_domain_context sample_kconfig 1
        (fresh_domain arm_smmu_domain_stage.ARM_SMMU_DOMAIN_S1) 0x1000
        (sample_v1_smmu 255) (some (7, 0x1000)) 0 = some r ∧
      r.ret = 0 ∧ r.smmu.irptndx = 256 ∧ r.smmu_domain.cfg.irptndx = 0 ∧
      256 % (sample_v1_smmu 255).num_context_irqs = 1) := by
  refine ⟨rfl, ⟨_, rfl, ?_, ?_, ?_⟩, ⟨_, rfl, ?_, ?_, ?_, ?_⟩⟩ <;> decide

/-- C27. The eight rows of the stage table, each evaluated by a successful bind of a
fresh domain on a controller with the row's supported stages: seven rows give the
stage of the table, but for a request of Nested on a controller with stage 1 and stage
2 and no nested support the stage member stays Nested, where the table says S2 (the
context bank itself is set up for stage 2, as in the row (N, N)). -/
theorem stage_table_rows :
    sample_bind_stage arm_smmu_domain_stage.ARM_SMMU_DOMAIN_S1
      (ARM_SMMU_FEAT_TRANS_S1 ||| ARM_SMMU_FEAT_TRANS_S2 ||| ARM_SMMU_FEAT_TRANS_NESTED) =
      some (0, arm_smmu_domain_stage.ARM_SMMU_DOMAIN_S1, CBAR_TYPE_S1_TRANS_S2_BYPASS) ∧
    sample_bind_stage arm_smmu_domain_stage.ARM_SMMU_DOMAIN_S1
      (ARM_SMMU_FEAT_TRANS_S1 ||| ARM_SMMU_FEAT_TRANS_S2) =
      some (0, arm_smmu_domain_stage.ARM_SMMU_DOMAIN_S1, CBAR_TYPE_S1_TRANS_S2_BYPASS) ∧
    sample_bind_stage arm_smmu_domain_stage.ARM_SMMU_DOMAIN_S1 ARM_SMMU_FEAT_TRANS_S2 =
      some (0, arm_smmu_domain_stage.ARM_SMMU_DOMAIN_S2, CBAR_TYPE_S2_TRANS) ∧
    sample_bind_stage arm_smmu_domain_stage.ARM_SMMU_DOMAIN_S1 ARM_SMMU_FEAT_TRANS_S1 =
      some (0, arm_smmu_domain_stage.ARM_SMMU_DOMAIN_S1, CBAR_TYPE_S1_TRANS_S2_BYPASS) ∧
    sample_bind_stage arm_smmu_domain_stage.ARM_SMMU_DOMAIN_NESTED
      (ARM_SMMU_FEAT_TRANS_S1 ||| ARM_SMMU_FEAT_TRANS_S2 ||| ARM_SMMU_FEAT_TRANS_NESTED) =
      some (0, arm_smmu_domain_stage.ARM_SMMU_DOMAIN_NESTED, CBAR_TYPE_S2_TRANS) ∧
    sample_bind_stage arm_smmu_domain_stage.ARM_SMMU_DOMAIN_NESTED
      (ARM_SMMU_FEAT_TRANS_S1 ||| ARM_SMMU_FEAT_TRANS_S2) =
      some (0, arm_smmu_domain_stage.ARM_SMMU_DOMAIN_NESTED, CBAR_TYPE_S2_TRANS) ∧
    sample_bind_stage arm_smmu_domain_stage.ARM_SMMU_DOMAIN_NESTED ARM_SMMU_FEAT_TRANS_S2 =
      some (0, arm_smmu_domain_stage.ARM_SMMU_DOMAIN_S2, CBAR_TYPE_S2_TRANS) ∧
    sample_bind_stage arm_smmu_domain_stage.ARM_SMMU_DOMAIN_NESTED ARM_SMMU_FEAT_TRANS_S1 =
      some (0, arm_smmu_domain_stage.ARM_SMMU_DOMAIN_S1, CBAR_TYPE_S1_TRANS_S2_BYPASS) := by
  refine ⟨?_, ?_, ?_, ?_, ?_, ?_, ?_, ?_⟩ <;> decide

/-! ## Reuse of an entry and the order of the table -/

theorem sid_matches_self (id mask : Nat) : sid_matches id id mask := by
  unfold sid_matches
  rw [Nat.xor_self, Nat.zero_and]

theorem reuse_excludes_overlap (id mask : Nat) (e a : arm_smmu_smr)
    (hid : id < 2 ^ 16) (hmask : mask < 2 ^ 16) (he : e.id < 2 ^ 16) (ha : a.id < 2 ^ 16)
    (hr : sme_reuse id mask e) (hd : sme_disjoint e a) :
    ¬ sme_reuse id mask a ∧ ¬ sme_conflict id mask a := by
  have hsub := (reuse_cond_iff id mask e.id e.mask hid hmask he).mp hr
  constructor
  · intro hra
    have hsuba := (reuse_cond_iff id mask a.id a.mask hid hmask ha).mp hra
    exact hd id hid ⟨hsub id hid (sid_matches_self id mask), hsuba id hid (sid_matches_self id mask)⟩
  · intro hca
    obtain ⟨s, hs, h1, h2⟩ := (conflict_cond_iff id mask a.id a.mask hid ha).mp hca
    exact hd s hs ⟨hsub s hs h1, h2⟩

theorem sme_disjoint_of_cond (a b : arm_smmu_smr) (ha : a.id < 2 ^ 16) (hb : b.id < 2 ^ 16)
    (h : (a.id ^^^ b.id) &&& not32 (b.mask ||| a.mask) ≠ 0) : sme_disjoint a b := by
  intro s hs hm
  exact h ((conflict_cond_iff a.id a.mask b.id b.mask ha hb).mpr ⟨s, hs, hm.1, hm.2⟩)

theorem find_sme_loop_reuse_unique (id mask : Nat) (hid : id < 2 ^ 16) (hmask : mask < 2 ^ 16)
    (e : arm_smmu_smr) (hv : e.valid = true) (hr : sme_reuse id mask e) :
    ∀ (l : List arm_smmu_smr) (i0 : Nat) (free_idx : Int),
    smr_disjoint_valid l → (∀ a ∈ l, a.id < 2 ^ 16) → e ∈ l →
    ∃ k : Nat, l[k]? = some e ∧ find_sme_loop id mask l i0 free_idx = ((i0 + k : Nat) : Int) := by
  intro l
  induction l with
  | nil =>
    intro i0 free_idx _ _ hmem
    cases hmem
  | cons a rest ih =>
    intro i0 free_idx hpw h16 hmem
    have hpw1 := List.pairwise_cons.mp hpw
    by_cases hea : e = a
    · subst hea
      refine ⟨0, by simp, ?_⟩
      rw [find_sme_loop_cons_valid id mask e rest i0 free_idx hv, if_pos hr]
      rfl
    · have hrest : e ∈ rest := by
        rcases List.mem_cons.mp hmem with h | h
        · exact absurd h hea
        · exact h
      have h16r : ∀ b ∈ rest, b.id < 2 ^ 16 := fun b hb => h16 b (List.mem_cons_of_mem _ hb)
      cases hva : a.valid with
      | true =>
        have hd : sme_disjoint e a := sme_disjoint_symm (hpw1.1 e hrest hva hv)
        obtain ⟨n1, n2⟩ := reuse_excludes_overlap id mask e a hid hmask
          (h16 e hmem) (h16 a (List.mem_cons_self _ _)) hr hd
        rw [find_sme_loop_cons_valid id mask a rest i0 free_idx hva, if_neg n1, if_neg n2]
        obtain ⟨k, hk1, hk2⟩ := ih (i0 + 1) free_idx hpw1.2 h16r hrest
        refine ⟨k + 1, by simpa using hk1, ?_⟩
        rw [hk2]
        congr 1
        omega
      | false =>
        rw [find_sme_loop_cons_invalid id mask a rest i0 free_idx hva]
        obtain ⟨k, hk1, hk2⟩ := ih (i0 + 1) _ hpw1.2 h16r hrest
        refine ⟨k + 1, by simpa using hk1, ?_⟩
        rw [hk2]
        congr 1
        omega

/-- C28. In a stream-match table (entries with 16-bit IDs) whose valid entries have
pairwise disjoint match sets, when `arm_smmu_find_sme` returns a slot `i` that holds a
valid entry: that entry matches every stream ID of the new pattern, no other valid
entry matches any stream ID of the new pattern, and on every permutation of the table
`arm_smmu_find_sme` returns the slot that holds the same entry. -/
theorem find_sme_reuse_excludes_conflicts (smmu : arm_smmu_device) (l : List arm_smmu_smr)
    (id mask i : Nat) (ei : arm_smmu_smr)
    (hsm : smmu.smrs = some l) (hn : l.length ≤ smmu.num_mapping_groups)
    (hid : id < 2 ^ 16) (hmask : mask < 2 ^ 16) (h16 : ∀ a ∈ l, a.id < 2 ^ 16)
    (hdis : smr_disjoint_valid l)
    (hret : arm_smmu_find_sme smmu id mask = (i : Int))
    (hget : l[i]? = some ei) (hv : ei.valid = true) :
    (∀ s, s < 2 ^ 16 → sid_matches s id mask → sid_matches s ei.id ei.mask) ∧
    (∀ (j : Nat) (ej : arm_smmu_smr), j ≠ i → l[j]? = some ej → ej.valid = true →
      ¬ ∃ s, s < 2 ^ 16 ∧ sid_matches s id mask ∧ sid_matches s ej.id ej.mask) ∧
    (∀ l1 : List arm_smmu_smr, l.Perm l1 →
      ∃ i1 : Nat, arm_smmu_find_sme { smmu with smrs := some l1 } id mask = (i1 : Int) ∧
        l1[i1]? = some ei) := by
  have htake : l.take smmu.num_mapping_groups = l := List.take_of_length_le hn
  have hloop : find_sme_loop id mask l 0 (-ENOSPC) = (i : Int) := by
    have h := hret
    unfold arm_smmu_find_sme at h
    rw [hsm] at h
    simp only [htake] at h
    exact h
  have hmem : ei ∈ l := List.getElem?_mem hget
  have hreuse : sme_reuse id mask ei := by
    obtain ⟨k, e, hk1, hk2, hk3⟩ := find_sme_loop_fresh id mask l 0 (-ENOSPC) (by decide)
      (by rw [hloop]; omega)
    rw [hloop] at hk2
    have hki : k = i := by omega
    subst hki
    rw [hget] at hk1
    have hee : ei = e := Option.some.inj hk1
    subst hee
    rcases hk3 with ⟨_, h⟩ | ⟨h, _⟩
    · exact h
    · rw [hv] at h; cases h
  have hpair := List.pairwise_iff_getElem.mp hdis
  refine ⟨(reuse_cond_iff id mask ei.id ei.mask hid hmask (h16 ei hmem)).mp hreuse, ?_, ?_⟩
  · intro j ej hji hgj hvj hex
    have hil : i < l.length := by
      by_contra hc
      rw [List.getElem?_eq_none (by omega)] at hget
      cases hget
    have hjl : j < l.length := by
      by_contra hc
      rw [List.getElem?_eq_none (by omega)] at hgj
      cases hgj
    have hgi : l[i] = ei := by
      rw [List.getElem?_eq_getElem hil] at hget
      exact Option.some.inj hget
    have hgj1 : l[j] = ej := by
      rw [List.getElem?_eq_getElem hjl] at hgj
      exact Option.some.inj hgj
    have hd : sme_disjoint ei ej := by
      by_cases hlt : i < j
      · have h := hpair i j hil hjl hlt
        rw [hgi, hgj1] at h
        exact h hv hvj
      · have h := hpair j i hjl hil (by omega)
        rw [hgi, hgj1] at h
        exact sme_disjoint_symm (h hvj hv)
    have hmj : ej ∈ l := List.getElem?_mem hgj
    exact (reuse_excludes_overlap id mask ei ej hid hmask (h16 ei hmem) (h16 ej hmj)
      hreuse hd).2 ((conflict_cond_iff id mask ej.id ej.mask hid (h16 ej hmj)).mpr hex)
  · intro l1 hperm
    have hdis1 : smr_disjoint_valid l1 :=
      List.Perm.pairwise hperm hdis (fun h hy hx => sme_disjoint_symm (h hx hy))
    have h161 : ∀ a ∈ l1, a.id < 2 ^ 16 := fun a ha => h16 a (hperm.mem_iff.mpr ha)
    obtain ⟨k, hk1, hk2⟩ := find_sme_loop_reuse_unique id mask hid hmask ei hv hreuse l1 0
      (-ENOSPC) hdis1 h161 (hperm.mem_iff.mp hmem)
    refine ⟨k, ?_, hk1⟩
    unfold arm_smmu_find_sme
    simp only []
    rw [List.take_of_length_le (by rw [← hperm.length_eq]; exact hn), hk2]
    congr 1
    omega

theorem find_sme_reuse_excludes_conflicts_witness :
    ∃ i1 : Nat, arm_smmu_find_sme
        { sample_smmu 2 with smrs := some [{ mask := 0, id := 0x20, valid := true },
            { mask := 0, id := 0x10, valid := true }] } 0x10 0 = (i1 : Int) ∧
      [({ mask := 0, id := 0x20, valid := true } : arm_smmu_smr),
        { mask := 0, id := 0x10, valid := true }][i1]? =
          some { mask := 0, id := 0x10, valid := true } :=
  (find_sme_reuse_excludes_conflicts
    { sample_smmu 2 with smrs := some [{ mask := 0, id := 0x10, valid := true },
        { mask := 0, id := 0x20, valid := true }] }
    [{ mask := 0, id := 0x10, valid := true }, { mask := 0, id := 0x20, valid := true }]
    0x10 0 0 { mask := 0, id := 0x10, valid := true } rfl (by decide) (by decide) (by decide)
    (fun a ha => by
      simp only [List.mem_cons, List.mem_singleton, List.not_mem_nil, or_false] at ha
      rcases ha with h | h <;> rw [h] <;> decide)
    (List.pairwise_cons.mpr ⟨fun b hb _ _ => (by
        simp only [List.mem_singleton] at hb
        rw [hb]
        exact sme_disjoint_of_cond _ _ (by decide) (by decide) (by decide)),
      List.pairwise_cons.mpr ⟨fun b hb => (by cases hb), List.Pairwise.nil⟩⟩)
    (by decide) rfl rfl).2.2
    [{ mask := 0, id := 0x20, valid := true }, { mask := 0, id := 0x10, valid := true }]
    (List.Perm.swap _ _ _)

/-! ## Recording of the slot index -/

theorem master_free_smes_invalid_only (db : Bool) (smmu : arm_smmu_device) (x : Nat) :
    (arm_smmu_master_free_smes db smmu
      { ids := [x], iommu_priv := { smendx := [INVALID_SMENDX] } }).1.s2crs = smmu.s2crs := by
  obtain ⟨_, f2, _⟩ := free_sme_fields db smmu INVALID_SMENDX
  have hneg : INVALID_SMENDX < 0 := by decide
  have hfree : (arm_smmu_free_sme db smmu INVALID_SMENDX).2.s2crs = smmu.s2crs := by
    rw [f2]
    split <;> exact arr_set_neg _ _ _ hneg
  have hidx : fwspec_smendx { ids := [x], iommu_priv := { smendx := [INVALID_SMENDX] } } 0 =
      INVALID_SMENDX := rfl
  show (master_free_smes_loop db 1 0 smmu
    { ids := [x], iommu_priv := { smendx := [INVALID_SMENDX] } }).1.s2crs = smmu.s2crs
  simp only [master_free_smes_loop, hidx]
  exact hfree

theorem direct_add_remove_0xffff (db : Bool) (smmu : arm_smmu_device) (n : Nat)
    (hn : 65535 < n) (hsm : smmu.smrs = none)
    (hs2 : smmu.s2crs = List.replicate n (s2cr_init_val db)) :
    (sme_run db { smmu := smmu, masters := [] }
      [sme_op.add_device [0xffff] 5, sme_op.remove_device 0]).masters = [] ∧
    arr_get (sme_run db { smmu := smmu, masters := [] }
      [sme_op.add_device [0xffff] 5, sme_op.remove_device 0]).smmu.s2crs
      ((65535 : Nat) : Int) = { (s2cr_init_val db) with count := 1 } := by
  obtain ⟨h1, h2, h3⟩ := direct_alloc_0xffff db smmu 5 hsm
  have hret : (arm_smmu_master_alloc_smes db smmu (fresh_fwspec [0xffff]) 5).1 = 0 := by
    rw [h1]; decide
  have hrun : sme_run db { smmu := smmu, masters := [] }
      [sme_op.add_device [0xffff] 5, sme_op.remove_device 0] =
      { smmu := (arm_smmu_master_free_smes db
          (arm_smmu_master_alloc_smes db smmu (fresh_fwspec [0xffff]) 5).2.1
          { ids := [0xffff], iommu_priv := { smendx := [INVALID_SMENDX] } }).1,
        masters := [] } := by
    simp only [sme_run, List.foldl, sme_step, hret, if_true, List.nil_append, h3,
      List.get?_cons_zero, List.eraseIdx_cons_zero]
  rw [hrun]
  refine ⟨rfl, ?_⟩
  simp only []
  rw [master_free_smes_invalid_only, h2, hs2,
    arr_get_arr_set_nat _ _ _ _ (by rw [List.length_replicate]; exact hn), if_pos rfl,
    arr_get_replicate n 65535 _ hn]
  rfl

/-- C29. The slot index is not recorded faithfully on a stream-indexing controller with
extended stream IDs: the stream ID `0xffff` passes the validation of
`arm_smmu_add_device`, `arm_smmu_find_sme` returns the slot 65535, but the `s16` member
`smendx` records `(s16)65535 = -1 = INVALID_SMENDX`; the call returns 0, and a later
`remove_device` of that master releases nothing: slot 65535 keeps reference count 1
with no master left. -/
theorem smendx_truncated_exids_0xffff :
    add_device_check_ids sample_exids_smmu [0xffff] = true ∧
    arm_smmu_find_sme sample_exids_smmu 0xffff 0 = 65535 ∧
    s16_cast 65535 = INVALID_SMENDX ∧
    (arm_smmu_add_device false sample_exids_smmu (add_device_lookup.generic [0xffff])
      sample_env).1 = 0 ∧
    (arm_smmu_add_device false sample_exids_smmu (add_device_lookup.generic [0xffff])
      sample_env).2.2 = some { ids := [0xffff], iommu_priv := { smendx := [INVALID_SMENDX] } } ∧
    (sme_run false { smmu := sample_exids_smmu, masters := [] }
      [sme_op.add_device [0xffff] 5, sme_op.remove_device 0]).masters = [] ∧
    (arr_get (sme_run false { smmu := sample_exids_smmu, masters := [] }
      [sme_op.add_device [0xffff] 5, sme_op.remove_device 0]).smmu.s2crs
      ((65535 : Nat) : Int)).count = 1 := by
  obtain ⟨a1, a2, _⟩ := direct_add_device_0xffff false sample_exids_smmu 65536 sample_env
    (by decide) rfl rfl (by decide) rfl rfl rfl rfl
  obtain ⟨r1, r2⟩ := direct_add_remove_0xffff false sample_exids_smmu 65536 (by decide) rfl rfl
  refine ⟨by decide, by decide, by decide, a1, a2, r1, ?_⟩
  rw [r2]

/-! ## Range invalidation -/

theorem tlb_inv_size_step (B m g : Nat) (hg : 0 < g) (hlt : (m + 1) * g < B) :
    ((m + 1) * g + (B - g % B)) % B = m * g := by
  rw [Nat.succ_mul] at hlt ⊢
  have hgB : g < B := by omega
  rw [Nat.mod_eq_of_lt hgB]
  have h1 : m * g + g + (B - g) = m * g + B := by omega
  rw [h1, Nat.add_mod_right, Nat.mod_eq_of_lt (by omega)]

theorem tlb_inv_range_loop_spec (bpl wbits step : Nat) (reg : tlb_reg) (granule : Nat)
    (hg : 0 < granule) : ∀ (m fuel iova : Nat),
    0 < m → m ≤ fuel → m * granule < 2 ^ bpl → iova < 2 ^ bpl →
    ∃ ws, tlb_inv_range_loop bpl wbits step reg fuel iova (m * granule) granule = some ws ∧
      ws.length = m ∧
      ∀ i, i < m → ws[i]? =
        some { reg := reg, bits := wbits, val := ((iova + i * step) % 2 ^ bpl) % 2 ^ wbits } := by
  intro m
  induction m with
  | zero =>
    intro fuel iova hm
    omega
  | succ m ih =>
    intro fuel iova _ hfuel hsz hiova
    obtain ⟨fuel1, hf1⟩ : ∃ f, fuel = f + 1 := ⟨fuel - 1, by omega⟩
    subst hf1
    unfold tlb_inv_range_loop
    simp only []
    rw [tlb_inv_size_step (2 ^ bpl) m granule hg hsz]
    by_cases hm0 : m = 0
    · subst hm0
      simp only [Nat.zero_mul, ne_eq, not_true_eq_false, if_false]
      refine ⟨_, rfl, rfl, ?_⟩
      intro i hi
      have hi0 : i = 0 := by omega
      subst hi0
      simp only [Nat.zero_mul, Nat.add_zero, Nat.mod_eq_of_lt hiova, List.getElem?_cons_zero]
    · have hmg : m * granule ≠ 0 := by
        have : 0 < m * granule := Nat.mul_pos (by omega) hg
        omega
      rw [if_pos hmg]
      have hsz1 : m * granule < 2 ^ bpl := by
        rw [Nat.succ_mul] at hsz; omega
      obtain ⟨ws, hws, hlen, hget⟩ := ih fuel1 ((iova + step) % 2 ^ bpl) (by omega) (by omega)
        hsz1 (Nat.mod_lt _ (by positivity))
      rw [hws]
      refine ⟨_, rfl, by simp only [List.length_cons, hlen], ?_⟩
      intro i hi
      cases i with
      | zero =>
        simp only [Nat.zero_mul, Nat.add_zero, Nat.mod_eq_of_lt hiova, List.getElem?_cons_zero]
      | succ i =>
        simp only [List.getElem?_cons_succ]
        rw [hget i (by omega), Nat.mod_add_mod]
        have : iova + step + i * step = iova + (i + 1) * step := by
          rw [Nat.succ_mul]; omega
        rw [this]

theorem page_of_step (iova i granule : Nat) (h : 4096 ∣ granule) :
    iova >>> 12 + i * (granule >>> 12) = (iova + i * granule) / 4096 := by
  obtain ⟨b, rfl⟩ := h
  have h1 : (4096 * b) >>> 12 = b := by
    rw [Nat.shiftRight_eq_div_pow]
    exact Nat.mul_div_cancel_left b (by norm_num)
  have h2 : i * (4096 * b) = 4096 * (i * b) := by ring
  rw [h1, h2, Nat.shiftRight_eq_div_pow]
  generalize i * b = c
  omega

theorem asid_field_above (asid k : Nat) (hk : k ≤ 48) (P : Nat) :
    (P ||| (asid <<< 48) % 2 ^ 64) % 2 ^ k = P % 2 ^ k := by
  apply Nat.eq_of_testBit_eq
  intro j
  simp only [Nat.testBit_mod_two_pow, Nat.testBit_or, Nat.testBit_shiftLeft]
  by_cases hj : j < k
  · have h48 : ¬ (j ≥ 48) := by omega
    simp [hj, h48]
  · simp [hj]

theorem s1_word_page (bpl iova asid : Nat) (hiova : iova < 2 ^ bpl) (hasid : asid < 4096) :
    ((iova &&& ((2 ^ bpl - 1) ^^^ 12)) ||| asid) % 2 ^ bpl / 4096 = iova / 4096 := by
  have e : (4096 : Nat) = 2 ^ 12 := by norm_num
  rw [e, ← Nat.shiftRight_eq_div_pow, ← Nat.shiftRight_eq_div_pow]
  apply Nat.eq_of_testBit_eq
  intro j
  have ha : asid.testBit (12 + j) = false :=
    Nat.testBit_lt_two_pow (lt_of_lt_of_le hasid (by
      rw [e]; exact Nat.pow_le_pow_right (by norm_num) (by omega)))
  have h12 : (12 : Nat).testBit (12 + j) = false :=
    Nat.testBit_lt_two_pow (lt_of_lt_of_le (by norm_num : (12 : Nat) < 2 ^ 12)
      (Nat.pow_le_pow_right (by norm_num) (by omega)))
  simp only [Nat.testBit_shiftRight, Nat.testBit_mod_two_pow, Nat.testBit_or, Nat.testBit_and,
    Nat.testBit_xor, Nat.testBit_two_pow_sub_one, ha, h12, Bool.or_false, Bool.xor_false]
  by_cases hj : 12 + j < bpl
  · simp [hj]
  · have hi : iova.testBit (12 + j) = false :=
      Nat.testBit_lt_two_pow (lt_of_lt_of_le hiova
        (Nat.pow_le_pow_right (by norm_num) (by omega)))
    simp [hj, hi]

/-- C25 (counterexample). With a granule of 2048 bytes, a range of 8192 bytes at address 0 of
a stage-1 AArch64 domain yields four commands that all carry page number 0 (the ASID 1 sits
in bits 63:48), although the third one (`i = 2`) should address `0 + 2 * 2048 = 4096`, which
lies in page 1: the address advances by `granule >> 12 = 0` pages per command. -/
theorem tlb_inv_range_sub_page_granule :
    arm_smmu_tlb_inv_range_nosync sample_kconfig 4 (sample_smmu 4) sample_cfg_aarch64
        0 8192 2048 true =
      some (List.replicate 4
        { reg := tlb_reg.ARM_SMMU_CB_S1_TLBIVAL, bits := 64, val := 1 <<< 48 }) ∧
    (1 <<< 48) % 2 ^ 48 = 0 ∧ (0 + 2 * 2048) / 4096 = 1 := by
  decide

/-- C25 (amended). On a stage-1 domain, or on a stage-2 domain of an SMMUv2, for every
granule > 0 and every size that is a positive multiple of the granule (both below the width
of `unsigned long`), `arm_smmu_tlb_inv_range_nosync` returns after exactly `size / granule`
commands. When the granule is a multiple of 4096, the `i`-th command addresses the page of
`iova + i * granule`: the page-addressed commands (stage-1 AArch64, stage 2) carry that page
number in their low `min(BITS_PER_LONG, 48)` bits, and the 32-bit stage-1 word carries it in
bits 31:12 as long as the ASID stays below 4096. -/
theorem tlb_inv_range_commands (kc : kconfig) (fuel : Nat) (smmu : arm_smmu_device)
    (cfg : arm_smmu_cfg) (iova size granule : Nat) (leaf : Bool)
    (hpath : cfg.cbar ≠ CBAR_TYPE_S2_TRANS ∨
      smmu.version = arm_smmu_arch_version.ARM_SMMU_V2)
    (hg : 0 < granule) (hsz0 : 0 < size) (hdvd : granule ∣ size)
    (hsz : size < 2 ^ BITS_PER_LONG kc) (hiova : iova < 2 ^ BITS_PER_LONG kc)
    (hfuel : size / granule ≤ fuel) :
    ∃ ws, arm_smmu_tlb_inv_range_nosync kc fuel smmu cfg iova size granule leaf = some ws ∧
      ws.length = size / granule ∧
      ∀ i, i < size / granule → ∃ w, ws[i]? = some w ∧
        (4096 ∣ granule →
          (cfg.cbar ≠ CBAR_TYPE_S2_TRANS →
            cfg.fmt ≠ arm_smmu_context_fmt.ARM_SMMU_CTX_FMT_AARCH64 →
            ARM_SMMU_CB_ASID smmu cfg < 4096 →
            w.val / 4096 = (iova + i * granule) / 4096 % 2 ^ 20) ∧
          (¬ (cfg.cbar ≠ CBAR_TYPE_S2_TRANS ∧
              cfg.fmt ≠ arm_smmu_context_fmt.ARM_SMMU_CTX_FMT_AARCH64) →
            w.val % 2 ^ min (BITS_PER_LONG kc) 48 =
              (iova + i * granule) / 4096 % 2 ^ min (BITS_PER_LONG kc) 48)) := by
  obtain ⟨m, rfl⟩ := hdvd
  have hm : 0 < m := by
    rcases Nat.eq_zero_or_pos m with h0 | h0
    · subst h0; simp at hsz0
    · exact h0
  rw [Nat.mul_div_cancel_left m hg] at hfuel ⊢
  rw [Nat.mul_comm granule m] at hsz ⊢
  have hbpl : BITS_PER_LONG kc = 64 ∨ BITS_PER_LONG kc = 32 := by
    unfold BITS_PER_LONG
    cases kc.CONFIG_64BIT <;> simp
  unfold arm_smmu_tlb_inv_range_nosync
  simp only []
  generalize BITS_PER_LONG kc = bpl at *
  have hpos : 0 < 2 ^ bpl := by positivity
  by_cases hc : cfg.cbar ≠ CBAR_TYPE_S2_TRANS
  · rw [if_pos hc]
    by_cases hf : cfg.fmt ≠ arm_smmu_context_fmt.ARM_SMMU_CTX_FMT_AARCH64
    · rw [if_pos hf]
      obtain ⟨ws, hws, hlen, hget⟩ := tlb_inv_range_loop_spec bpl 32 granule
        (if leaf then tlb_reg.ARM_SMMU_CB_S1_TLBIVAL else tlb_reg.ARM_SMMU_CB_S1_TLBIVA)
        granule hg m fuel
        (((iova &&& ((2 ^ bpl - 1) ^^^ 12)) ||| ARM_SMMU_CB_ASID smmu cfg) % 2 ^ bpl)
        hm hfuel hsz (Nat.mod_lt _ hpos)
      refine ⟨ws, hws, hlen, fun i hi => ⟨_, hget i hi, fun h4 =>
        ⟨fun _ _ hasid => ?_, fun hn => absurd ⟨hc, hf⟩ hn⟩⟩⟩
      have hX := s1_word_page bpl iova (ARM_SMMU_CB_ASID smmu cfg) hiova hasid
      obtain ⟨b, rfl⟩ := h4
      have h2 : i * (4096 * b) = 4096 * (i * b) := by ring
      simp only [h2]
      generalize ((iova &&& ((2 ^ bpl - 1) ^^^ 12)) ||| ARM_SMMU_CB_ASID smmu cfg) % 2 ^ bpl
        = Y at hX ⊢
      generalize i * b = c
      rcases hbpl with hb | hb <;> subst hb <;> norm_num <;> omega
    · rw [if_neg hf]
      obtain ⟨ws, hws, hlen, hget⟩ := tlb_inv_range_loop_spec bpl 64 (granule >>> 12)
        (if leaf then tlb_reg.ARM_SMMU_CB_S1_TLBIVAL else tlb_reg.ARM_SMMU_CB_S1_TLBIVA)
        granule hg m fuel
        ((iova >>> 12 ||| (ARM_SMMU_CB_ASID smmu cfg <<< 48) % 2 ^ 64) % 2 ^ bpl)
        hm hfuel hsz (Nat.mod_lt _ hpos)
      refine ⟨ws, hws, hlen, fun i hi => ⟨_, hget i hi, fun h4 =>
        ⟨fun _ hf2 => absurd hf2 hf, fun _ => ?_⟩⟩⟩
      rw [← page_of_step iova i granule h4]
      have hk : min bpl 48 ≤ 48 := Nat.min_le_right _ _
      have hA := asid_field_above (ARM_SMMU_CB_ASID smmu cfg) (min bpl 48) hk (iova >>> 12)
      have hY : (iova >>> 12 ||| (ARM_SMMU_CB_ASID smmu cfg <<< 48) % 2 ^ 64) % 2 ^ bpl
          % 2 ^ min bpl 48 = (iova >>> 12) % 2 ^ min bpl 48 := by
        rw [Nat.mod_mod_of_dvd _ (Nat.pow_dvd_pow 2 (Nat.min_le_left _ _)), hA]
      simp only []
      generalize (iova >>> 12 ||| (ARM_SMMU_CB_ASID smmu cfg <<< 48) % 2 ^ 64) % 2 ^ bpl
        = Y at hY ⊢
      generalize iova >>> 12 = P at hY ⊢
      generalize i * (granule >>> 12) = c
      rcases hbpl with hb | hb <;> subst hb <;> norm_num at hY ⊢ <;> omega
  · rw [if_neg hc]
    have hv : smmu.version = arm_smmu_arch_version.ARM_SMMU_V2 := by
      rcases hpath with h | h
      · exact absurd h hc
      · exact h
    rw [if_pos hv]
    have hP : iova >>> 12 < 2 ^ bpl := by
      rw [Nat.shiftRight_eq_div_pow]
      exact lt_of_le_of_lt (Nat.div_le_self _ _) hiova
    obtain ⟨ws, hws, hlen, hget⟩ := tlb_inv_range_loop_spec bpl bpl (granule >>> 12)
      (if leaf then tlb_reg.ARM_SMMU_CB_S2_TLBIIPAS2L else tlb_reg.ARM_SMMU_CB_S2_TLBIIPAS2)
      granule hg m fuel (iova >>> 12) hm hfuel hsz hP
    refine ⟨ws, hws, hlen, fun i hi => ⟨_, hget i hi, fun h4 =>
      ⟨fun hc2 => absurd hc2 hc, fun _ => ?_⟩⟩⟩
    rw [← page_of_step iova i granule h4]
    simp only []
    generalize iova >>> 12 = P
    generalize i * (granule >>> 12) = c
    rcases hbpl with hb | hb <;> subst hb <;> norm_num

/-- Witness for `tlb_inv_range_commands`: two pages of 4096 bytes at address `0x1000` of a
stage-1 AArch64 domain on a 64-bit kernel. -/
theorem tlb_inv_range_commands_witness :
    ∃ ws, arm_smmu_tlb_inv_range_nosync sample_kconfig 2 (sample_smmu 4) sample_cfg_aarch64
        0x1000 8192 4096 true = some ws ∧
      ws.length = 8192 / 4096 ∧
      ∀ i, i < 8192 / 4096 → ∃ w, ws[i]? = some w ∧
        (4096 ∣ 4096 →
          (sample_cfg_aarch64.cbar ≠ CBAR_TYPE_S2_TRANS →
            sample_cfg_aarch64.fmt ≠ arm_smmu_context_fmt.ARM_SMMU_CTX_FMT_AARCH64 →
            ARM_SMMU_CB_ASID (sample_smmu 4) sample_cfg_aarch64 < 4096 →
            w.val / 4096 = (0x1000 + i * 4096) / 4096 % 2 ^ 20) ∧
          (¬ (sample_cfg_aarch64.cbar ≠ CBAR_TYPE_S2_TRANS ∧
              sample_cfg_aarch64.fmt ≠ arm_smmu_context_fmt.ARM_SMMU_CTX_FMT_AARCH64) →
            w.val % 2 ^ min (BITS_PER_LONG sample_kconfig) 48 =
              (0x1000 + i * 4096) / 4096 % 2 ^ min (BITS_PER_LONG sample_kconfig) 48)) :=
  tlb_inv_range_commands sample_kconfig 2 (sample_smmu 4) sample_cfg_aarch64 0x1000 8192 4096
    true (Or.inl (by decide)) (by decide) (by decide) (by decide) (by decide) (by decide)
    (by decide)

/-- C30. On a stage-1 AArch32 domain with ASID 1, invalidating the two pages of the range
that starts at `iova = 0x1ff0` writes the words `0x1ff1` and `0x2ff1`, not the words
`0x1001` and `0x2001` that `(((iova + i * granule) & ~0xfff) | ASID)` gives: the code masks
with `~12UL`, which clears bits 2 and 3 only and leaves the rest of the page offset under
the ASID. For the page-aligned `iova = 0x1000` the words are `0x1001` and `0x2001`. -/
theorem tlb_inv_range_word_keeps_page_offset :
    ARM_SMMU_CB_ASID (sample_smmu 4) sample_cfg_aarch32 = 1 ∧
    arm_smmu_tlb_inv_range_nosync sample_kconfig 2 (sample_smmu 4) sample_cfg_aarch32
        0x1ff0 8192 4096 true =
      some [{ reg := tlb_reg.ARM_SMMU_CB_S1_TLBIVAL, bits := 32, val := 0x1ff1 },
            { reg := tlb_reg.ARM_SMMU_CB_S1_TLBIVAL, bits := 32, val := 0x2ff1 }] ∧
    (((0x1ff0 + 0 * 4096) &&& ((2 ^ 64 - 1) ^^^ 0xfff)) ||| 1) % 2 ^ 32 = 0x1001 ∧
    (((0x1ff0 + 1 * 4096) &&& ((2 ^ 64 - 1) ^^^ 0xfff)) ||| 1) % 2 ^ 32 = 0x2001 ∧
    arm_smmu_tlb_inv_range_nosync sample_kconfig 2 (sample_smmu 4) sample_cfg_aarch32
        0x1000 8192 4096 true =
      some [{ reg := tlb_reg.ARM_SMMU_CB_S1_TLBIVAL, bits := 32, val := 0x1001 },
            { reg := tlb_reg.ARM_SMMU_CB_S1_TLBIVAL, bits := 32, val := 0x2001 }] := by
  decide

end ArmSmmu
